import Mathlib

/-!
# The to-do creation handler (`src/lambda/index.js`)

A shallow embedding of the Lambda handler that creates a to-do item, together
with the parts of the JavaScript runtime it calls: strings as sequences of
UTF-16 code units, numbers as IEEE-754 binary64 values, `JSON.parse` and
`JSON.stringify`.  The store client, the identifier generator and the clock are
inputs of the model.
-/

namespace TodoLambda

/-! ## Strings -/

/-- A JavaScript string: its UTF-16 code units, in order.  The code units of a
real string are below `0x10000`; nothing below depends on that bound. -/
abbrev JSString := List Nat

/-- The UTF-16 code units of one Unicode scalar value. -/
def utf16Char (c : Char) : List Nat :=
  if c.toNat < 0x10000 then [c.toNat]
  else [0xD800 + (c.toNat - 0x10000) / 0x400, 0xDC00 + (c.toNat - 0x10000) % 0x400]

/-- The UTF-16 code units of a list of Unicode scalar values. -/
def utf16Chars : List Char → JSString
  | [] => []
  | c :: cs => utf16Char c ++ utf16Chars cs

/-- The JavaScript string written as the given literal. -/
def utf16 (s : String) : JSString := utf16Chars s.data

/-- A leading (high) surrogate code unit. -/
def isLeadingSurrogate (c : Nat) : Bool := 0xD800 ≤ c && c ≤ 0xDBFF

/-- A trailing (low) surrogate code unit. -/
def isTrailingSurrogate (c : Nat) : Bool := 0xDC00 ≤ c && c ≤ 0xDFFF

/-- The code unit of the lowercase hexadecimal digit `d` (`d < 16`). -/
def hexDigit (d : Nat) : Nat := if d < 10 then 0x30 + d else 0x61 + (d - 10)

/-- UnicodeEscape: a backslash, `u` and four lowercase hexadecimal digits. -/
def unicodeEscape (c : Nat) : List Nat :=
  [0x5C, 0x75, hexDigit (c / 0x1000 % 16), hexDigit (c / 0x100 % 16),
    hexDigit (c / 0x10 % 16), hexDigit (c % 16)]

/-- What QuoteJSONString appends for a code unit that is not a surrogate. -/
def escapeUnit (c : Nat) : List Nat :=
  if c = 0x08 then [0x5C, 0x62]
  else if c = 0x09 then [0x5C, 0x74]
  else if c = 0x0A then [0x5C, 0x6E]
  else if c = 0x0C then [0x5C, 0x66]
  else if c = 0x0D then [0x5C, 0x72]
  else if c = 0x22 then [0x5C, 0x22]
  else if c = 0x5C then [0x5C, 0x5C]
  else if c < 0x20 then unicodeEscape c
  else [c]

/-- The text QuoteJSONString puts between the two quotes: a surrogate pair is
copied, a lone surrogate is written as a Unicode escape, every other code unit
goes through `escapeUnit`. -/
def quoteBody : List Nat → List Nat
  | [] => []
  | [c] =>
    if isLeadingSurrogate c || isTrailingSurrogate c then unicodeEscape c else escapeUnit c
  | c :: d :: rest =>
    if isLeadingSurrogate c then
      if isTrailingSurrogate d then c :: d :: quoteBody rest
      else unicodeEscape c ++ quoteBody (d :: rest)
    else if isTrailingSurrogate c then unicodeEscape c ++ quoteBody (d :: rest)
    else escapeUnit c ++ quoteBody (d :: rest)

/-- QuoteJSONString. -/
def quoteJSONString (s : JSString) : List Nat := 0x22 :: (quoteBody s ++ [0x22])

/-! ## Numbers -/

/-- A Number value.  `finite neg m e` is `(-1)^neg * m * 2^e`, held the way
binary64 holds it: `2^52 ≤ m < 2^53` with `-1074 ≤ e ≤ 971` for a normal number,
`m < 2^52` with `e = -1074` for a subnormal one and for the two zeros. -/
inductive JSNumber where
  | finite (neg : Bool) (m : Nat) (e : Int)
  | infinity (neg : Bool)
  | nan
  deriving DecidableEq, Repr

/-- The integer `⌊log₂ n⌋` for `0 < n ≤ 2^(fuel+1)`, by repeated halving, 64
halvings at a time while the number allows it. -/
def log2Aux : Nat → Nat → Nat
  | 0, _ => 0
  | fuel + 1, n =>
    if n < 2 then 0
    else if n < 2 ^ 64 then log2Aux fuel (n / 2) + 1
    else log2Aux fuel (n / 2 ^ 64) + 64

/-- The integer `⌊log₂ n⌋` (`0` for zero). -/
def log2 (n : Nat) : Nat := log2Aux n n

/-- The integer `⌊log₂ (num / den)⌋`, for positive `num` and `den`. -/
def floorLog2 (num den : Nat) : Int :=
  let e0 : Int := (log2 num : Int) - (log2 den : Int)
  if (if 0 ≤ e0 then den * 2 ^ e0.toNat ≤ num else den ≤ num * 2 ^ (-e0).toNat) then e0
  else e0 - 1

/-- The integer nearest to `num / den`, ties going to the even one. -/
def roundHalfEven (num den : Nat) : Nat :=
  let q := num / den
  let r := num % den
  if 2 * r < den then q
  else if den < 2 * r then q + 1
  else if q % 2 = 0 then q
  else q + 1

/-- The Number value of the real number `(-1)^neg * num / den`: the nearest
binary64 value, ties to even, `Infinity` from `2^1024 - 2^970` on. -/
def roundToDouble (neg : Bool) (num den : Nat) : JSNumber :=
  if num = 0 then .finite neg 0 (-1074)
  else
    let p : Int := max (floorLog2 num den - 52) (-1074)
    let m :=
      if 0 ≤ p then roundHalfEven num (den * 2 ^ p.toNat)
      else roundHalfEven (num * 2 ^ (-p).toNat) den
    let m1 := if m = 2 ^ 53 then 2 ^ 52 else m
    let p1 := if m = 2 ^ 53 then p + 1 else p
    if 971 < p1 then .infinity neg else .finite neg m1 p1

/-- The decimal digits of `n`, most significant first, at most `fuel + 1` of them. -/
def digitsAux : Nat → Nat → List Nat → List Nat
  | 0, n, acc => n % 10 :: acc
  | fuel + 1, n, acc => if n < 10 then n :: acc else digitsAux fuel (n / 10) (n % 10 :: acc)

/-- The decimal digits of `n`, most significant first (`[0]` for zero). -/
def decimalDigits (n : Nat) : List Nat := digitsAux n n []

/-- The code units of the decimal digits `ds`. -/
def digitUnits (ds : List Nat) : List Nat := ds.map (fun d => 0x30 + d)

/-- The integer `n` with `10^(n-1) ≤ num / den < 10^n`, for positive `num`, `den`. -/
def decimalExponent (num den : Nat) : Int :=
  if den ≤ num then ((decimalDigits (num / den)).length : Int)
  else
    let j0 := (decimalDigits (den / num)).length - 1
    if den ≤ num * 10 ^ j0 then 1 - (j0 : Int) else -(j0 : Int)

/-- The value of a decimal literal: `(-1)^neg * digits * 10^exp10`. -/
def decimalToDouble (neg : Bool) (digits : Nat) (exp10 : Int) : JSNumber :=
  if 0 ≤ exp10 then roundToDouble neg (digits * 10 ^ exp10.toNat) 1
  else roundToDouble neg digits (10 ^ (-exp10).toNat)

/-- The decimal `s * 10^q`, given as the pair `(s, q)`, that Number::toString
picks for the positive value `x = num / den` among the decimals of `k` digits,
if one of them reads back as `x`: of the two decimals of `k` digits around the
value (the upper one written with `k` digits again when it reaches `10^k`), the
one that reads back, the nearer one if both do, the even one on a tie. -/
def tryDigits (x : JSNumber) (num den : Nat) (n0 : Int) (k : Nat) : Option (Nat × Int) :=
  let t : Int := (k : Int) - n0
  let N := if 0 ≤ t then num * 10 ^ t.toNat else num
  let D := if 0 ≤ t then den else den * 10 ^ (-t).toNat
  let lo := N / D
  let r := N % D
  let hi : Nat × Int := if lo + 1 = 10 ^ k then (10 ^ (k - 1), 1 - t) else (lo + 1, -t)
  let okLo := decimalToDouble false lo (-t) == x
  let okHi := r != 0 && decimalToDouble false hi.1 hi.2 == x
  if okLo && okHi then
    some (if 2 * r < D then (lo, -t) else if D < 2 * r then hi
      else if lo % 2 = 0 then (lo, -t) else hi)
  else if okLo then some (lo, -t)
  else if okHi then some hi
  else none

/-- The exact decimal expansion of `m * 2^p`, as a pair `(s, q)` with value
`s * 10^q`. -/
def exactDecimal (m : Nat) (p : Int) : Nat × Int :=
  if 0 ≤ p then (m * 2 ^ p.toNat, 0) else (m * 5 ^ (-p).toNat, p)

/-- The shortest decimal that reads back as `x`, looked for from `k` digits up
to `k + fuel` digits.  Seventeen digits are enough for every binary64 value;
where none were found the exact decimal expansion `exact` stands in. -/
def shortestDecimal (x : JSNumber) (num den : Nat) (n0 : Int) (exact : Nat × Int) :
    Nat → Nat → Nat × Int
  | 0, k => (tryDigits x num den n0 k).getD exact
  | fuel + 1, k =>
    match tryDigits x num den n0 k with
    | some r => r
    | none => shortestDecimal x num den n0 exact fuel (k + 1)

/-- The text of the decimal with digits `ds` (`k` of them) and exponent `n`,
the value `0.ds * 10^n`: steps 6 to 10 of Number::toString. -/
def formatDecimal (ds : List Nat) (n : Int) : List Nat :=
  let k := ds.length
  if (k : Int) ≤ n ∧ n ≤ 21 then digitUnits ds ++ List.replicate (n.toNat - k) 0x30
  else if 0 < n ∧ n ≤ 21 then
    digitUnits (ds.take n.toNat) ++ 0x2E :: digitUnits (ds.drop n.toNat)
  else if -6 < n ∧ n ≤ 0 then
    0x30 :: 0x2E :: (List.replicate (-n).toNat 0x30 ++ digitUnits ds)
  else
    let expo := (if n - 1 < 0 then 0x2D else 0x2B) :: digitUnits (decimalDigits (n - 1).natAbs)
    match ds with
    | [] => []
    | [d] => (0x30 + d) :: 0x65 :: expo
    | d :: rest => (0x30 + d) :: 0x2E :: (digitUnits rest ++ 0x65 :: expo)

/-- Number::toString (radix 10): the digits of the shortest decimal `s * 10^q`
that reads back as the value, laid out for the exponent `n = q + k`, where `k`
is the number of digits of `s`. -/
def JSNumber.toJSString : JSNumber → JSString
  | .nan => utf16 "NaN"
  | .infinity neg => if neg then utf16 "-Infinity" else utf16 "Infinity"
  | .finite neg m p =>
    if m = 0 then [0x30]
    else
      let num := if 0 ≤ p then m * 2 ^ p.toNat else m
      let den := if 0 ≤ p then 1 else 2 ^ (-p).toNat
      let r := shortestDecimal (.finite false m p) num den (decimalExponent num den)
        (exactDecimal m p) 16 1
      (if neg then [0x2D] else []) ++
        formatDecimal (decimalDigits r.1) (r.2 + ((decimalDigits r.1).length : Int))

/-! ## Values -/

/-- An ECMAScript language value, as far as `JSON.parse` produces them and
`JSON.stringify` reads them.  The members of an object are its own properties
in the order in which `OrdinaryOwnPropertyKeys` lists them. -/
inductive JSValue where
  | undefined
  | null
  | bool (b : Bool)
  | number (x : JSNumber)
  | string (s : JSString)
  | array (items : List JSValue)
  | object (members : List (JSString × JSValue))

/-- The own property `k` of an object with the given members, `undefined` when
there is none. -/
def ownProperty : List (JSString × JSValue) → JSString → JSValue
  | [], _ => .undefined
  | (k', v) :: ms, k => if k' = k then v else ownProperty ms k

/-- Whether the members hold a property named `k`. -/
def hasOwnProperty : List (JSString × JSValue) → JSString → Bool
  | [], _ => false
  | (k', _) :: ms, k => k' = k || hasOwnProperty ms k

/-- The value of a run of decimal digit code units, read from the left. -/
def digitsValue : Nat → List Nat → Nat
  | acc, [] => acc
  | acc, c :: cs => digitsValue (10 * acc + (c - 0x30)) cs

/-- Whether `c` is the code unit of a decimal digit. -/
def isDigit (c : Nat) : Bool := 0x30 ≤ c && c ≤ 0x39

/-- The array index a property name stands for: the name is the canonical
decimal text of an integer below `2^32 - 1`. -/
def arrayIndex (k : JSString) : Option Nat :=
  match k with
  | [] => none
  | c :: cs =>
    if c = 0x30 then (if cs = [] then some 0 else none)
    else if isDigit c && cs.all isDigit && cs.length < 10 && digitsValue 0 k < 2 ^ 32 - 1 then
      some (digitsValue 0 k)
    else none

/-- Put the new property `k`, an array index `i`, in its place: after the array
indices below it, before every other property. -/
def insertIndexed (i : Nat) (k : JSString) (v : JSValue) :
    List (JSString × JSValue) → List (JSString × JSValue)
  | [] => [(k, v)]
  | (k', v') :: ms =>
    match arrayIndex k' with
    | some j => if i < j then (k, v) :: (k', v') :: ms else (k', v') :: insertIndexed i k v ms
    | none => (k, v) :: (k', v') :: ms

/-- Give the existing property `k` the value `v`, where it stands. -/
def replaceProperty (k : JSString) (v : JSValue) :
    List (JSString × JSValue) → List (JSString × JSValue)
  | [] => []
  | (k', v') :: ms =>
    if k' = k then (k', v) :: replaceProperty k v ms else (k', v') :: replaceProperty k v ms

/-- CreateDataProperty on an ordinary object: an existing property keeps its
place and takes the new value; a new one goes among the array indices, in
ascending order, or after all other properties, in creation order. -/
def createDataProperty (ms : List (JSString × JSValue)) (k : JSString) (v : JSValue) :
    List (JSString × JSValue) :=
  if hasOwnProperty ms k then replaceProperty k v ms
  else
    match arrayIndex k with
    | some i => insertIndexed i k v ms
    | none => ms ++ [(k, v)]

/-! ## `JSON.stringify` -/

/-- The texts of a list, with a comma between each two. -/
def joinComma : List (List Nat) → List Nat
  | [] => []
  | [t] => t
  | t :: ts => t ++ 0x2C :: joinComma ts

mutual
/-- SerializeJSONProperty without replacer or indentation: the JSON text of a
value, `none` where the operation returns `undefined`. -/
def serializeJSONProperty : JSValue → Option (List Nat)
  | .undefined => none
  | .null => some (utf16 "null")
  | .bool b => some (if b then utf16 "true" else utf16 "false")
  | .number x =>
    match x with
    | .finite _ _ _ => some x.toJSString
    | _ => some (utf16 "null")
  | .string s => some (quoteJSONString s)
  | .array items => some (0x5B :: (joinComma (serializeElements items) ++ [0x5D]))
  | .object members => some (0x7B :: (joinComma (serializeMembers members) ++ [0x7D]))
/-- The texts of the elements of an array: `null` for an element without one. -/
def serializeElements : List JSValue → List (List Nat)
  | [] => []
  | v :: vs =>
    (match serializeJSONProperty v with
      | some t => t
      | none => utf16 "null") :: serializeElements vs
/-- The texts `"key":value` of the members of an object; a member whose value
has no JSON text is left out. -/
def serializeMembers : List (JSString × JSValue) → List (List Nat)
  | [] => []
  | (k, v) :: ms =>
    match serializeJSONProperty v with
    | some t => (quoteJSONString k ++ 0x3A :: t) :: serializeMembers ms
    | none => serializeMembers ms
end

/-- The result of `JSON.stringify(value)` when the call stack has room for it: a
string, or `undefined`. -/
def JSON.stringify (value : JSValue) : JSValue :=
  match serializeJSONProperty value with
  | some t => .string t
  | none => .undefined

mutual
/-- How deep the arrays and objects of a value nest: `0` for a value that is
neither, one more than its deepest element or member for an array or object. -/
def JSValue.depth : JSValue → Nat
  | .array items => depthOfItems items + 1
  | .object members => depthOfMembers members + 1
  | _ => 0
/-- The depth of the deepest element of a list. -/
def depthOfItems : List JSValue → Nat
  | [] => 0
  | v :: vs => max v.depth (depthOfItems vs)
/-- The depth of the deepest member of a list. -/
def depthOfMembers : List (JSString × JSValue) → Nat
  | [] => 0
  | (_, v) :: ms => max v.depth (depthOfMembers ms)
end

/-! ## `JSON.parse` -/

/-- JSON white space: space, tab, line feed, carriage return. -/
def isWhiteSpace (c : Nat) : Bool := c = 0x20 || c = 0x09 || c = 0x0A || c = 0x0D

/-- Drop leading white space. -/
def skipWhiteSpace : List Nat → List Nat
  | [] => []
  | c :: cs => if isWhiteSpace c then skipWhiteSpace cs else c :: cs

/-- The value of a hexadecimal digit code unit, of either case. -/
def hexValue (c : Nat) : Option Nat :=
  if 0x30 ≤ c ∧ c ≤ 0x39 then some (c - 0x30)
  else if 0x41 ≤ c ∧ c ≤ 0x46 then some (c - 0x41 + 10)
  else if 0x61 ≤ c ∧ c ≤ 0x66 then some (c - 0x61 + 10)
  else none

/-- The code unit a single-character escape stands for. -/
def unescapeUnit (e : Nat) : Option Nat :=
  if e = 0x22 then some 0x22
  else if e = 0x5C then some 0x5C
  else if e = 0x2F then some 0x2F
  else if e = 0x62 then some 0x08
  else if e = 0x66 then some 0x0C
  else if e = 0x6E then some 0x0A
  else if e = 0x72 then some 0x0D
  else if e = 0x74 then some 0x09
  else none

/-- Read a JSON string from just after its opening quote: the string value and
the text after the closing quote.  A raw code unit below `0x20`, an unknown
escape and a missing closing quote are errors. -/
def parseStringBody : List Nat → Option (JSString × List Nat)
  | [] => none
  | c :: cs =>
    if c = 0x22 then some ([], cs)
    else if c = 0x5C then
      match cs with
      | [] => none
      | e :: cs1 =>
        if e = 0x75 then
          match cs1 with
          | h1 :: h2 :: h3 :: h4 :: cs2 =>
            match hexValue h1, hexValue h2, hexValue h3, hexValue h4 with
            | some a, some b, some c', some d =>
              match parseStringBody cs2 with
              | some r => some ((a * 0x1000 + b * 0x100 + c' * 0x10 + d) :: r.1, r.2)
              | none => none
            | _, _, _, _ => none
          | _ => none
        else
          match unescapeUnit e with
          | some u =>
            match parseStringBody cs1 with
            | some r => some (u :: r.1, r.2)
            | none => none
          | none => none
    else if c < 0x20 then none
    else
      match parseStringBody cs with
      | some r => some (c :: r.1, r.2)
      | none => none

/-- What the string reader makes of a text that puts the code unit `c` before
a text of which it makes `r`. -/
def consUnit (c : Nat) (r : Option (JSString × List Nat)) : Option (JSString × List Nat) :=
  match r with
  | some r => some (c :: r.1, r.2)
  | none => none

/-- The longest run of decimal digits at the head of the text, and the rest. -/
def takeDigits : List Nat → List Nat × List Nat
  | [] => ([], [])
  | c :: cs => if isDigit c then ((takeDigits cs).1.cons c, (takeDigits cs).2) else ([], c :: cs)

/-- The fraction part of a JSON number, if the text has one: its digits and
the rest.  A point with no digit after it is an error. -/
def parseFraction (cs : List Nat) : Option (List Nat × List Nat) :=
  match cs with
  | [] => some ([], [])
  | c :: cs1 =>
    if c = 0x2E then
      (if (takeDigits cs1).1 = [] then none else some (takeDigits cs1))
    else some ([], c :: cs1)

/-- The exponent part of a JSON number, if the text has one: its value and the
rest.  An `e` with no digit after the optional sign is an error. -/
def parseExponent (cs : List Nat) : Option (Int × List Nat) :=
  match cs with
  | [] => some (0, [])
  | c :: cs1 =>
    if c = 0x65 ∨ c = 0x45 then
      match cs1 with
      | [] => none
      | g :: cs2 =>
        if g = 0x2D then
          (if (takeDigits cs2).1 = [] then none
            else some (-(digitsValue 0 (takeDigits cs2).1 : Int), (takeDigits cs2).2))
        else if g = 0x2B then
          (if (takeDigits cs2).1 = [] then none
            else some ((digitsValue 0 (takeDigits cs2).1 : Int), (takeDigits cs2).2))
        else
          (if (takeDigits cs1).1 = [] then none
            else some ((digitsValue 0 (takeDigits cs1).1 : Int), (takeDigits cs1).2))
    else some (0, c :: cs1)

/-- Read the digits of a JSON number (after the sign): a lone `0` or a run of
digits that does not start with `0`, then the fraction and the exponent. -/
def parseUnsigned (neg : Bool) (cs : List Nat) : Option (JSNumber × List Nat) :=
  match cs with
  | [] => none
  | c :: cs1 =>
    if isDigit c then
      let intDigits := if c = 0x30 then [c] else c :: (takeDigits cs1).1
      let rest1 := if c = 0x30 then cs1 else (takeDigits cs1).2
      match parseFraction rest1 with
      | none => none
      | some (fracDigits, rest2) =>
        match parseExponent rest2 with
        | none => none
        | some (exp, rest3) =>
          some (decimalToDouble neg (digitsValue 0 (intDigits ++ fracDigits))
            (exp - (fracDigits.length : Int)), rest3)
    else none

/-- Read a JSON number: its Number value and the rest of the text. -/
def parseNumber (cs : List Nat) : Option (JSNumber × List Nat) :=
  match cs with
  | [] => none
  | c :: cs1 => if c = 0x2D then parseUnsigned true cs1 else parseUnsigned false (c :: cs1)

/-- The text after the given word, when the text starts with it. -/
def expectWord : List Nat → List Nat → Option (List Nat)
  | [], cs => some cs
  | _ :: _, [] => none
  | w :: ws, c :: cs => if w = c then expectWord ws cs else none

mutual
/-- Read one JSON value, white space before it allowed: the value and the rest
of the text.  `fuel` bounds the nesting of the recursion. -/
def parseValue : Nat → List Nat → Option (JSValue × List Nat)
  | 0, _ => none
  | fuel + 1, cs =>
    match skipWhiteSpace cs with
    | [] => none
    | c :: rest =>
      if c = 0x22 then
        match parseStringBody rest with
        | some r => some (.string r.1, r.2)
        | none => none
      else if c = 0x7B then
        match skipWhiteSpace rest with
        | [] => none
        | d :: rest1 => if d = 0x7D then some (.object [], rest1) else parseMembers fuel (d :: rest1) []
      else if c = 0x5B then
        match skipWhiteSpace rest with
        | [] => none
        | d :: rest1 => if d = 0x5D then some (.array [], rest1) else parseElements fuel (d :: rest1) []
      else if c = 0x74 then
        match expectWord (utf16 "rue") rest with
        | some r => some (.bool true, r)
        | none => none
      else if c = 0x66 then
        match expectWord (utf16 "alse") rest with
        | some r => some (.bool false, r)
        | none => none
      else if c = 0x6E then
        match expectWord (utf16 "ull") rest with
        | some r => some (.null, r)
        | none => none
      else
        match parseNumber (c :: rest) with
        | some r => some (.number r.1, r.2)
        | none => none
/-- Read the elements of an array from its first element to the closing
bracket; `acc` holds the elements read so far. -/
def parseElements : Nat → List Nat → List JSValue → Option (JSValue × List Nat)
  | 0, _, _ => none
  | fuel + 1, cs, acc =>
    match parseValue fuel cs with
    | none => none
    | some (v, rest) =>
      match skipWhiteSpace rest with
      | [] => none
      | d :: rest1 =>
        if d = 0x2C then parseElements fuel rest1 (acc ++ [v])
        else if d = 0x5D then some (.array (acc ++ [v]), rest1)
        else none
/-- Read the members of an object from its first key to the closing brace;
`acc` holds the properties created so far. -/
def parseMembers : Nat → List Nat → List (JSString × JSValue) → Option (JSValue × List Nat)
  | 0, _, _ => none
  | fuel + 1, cs, acc =>
    match skipWhiteSpace cs with
    | [] => none
    | q :: rest =>
      if q = 0x22 then
        match parseStringBody rest with
        | none => none
        | some (k, rest1) =>
          match skipWhiteSpace rest1 with
          | [] => none
          | colon :: rest2 =>
            if colon = 0x3A then
              match parseValue fuel rest2 with
              | none => none
              | some (v, rest3) =>
                match skipWhiteSpace rest3 with
                | [] => none
                | d :: rest4 =>
                  if d = 0x2C then parseMembers fuel rest4 (createDataProperty acc k v)
                  else if d = 0x7D then some (.object (createDataProperty acc k v), rest4)
                  else none
            else none
      else none
end

/-- An error object: its `name` and its `message`. -/
structure JSError where
  name : JSString
  message : JSString
  deriving DecidableEq

/-- What `JSON.parse` throws on a text that is not JSON. -/
def jsonParseError : JSError :=
  { name := utf16 "SyntaxError", message := utf16 "Unexpected token in JSON" }

/-- What a recursion throws when it exhausts the call stack. -/
def rangeError : JSError :=
  { name := utf16 "RangeError", message := utf16 "Maximum call stack size exceeded" }

/-- The call `JSON.stringify(value)` in a runtime whose call stack has room for
`stack` nested arrays and objects: SerializeJSONProperty calls itself once for
every level of nesting, and a value that nests deeper makes it throw a
RangeError. -/
def JSON.stringifyWithin (stack : Nat) (value : JSValue) : Except JSError JSValue :=
  if value.depth ≤ stack then .ok (JSON.stringify value) else .error rangeError

/-- What reading a property of `null` or `undefined` throws. -/
def nullPropertyError : JSError :=
  { name := utf16 "TypeError", message := utf16 "Cannot read properties of null" }

/-- The result of `JSON.parse(text)`: the value of the text, which is one JSON
value with optional white space around it, or a thrown SyntaxError.  The fuel
handed to `parseValue` is never the reason for an error: more fuel gives the
same result (`parseValue_fuel_stable`). -/
def JSON.parse (text : JSString) : Except JSError JSValue :=
  match parseValue (2 * text.length + 2) text with
  | some (v, rest) => if skipWhiteSpace rest = [] then .ok v else .error jsonParseError
  | none => .error jsonParseError

/-! ## The handler -/

/-- The property access `value.task`: a TypeError on `null` and `undefined`,
the own property of an object, and `undefined` on every other value (no
prototype defines a property of that name). -/
def JSValue.task : JSValue → Except JSError JSValue
  | .undefined => .error nullPropertyError
  | .null => .error nullPropertyError
  | .object members => .ok (ownProperty members (utf16 "task"))
  | _ => .ok .undefined

/-- The property access `value[k]` for a name `k` that no prototype defines, on
a value that is neither `null` nor `undefined`: the own property of an object,
`undefined` otherwise. -/
def JSValue.get : JSValue → JSString → JSValue
  | .object members, k => ownProperty members k
  | _, _ => .undefined

/-- The invocation event: its `body`, a string. -/
structure Event where
  body : JSString

/-- The response object the handler returns. -/
structure Response where
  statusCode : Nat
  body : JSValue

/-- The input of a `PutCommand`: the table name (`process.env.TABLE_NAME`, which
may be unset) and the item. -/
structure PutCommandInput where
  TableName : Option JSString
  Item : JSValue

/-- What one invocation finds outside the handler: the table name read when the
module was loaded, the value `randomUUID()` returns, the value
`new Date().toISOString()` returns, how `ddbDocClient.send` answers a put (it
resolves, or it rejects with an error), and the number of nested levels that
`JSON.stringify` can follow before the call stack is exhausted; the stack has
room for the two levels of the handler's own response objects. -/
structure Runtime where
  tableName : Option JSString
  randomUUID : JSString
  now : JSString
  send : PutCommandInput → Except JSError Unit
  stack : Nat
  stack_room : 2 ≤ stack

/-- What the handler does to the outside: a put sent to the store, an error
written with `console.error`. -/
inductive Effect where
  | send (input : PutCommandInput)
  | consoleError (err : JSError)

/-- How an invocation ends (a response returned, or an error thrown out of the
handler) and what it did on the way, in order. -/
structure Outcome where
  result : Except JSError Response
  effects : List Effect

/-- The object `params` the handler builds for the task read from the body. -/
def params (rt : Runtime) (task : JSValue) : PutCommandInput :=
  { TableName := rt.tableName
    Item := .object
      [(utf16 "id", .string rt.randomUUID),
       (utf16 "task", task),
       (utf16 "completed", .bool false),
       (utf16 "createdAt", .string rt.now)] }

/-- The `catch` block of the handler, entered with the error `err` after the
put of `input` was sent: the error is logged and the 500 response returned. -/
def catchBlock (rt : Runtime) (input : PutCommandInput) (err : JSError) : Outcome :=
  match JSON.stringifyWithin rt.stack (.object
      [(utf16 "message", .string (utf16 "Could not create to-do item"))]) with
  | .ok text =>
    { result := .ok { statusCode := 500, body := text }
      effects := [.send input, .consoleError err] }
  | .error e => { result := .error e, effects := [.send input, .consoleError err] }

/-- The handler of `index.js`.  The `try` block holds the put and the
`JSON.stringify` of the 201 response; what either throws enters the `catch`
block. -/
def handler (rt : Runtime) (event : Event) : Outcome :=
  match JSON.parse event.body with
  | .error e => { result := .error e, effects := [] }
  | .ok body =>
    match body.task with
    | .error e => { result := .error e, effects := [] }
    | .ok task =>
      match rt.send (params rt task) with
      | .ok _ =>
        match JSON.stringifyWithin rt.stack (.object
            [(utf16 "message", .string (utf16 "To-do item created successfully")),
             (utf16 "item", (params rt task).Item)]) with
        | .ok text =>
          { result := .ok { statusCode := 201, body := text }
            effects := [.send (params rt task)] }
        | .error err => catchBlock rt (params rt task) err
      | .error err => catchBlock rt (params rt task) err

/-! ## Texts and values of the proofs -/

/-- The text `T` reads as the value `v` wherever it stands: `parseValue`, with
`n` or more units of fuel, takes exactly `T` off the front of any text and
returns `v`. -/
def ReadsAs (n : Nat) (T : List Nat) (v : JSValue) : Prop :=
  ∀ fuel rest, parseValue (fuel + n) (T ++ rest) = some (v, rest)

/-- A code unit that ends a member of an object or an element of an array: a
comma, a closing brace or a closing bracket. -/
def isDelimiter (d : Nat) : Bool := d = 0x2C || d = 0x7D || d = 0x5D

/-- The text `T` reads as the value `v` where a member of an object or an
element of an array stands: before a comma, a closing brace or a closing bracket
`parseValue`, with `n` or more units of fuel, returns `v` and leaves at most
white space before that delimiter. -/
def ReadsInPlace (n : Nat) (T : List Nat) (v : JSValue) : Prop :=
  ∀ fuel d rest, isDelimiter d = true →
    ∃ r, parseValue (fuel + n) (T ++ d :: rest) = some (v, r) ∧ skipWhiteSpace r = d :: rest

/-- The text of the 201 response body, for the identifier `id`, the JSON text
of the task (if it has one) and the timestamp `now`. -/
def createdText (id : JSString) (taskText : Option (List Nat)) (now : JSString) : List Nat :=
  utf16 "\x7b\"message\":\"To-do item created successfully\",\"item\":\x7b\"id\":"
    ++ (quoteJSONString id
    ++ ((match taskText with
          | some T => utf16 ",\"task\":" ++ T
          | none => [])
    ++ (utf16 ",\"completed\":false,\"createdAt\":"
    ++ (quoteJSONString now ++ utf16 "\x7d\x7d"))))

/-- The item read back from the 201 response body, when the text of the task
reads as `task`. -/
def decodedItem (id : JSString) (taskText : Option (List Nat)) (task : JSValue)
    (now : JSString) : JSValue :=
  .object ((utf16 "id", .string id) ::
    ((match taskText with
      | some _ => [(utf16 "task", task)]
      | none => [])
    ++ [(utf16 "completed", .bool false), (utf16 "createdAt", .string now)]))

/-- The value read back from the 201 response body, when the text of the task
reads as `task`. -/
def decodedBody (id : JSString) (taskText : Option (List Nat)) (task : JSValue)
    (now : JSString) : JSValue :=
  .object [(utf16 "message", .string (utf16 "To-do item created successfully")),
    (utf16 "item", decodedItem id taskText task now)]

/-! ## Values read back -/

/-- Whether the Number is a binary64 value: a finite one has the significand and
the exponent of a normal number, of a subnormal number or of a zero, as the
comment of `JSNumber` gives them. -/
def JSNumber.isDouble : JSNumber → Bool
  | .finite _ m e =>
    (2 ^ 52 ≤ m && m < 2 ^ 53 && -1074 ≤ e && e ≤ 971) || (m < 2 ^ 52 && e = -1074)
  | _ => true

/-- Whether the property named `a` stands before the property named `b` in
every object that holds both. -/
def keyBefore (a b : JSString) : Bool :=
  a != b &&
    match arrayIndex a, arrayIndex b with
    | some i, some j => i < j
    | some _, none => true
    | none, some _ => false
    | none, none => true

/-- The members stand in the order of OrdinaryOwnPropertyKeys, no name twice. -/
def KeysInOrder (ms : List (JSString × JSValue)) : Prop :=
  (ms.map Prod.fst).Pairwise (fun a b => keyBefore a b = true)

mutual
/-- What `JSON.parse` reads back from the `JSON.stringify` text of a value:
the value itself, but `0` for negative zero, `null` for a number that is not
finite and for an `undefined` element of an array, and an object without its
`undefined` members.  The value `undefined` itself has no JSON text: a member
that holds it is left out, and it reads back as `undefined`, the value of an
absent member. -/
def JSValue.readBack : JSValue → JSValue
  | .number x =>
    match x with
    | .finite neg m e => .number (.finite (if m = 0 then false else neg) m e)
    | _ => .null
  | .array items => .array (readBackItems items)
  | .object members => .object (readBackMembers members)
  | v => v
/-- The elements of an array, read back. -/
def readBackItems : List JSValue → List JSValue
  | [] => []
  | v :: vs =>
    (match v with
      | .undefined => .null
      | _ => v.readBack) :: readBackItems vs
/-- The members of an object, read back. -/
def readBackMembers : List (JSString × JSValue) → List (JSString × JSValue)
  | [] => []
  | (k, v) :: ms =>
    match v with
    | .undefined => readBackMembers ms
    | _ => (k, v.readBack) :: readBackMembers ms
end

/-- The value has a JSON text, and `JSON.parse` reads from it what `readBack`
says. -/
def ReadsBack (v : JSValue) : Prop :=
  ∃ T, serializeJSONProperty v = some T ∧ JSON.parse T = .ok v.readBack

mutual
/-- Whether `JSON.stringify` writes the value without loss: it holds no
negative zero, no number that is not finite and, inside an array or an object,
no `undefined`.  These are the values that `readBack` leaves as they are
(`readBack_eq_iff`). -/
def JSValue.isExact : JSValue → Bool
  | .number x =>
    match x with
    | .finite neg m _ => !(neg && m = 0)
    | _ => false
  | .array items => isExactItems items
  | .object members => isExactMembers members
  | _ => true
/-- Whether the elements of an array are written without loss. -/
def isExactItems : List JSValue → Bool
  | [] => true
  | v :: vs =>
    (match v with
      | .undefined => false
      | _ => v.isExact) && isExactItems vs
/-- Whether the members of an object are written without loss. -/
def isExactMembers : List (JSString × JSValue) → Bool
  | [] => true
  | (_, v) :: ms =>
    (match v with
      | .undefined => false
      | _ => v.isExact) && isExactMembers ms
end

/-- The value reads back from its own JSON text and, if it is an object, so
does each of its members. -/
def ReadsBackDeep (v : JSValue) : Prop :=
  ReadsBack v ∧ ∀ ms, v = .object ms → ∀ p ∈ ms, ReadsBack p.2

/-! ## The statements of the specification -/

/-- The text of the 500 response body. -/
def failureText : List Nat := utf16 "\x7b\"message\":\"Could not create to-do item\"\x7d"

/-- Two values agree on the four fields of a to-do item. -/
def SameItem (a b : JSValue) : Prop :=
  a.get (utf16 "id") = b.get (utf16 "id") ∧
  a.get (utf16 "task") = b.get (utf16 "task") ∧
  a.get (utf16 "completed") = b.get (utf16 "completed") ∧
  a.get (utf16 "createdAt") = b.get (utf16 "createdAt")

/-- The round trip of the specification, for one invocation: if it returns 201,
the body is a string, `JSON.parse` reads it, and the `item` read from it has the
four fields of the record of the one put the invocation sent. -/
def RoundTrips (rt : Runtime) (event : Event) : Prop :=
  ∀ r, (handler rt event).result = .ok r → r.statusCode = 201 →
    ∃ text decoded input, r.body = .string text ∧ JSON.parse text = .ok decoded ∧
      (handler rt event).effects = [.send input] ∧
      SameItem (decoded.get (utf16 "item")) input.Item

/-- The invocation ends with one of the two responses: 201 with the created
item, or 500 with the generic message. -/
def TwoResponses (rt : Runtime) (event : Event) : Prop :=
  (∃ task, (handler rt event).result = .ok
      { statusCode := 201
        body := JSON.stringify (.object
          [(utf16 "message", .string (utf16 "To-do item created successfully")),
           (utf16 "item", (params rt task).Item)]) }) ∨
  (handler rt event).result = .ok { statusCode := 500, body := .string failureText }

/-- The request body `{"task":s}` for the string `s`, as `JSON.stringify`
writes it. -/
def taskBody (s : JSString) : JSString :=
  utf16 "\x7b\"task\":" ++ (quoteJSONString s ++ utf16 "\x7d")

/-- The puts among the effects of an invocation, in order. -/
def puts : List Effect → List PutCommandInput
  | [] => []
  | .send input :: es => input :: puts es
  | .consoleError _ :: es => puts es

/-- The errors logged among the effects of an invocation, in order. -/
def logs : List Effect → List JSError
  | [] => []
  | .send _ :: es => logs es
  | .consoleError err :: es => err :: logs es

/-- The array nested `n + 1` levels deep: `[]` inside `n` arrays. -/
def nestedArray : Nat → JSValue
  | 0 => .array []
  | n + 1 => .array [nestedArray n]

/-- The JSON text of `nestedArray n`: `n + 1` opening brackets, then `n + 1`
closing brackets. -/
def nestedArrayText (n : Nat) : List Nat :=
  List.replicate (n + 1) 0x5B ++ List.replicate (n + 1) 0x5D

/-- The request body `{"task":[[...]]}` whose task is `nestedArray n`. -/
def deepBody (n : Nat) : JSString :=
  utf16 "\x7b\"task\":" ++ (nestedArrayText n ++ utf16 "\x7d")

/-- Modelled from the spec: `randomUUID` of Node's `crypto` module, of which the
repository holds no code. The specification has the `id` generated fresh and
unique per invocation; the model is a source that hands the `i`-th invocation
its identifier and never hands out the same identifier twice. -/
structure IdSource where
  randomUUID : Nat → JSString
  fresh : Function.Injective randomUUID

/-- One deployment of the function, which serves the invocations number 0, 1,
2, and so on: its table name, its source of identifiers, its clock, and how the
store answers the put of each invocation. -/
structure Deployment where
  tableName : Option JSString
  ids : IdSource
  clock : Nat → JSString
  send : Nat → PutCommandInput → Except JSError Unit
  stack : Nat
  stack_room : 2 ≤ stack

/-- What the `i`-th invocation of a deployment finds outside the handler. -/
def Deployment.invocation (d : Deployment) (i : Nat) : Runtime :=
  { tableName := d.tableName
    randomUUID := d.ids.randomUUID i
    now := d.clock i
    send := d.send i
    stack := d.stack
    stack_room := d.stack_room }

/-- A source of identifiers: the `i`-th one is `id-` followed by `i` zeros. -/
def sampleIds : IdSource :=
  { randomUUID := fun i => utf16 "id-" ++ List.replicate i 0x30
    fresh := fun i j h => by
      have h1 := congrArg List.length h
      simpa using h1 }

/-- A deployment whose store accepts every put. -/
def sampleDeployment : Deployment :=
  { tableName := some (utf16 "todos")
    ids := sampleIds
    clock := fun _ => utf16 "2024-01-01T00:00:00.000Z"
    send := fun _ _ => .ok ()
    stack := 4000
    stack_room := by decide }

/-- A runtime whose store accepts every put. -/
def acceptingRuntime : Runtime :=
  { tableName := some (utf16 "todos")
    randomUUID := utf16 "123e4567-e89b-42d3-a456-426614174000"
    now := utf16 "2024-01-01T00:00:00.000Z"
    send := fun _ => .ok ()
    stack := 4000
    stack_room := by decide }

/-- A runtime whose store rejects every put. -/
def rejectingRuntime : Runtime :=
  { tableName := none
    randomUUID := utf16 "123e4567-e89b-42d3-a456-426614174000"
    now := utf16 "2024-01-01T00:00:00.000Z"
    send := fun _ => .error
      { name := utf16 "ResourceNotFoundException"
        message := utf16 "Requested resource not found" }
    stack := 4000
    stack_room := by decide }

/-! ## Strings survive quoting and reading back -/

theorem hexValue_hexDigit (d : Nat) (h : d < 16) : hexValue (hexDigit d) = some d := by
  unfold hexDigit hexValue
  split_ifs <;> first | omega | (congr 1; omega)

theorem parseStringBody_unicodeEscape (c : Nat) (h : c < 0x10000) (t : List Nat) :
    parseStringBody (unicodeEscape c ++ t) = consUnit c (parseStringBody t) := by
  have e : c / 0x1000 % 16 * 0x1000 + c / 0x100 % 16 * 0x100 + c / 0x10 % 16 * 0x10 + c % 16
      = c := by omega
  rw [parseStringBody.eq_def]
  simp only [unicodeEscape, List.cons_append, List.nil_append]
  rw [hexValue_hexDigit _ (Nat.mod_lt _ (by norm_num)),
    hexValue_hexDigit _ (Nat.mod_lt _ (by norm_num)),
    hexValue_hexDigit _ (Nat.mod_lt _ (by norm_num)),
    hexValue_hexDigit _ (Nat.mod_lt _ (by norm_num))]
  simp [e, consUnit]

theorem parseStringBody_raw (c : Nat) (h1 : 0x20 ≤ c) (h2 : c ≠ 0x22) (h3 : c ≠ 0x5C)
    (t : List Nat) : parseStringBody (c :: t) = consUnit c (parseStringBody t) := by
  have h4 : ¬ c < 0x20 := by omega
  rw [parseStringBody.eq_def]
  simp [h2, h3, h4, consUnit]

theorem parseStringBody_single (e u : Nat) (h : unescapeUnit e = some u) (he : e ≠ 0x75)
    (t : List Nat) : parseStringBody (0x5C :: e :: t) = consUnit u (parseStringBody t) := by
  rw [parseStringBody.eq_def]
  simp [h, he, consUnit]

theorem parseStringBody_escapeUnit (c : Nat) (t : List Nat) :
    parseStringBody (escapeUnit c ++ t) = consUnit c (parseStringBody t) := by
  unfold escapeUnit
  split_ifs with h1 h2 h3 h4 h5 h6 h7 h8
  · subst h1; exact parseStringBody_single _ _ (by decide) (by decide) t
  · subst h2; exact parseStringBody_single _ _ (by decide) (by decide) t
  · subst h3; exact parseStringBody_single _ _ (by decide) (by decide) t
  · subst h4; exact parseStringBody_single _ _ (by decide) (by decide) t
  · subst h5; exact parseStringBody_single _ _ (by decide) (by decide) t
  · subst h6; exact parseStringBody_single _ _ (by decide) (by decide) t
  · subst h7; exact parseStringBody_single _ _ (by decide) (by decide) t
  · exact parseStringBody_unicodeEscape c (by omega) t
  · exact parseStringBody_raw c (by omega) h6 h7 t

/-- Reading back what QuoteJSONString wrote gives the string, and leaves what
follows the closing quote. -/
theorem parseStringBody_quoteBody (s : JSString) (rest : List Nat) :
    parseStringBody (quoteBody s ++ 0x22 :: rest) = some (s, rest) := by
  have h0 : parseStringBody (0x22 :: rest) = some ([], rest) := by
    rw [parseStringBody.eq_def]; simp
  induction s using quoteBody.induct with
  | case1 => simpa [quoteBody] using h0
  | case2 c h =>
    have hlt : c < 0x10000 := by
      simp [isLeadingSurrogate, isTrailingSurrogate] at h; omega
    simp only [quoteBody, h, if_true]
    rw [parseStringBody_unicodeEscape c hlt, h0]
    simp [consUnit]
  | case3 c h =>
    simp only [quoteBody, h, Bool.false_eq_true, if_false]
    rw [parseStringBody_escapeUnit, h0]
    simp [consUnit]
  | case4 c d rest' hc hd ih =>
    simp only [quoteBody, hc, hd, if_true, List.cons_append]
    have hc' := hc
    have hd' := hd
    simp only [isLeadingSurrogate, isTrailingSurrogate, Bool.and_eq_true,
      decide_eq_true_eq] at hc' hd'
    rw [parseStringBody_raw c (by omega) (by omega) (by omega),
      parseStringBody_raw d (by omega) (by omega) (by omega), ih]
    simp [consUnit]
  | case5 c d rest' hc hd ih =>
    simp only [quoteBody, hc, hd, Bool.false_eq_true, if_true, if_false, List.append_assoc]
    have hc' := hc
    simp only [isLeadingSurrogate, Bool.and_eq_true, decide_eq_true_eq] at hc'
    rw [parseStringBody_unicodeEscape c (by omega), ih]
    simp [consUnit]
  | case6 c d rest' hc hd ih =>
    simp only [quoteBody, hc, hd, Bool.false_eq_true, if_true, if_false, List.append_assoc]
    have hd' := hd
    simp only [isTrailingSurrogate, Bool.and_eq_true, decide_eq_true_eq] at hd'
    rw [parseStringBody_unicodeEscape c (by omega), ih]
    simp [consUnit]
  | case7 c d rest' hc hd ih =>
    simp only [quoteBody, hc, hd, Bool.false_eq_true, if_true, if_false, List.append_assoc]
    rw [parseStringBody_escapeUnit, ih]
    simp [consUnit]

/-! ## Reading back the response body -/

theorem readsAs_string (s : JSString) : ReadsAs 1 (quoteJSONString s) (.string s) := by
  intro fuel rest
  simp [parseValue, quoteJSONString, skipWhiteSpace, isWhiteSpace, parseStringBody_quoteBody]

theorem readsAs_null : ReadsAs 1 (utf16 "null") .null := by
  intro fuel rest
  have h : utf16 "null" = [0x6E, 0x75, 0x6C, 0x6C] := by decide
  have h' : utf16 "ull" = [0x75, 0x6C, 0x6C] := by decide
  simp [parseValue, h, h', skipWhiteSpace, isWhiteSpace, expectWord, utf16Chars]

theorem readsAs_true : ReadsAs 1 (utf16 "true") (.bool true) := by
  intro fuel rest
  have h : utf16 "true" = [0x74, 0x72, 0x75, 0x65] := by decide
  have h' : utf16 "rue" = [0x72, 0x75, 0x65] := by decide
  simp [parseValue, h, h', skipWhiteSpace, isWhiteSpace, expectWord, utf16Chars]

theorem readsAs_false : ReadsAs 1 (utf16 "false") (.bool false) := by
  intro fuel rest
  have h : utf16 "false" = [0x66, 0x61, 0x6C, 0x73, 0x65] := by decide
  have h' : utf16 "alse" = [0x61, 0x6C, 0x73, 0x65] := by decide
  simp [parseValue, h, h', skipWhiteSpace, isWhiteSpace, expectWord, utf16Chars]

theorem ReadsAs.mono {n : Nat} {T : List Nat} {v : JSValue} (h : ReadsAs n T v) (k : Nat) :
    ReadsAs (n + k) T v := by
  intro fuel rest
  have := h (fuel + k) rest
  rwa [Nat.add_assoc, Nat.add_comm k n] at this

theorem ReadsAs.inPlace {n : Nat} {T : List Nat} {v : JSValue} (h : ReadsAs n T v) :
    ReadsInPlace n T v := by
  intro fuel d rest hd
  refine ⟨d :: rest, h fuel (d :: rest), ?_⟩
  simp only [isDelimiter, Bool.or_eq_true, decide_eq_true_eq] at hd
  rcases hd with (rfl | rfl) | rfl <;> rfl

theorem ReadsAs.inPlace_text {T : List Nat} {v : JSValue} (h : ReadsAs 1 T v) :
    ReadsInPlace (2 * T.length + 2) T v := by
  intro fuel d rest hd
  have := h.inPlace (fuel + (2 * T.length + 1)) d rest hd
  rwa [Nat.add_assoc, show 2 * T.length + 1 + 1 = 2 * T.length + 2 by omega] at this

theorem parseMembers_comma {n : Nat} {T : List Nat} {v : JSValue} (h : ReadsInPlace n T v)
    (fuel : Nat) (k : JSString) (rest : List Nat) (acc : List (JSString × JSValue)) :
    parseMembers (fuel + n + 1) (quoteJSONString k ++ 0x3A :: (T ++ 0x2C :: rest)) acc
      = parseMembers (fuel + n) rest (createDataProperty acc k v) := by
  obtain ⟨r, hr, hws⟩ := h fuel 0x2C rest rfl
  rw [parseMembers]
  simp [quoteJSONString, skipWhiteSpace, isWhiteSpace, parseStringBody_quoteBody, hr, hws]

theorem parseMembers_close {n : Nat} {T : List Nat} {v : JSValue} (h : ReadsInPlace n T v)
    (fuel : Nat) (k : JSString) (rest : List Nat) (acc : List (JSString × JSValue)) :
    parseMembers (fuel + n + 1) (quoteJSONString k ++ 0x3A :: (T ++ 0x7D :: rest)) acc
      = some (.object (createDataProperty acc k v), rest) := by
  obtain ⟨r, hr, hws⟩ := h fuel 0x7D rest rfl
  rw [parseMembers]
  simp [quoteJSONString, skipWhiteSpace, isWhiteSpace, parseStringBody_quoteBody, hr, hws]


theorem serialize_created (rt : Runtime) (task : JSValue) :
    serializeJSONProperty (.object
      [(utf16 "message", .string (utf16 "To-do item created successfully")),
       (utf16 "item", (params rt task).Item)])
      = some (createdText rt.randomUUID (serializeJSONProperty task) rt.now) := by
  cases h : serializeJSONProperty task <;>
    simp only [serializeJSONProperty, serializeMembers, params, h, joinComma, createdText,
      quoteJSONString, List.append_assoc, List.cons_append, List.nil_append, Bool.false_eq_true,
      if_false] <;> rfl


theorem parseValue_object_open (fuel : Nat) (k : JSString) (cs : List Nat) :
    parseValue (fuel + 1) (0x7B :: (quoteJSONString k ++ cs))
      = parseMembers fuel (quoteJSONString k ++ cs) [] := by
  simp [parseValue, quoteJSONString, skipWhiteSpace, isWhiteSpace]

theorem createdText_some (id : JSString) (T : List Nat) (now : JSString) (rest : List Nat) :
    createdText id (some T) now ++ rest
      = 0x7B :: (quoteJSONString (utf16 "message") ++ 0x3A ::
          (quoteJSONString (utf16 "To-do item created successfully") ++ 0x2C ::
          (quoteJSONString (utf16 "item") ++ 0x3A ::
          ((0x7B :: (quoteJSONString (utf16 "id") ++ 0x3A ::
            (quoteJSONString id ++ 0x2C ::
            (quoteJSONString (utf16 "task") ++ 0x3A ::
            (T ++ 0x2C ::
            (quoteJSONString (utf16 "completed") ++ 0x3A ::
            (utf16 "false" ++ 0x2C ::
            (quoteJSONString (utf16 "createdAt") ++ 0x3A ::
            (quoteJSONString now ++ 0x7D :: [])))))))))
          ++ 0x7D :: rest)))) := by
  simp only [createdText, quoteJSONString, List.append_assoc, List.cons_append, List.nil_append]
  rfl

theorem createdText_none (id : JSString) (now : JSString) (rest : List Nat) :
    createdText id none now ++ rest
      = 0x7B :: (quoteJSONString (utf16 "message") ++ 0x3A ::
          (quoteJSONString (utf16 "To-do item created successfully") ++ 0x2C ::
          (quoteJSONString (utf16 "item") ++ 0x3A ::
          ((0x7B :: (quoteJSONString (utf16 "id") ++ 0x3A ::
            (quoteJSONString id ++ 0x2C ::
            (quoteJSONString (utf16 "completed") ++ 0x3A ::
            (utf16 "false" ++ 0x2C ::
            (quoteJSONString (utf16 "createdAt") ++ 0x3A ::
            (quoteJSONString now ++ 0x7D :: [])))))))
          ++ 0x7D :: rest)))) := by
  simp only [createdText, quoteJSONString, List.append_assoc, List.cons_append, List.nil_append]
  rfl

theorem createDataProperty_fresh (ms : List (JSString × JSValue)) (k : JSString) (v : JSValue)
    (h1 : hasOwnProperty ms k = false) (h2 : arrayIndex k = none) :
    createDataProperty ms k v = ms ++ [(k, v)] := by
  simp [createDataProperty, h1, h2]

theorem readsAs_item_some (id : JSString) (T : List Nat) (task : JSValue) (now : JSString)
    {n : Nat} (h : ReadsInPlace n T task) :
    ReadsAs (n + 6) (0x7B :: (quoteJSONString (utf16 "id") ++ 0x3A ::
            (quoteJSONString id ++ 0x2C ::
            (quoteJSONString (utf16 "task") ++ 0x3A ::
            (T ++ 0x2C ::
            (quoteJSONString (utf16 "completed") ++ 0x3A ::
            (utf16 "false" ++ 0x2C ::
            (quoteJSONString (utf16 "createdAt") ++ 0x3A ::
            (quoteJSONString now ++ 0x7D :: [])))))))))
      (decodedItem id (some T) task now) := by
  intro fuel rest
  simp only [List.append_assoc, List.cons_append, List.nil_append]
  rw [show fuel + (n + 6) = fuel + n + 5 + 1 by omega, parseValue_object_open (fuel + n + 5)]
  rw [show fuel + n + 5 = fuel + n + 3 + 1 + 1 by omega,
    parseMembers_comma (readsAs_string id).inPlace (fuel + n + 3)]
  rw [show fuel + n + 3 + 1 = fuel + 3 + n + 1 by omega, parseMembers_comma h (fuel + 3)]
  rw [show fuel + 3 + n = fuel + n + 1 + 1 + 1 by omega,
    parseMembers_comma readsAs_false.inPlace (fuel + n + 1)]
  rw [parseMembers_close (readsAs_string now).inPlace (fuel + n)]
  rw [createDataProperty_fresh [] _ _ rfl (by decide)]
  rw [createDataProperty_fresh _ _ _ (by simp [hasOwnProperty]; decide) (by decide)]
  rw [createDataProperty_fresh _ _ _ (by simp [hasOwnProperty]; decide) (by decide)]
  rw [createDataProperty_fresh _ _ _ (by simp [hasOwnProperty]; decide) (by decide)]
  simp [decodedItem]

theorem readsAs_item_none (id : JSString) (task : JSValue) (now : JSString) :
    ReadsAs 6 (0x7B :: (quoteJSONString (utf16 "id") ++ 0x3A ::
            (quoteJSONString id ++ 0x2C ::
            (quoteJSONString (utf16 "completed") ++ 0x3A ::
            (utf16 "false" ++ 0x2C ::
            (quoteJSONString (utf16 "createdAt") ++ 0x3A ::
            (quoteJSONString now ++ 0x7D :: [])))))))
      (decodedItem id none task now) := by
  intro fuel rest
  simp only [List.append_assoc, List.cons_append, List.nil_append]
  rw [parseValue_object_open (fuel + 5)]
  rw [parseMembers_comma (readsAs_string id).inPlace (fuel + 3)]
  rw [parseMembers_comma (readsAs_false.mono 1).inPlace (fuel + 1)]
  rw [parseMembers_close ((readsAs_string now).mono 1).inPlace fuel]
  rw [createDataProperty_fresh [] _ _ rfl (by decide)]
  rw [createDataProperty_fresh _ _ _ (by simp [hasOwnProperty]; decide) (by decide)]
  rw [createDataProperty_fresh _ _ _ (by simp [hasOwnProperty]; decide) (by decide)]
  simp [decodedItem]

theorem readsAs_created_none (id : JSString) (task : JSValue) (now : JSString) :
    ReadsAs 9 (createdText id none now) (decodedBody id none task now) := by
  intro fuel rest
  rw [createdText_none, parseValue_object_open (fuel + 8)]
  rw [parseMembers_comma ((readsAs_string _).mono 5).inPlace (fuel + 1)]
  rw [parseMembers_close (readsAs_item_none id task now).inPlace fuel]
  rw [createDataProperty_fresh [] _ _ rfl (by decide)]
  rw [createDataProperty_fresh _ _ _ (by simp [hasOwnProperty]; decide) (by decide)]
  simp [decodedBody]

theorem readsAs_created_some (id : JSString) (T : List Nat) (task : JSValue) (now : JSString)
    {n : Nat} (h : ReadsInPlace n T task) :
    ReadsAs (n + 9) (createdText id (some T) now) (decodedBody id (some T) task now) := by
  intro fuel rest
  rw [createdText_some]
  rw [show fuel + (n + 9) = fuel + n + 8 + 1 by omega, parseValue_object_open (fuel + n + 8)]
  rw [show fuel + n + 8 = fuel + n + 6 + 1 + 1 by omega,
    parseMembers_comma (readsAs_string _).inPlace (fuel + n + 6)]
  rw [show fuel + n + 6 + 1 = fuel + (n + 6) + 1 by omega,
    parseMembers_close (readsAs_item_some id T task now h).inPlace fuel]
  rw [createDataProperty_fresh [] _ _ rfl (by decide)]
  rw [createDataProperty_fresh _ _ _ (by simp [hasOwnProperty]; decide) (by decide)]
  simp [decodedBody]

theorem createdText_length (id : JSString) (taskText : Option (List Nat)) (now : JSString) :
    9 ≤ 2 * (createdText id taskText now).length + 2 := by
  have h : 4 ≤ (utf16
      "\x7b\"message\":\"To-do item created successfully\",\"item\":\x7b\"id\":").length := by
    decide
  simp only [createdText, List.length_append]
  omega

theorem createdText_length_some (id : JSString) (T : List Nat) (now : JSString) :
    2 * T.length + 2 + 9 ≤ 2 * (createdText id (some T) now).length + 2 := by
  have h : 5 ≤ (utf16
      "\x7b\"message\":\"To-do item created successfully\",\"item\":\x7b\"id\":").length := by
    decide
  simp only [createdText, List.length_append]
  omega

/-- `JSON.parse` of the 201 response body, when the text of the task reads as
`task` where it stands. -/
theorem parse_createdText (id : JSString) (taskText : Option (List Nat)) (task : JSValue)
    (now : JSString)
    (h : ∀ T, taskText = some T → ReadsInPlace (2 * T.length + 2) T task) :
    JSON.parse (createdText id taskText now) = .ok (decodedBody id taskText task now) := by
  cases taskText with
  | none =>
    obtain ⟨f, hf⟩ : ∃ f, 2 * (createdText id none now).length + 2 = f + 9 :=
      ⟨2 * (createdText id none now).length + 2 - 9,
        by have := createdText_length id none now; omega⟩
    have hr := readsAs_created_none id task now f []
    rw [List.append_nil] at hr
    simp [JSON.parse, hf, hr, skipWhiteSpace]
  | some T =>
    obtain ⟨f, hf⟩ : ∃ f, 2 * (createdText id (some T) now).length + 2
        = f + (2 * T.length + 2 + 9) :=
      ⟨2 * (createdText id (some T) now).length + 2 - (2 * T.length + 2 + 9),
        by have := createdText_length_some id T now; omega⟩
    have hr := readsAs_created_some id T task now (h T rfl) f []
    rw [List.append_nil] at hr
    simp [JSON.parse, hf, hr, skipWhiteSpace]


/-! ## The handler, case by case -/

theorem handler_of_parse_error (rt : Runtime) (event : Event) (e : JSError)
    (hparse : JSON.parse event.body = .error e) :
    handler rt event = { result := .error e, effects := [] } := by
  simp [handler, hparse]

theorem handler_of_task_error (rt : Runtime) (event : Event) (body : JSValue) (e : JSError)
    (hparse : JSON.parse event.body = .ok body) (htask : body.task = .error e) :
    handler rt event = { result := .error e, effects := [] } := by
  simp [handler, hparse, htask]

theorem depth_created (rt : Runtime) (task : JSValue) :
    (JSValue.object
      [(utf16 "message", .string (utf16 "To-do item created successfully")),
       (utf16 "item", (params rt task).Item)]).depth = task.depth + 2 := by
  simp [JSValue.depth, depthOfMembers, params]

theorem catchBlock_eq (rt : Runtime) (input : PutCommandInput) (err : JSError) :
    catchBlock rt input err =
      { result := .ok { statusCode := 500, body := .string failureText }
        effects := [.send input, .consoleError err] } := by
  have h : JSON.stringify (.object
      [(utf16 "message", .string (utf16 "Could not create to-do item"))])
      = .string failureText := by rfl
  have hd : (JSValue.object
      [(utf16 "message", .string (utf16 "Could not create to-do item"))]).depth ≤ rt.stack := by
    have := rt.stack_room
    simp [JSValue.depth, depthOfMembers]
    omega
  simp [catchBlock, JSON.stringifyWithin, hd, h]

theorem handler_of_send_ok (rt : Runtime) (event : Event) (body task : JSValue)
    (hparse : JSON.parse event.body = .ok body) (htask : body.task = .ok task)
    (hsend : rt.send (params rt task) = .ok ()) (hfit : task.depth + 2 ≤ rt.stack) :
    handler rt event =
      { result := .ok
          { statusCode := 201
            body := JSON.stringify (.object
              [(utf16 "message", .string (utf16 "To-do item created successfully")),
               (utf16 "item", (params rt task).Item)]) }
        effects := [.send (params rt task)] } := by
  have hd := depth_created rt task
  simp [handler, hparse, htask, hsend, JSON.stringifyWithin, hd, hfit]

theorem handler_of_overflow (rt : Runtime) (event : Event) (body task : JSValue)
    (hparse : JSON.parse event.body = .ok body) (htask : body.task = .ok task)
    (hsend : rt.send (params rt task) = .ok ()) (hdeep : rt.stack < task.depth + 2) :
    handler rt event =
      { result := .ok { statusCode := 500, body := .string failureText }
        effects := [.send (params rt task), .consoleError rangeError] } := by
  have hd := depth_created rt task
  have hnot : ¬ task.depth + 2 ≤ rt.stack := by omega
  simp [handler, hparse, htask, hsend, JSON.stringifyWithin, hd, hnot, catchBlock_eq]

theorem handler_of_send_error (rt : Runtime) (event : Event) (body task : JSValue)
    (err : JSError)
    (hparse : JSON.parse event.body = .ok body) (htask : body.task = .ok task)
    (hsend : rt.send (params rt task) = .error err) :
    handler rt event =
      { result := .ok { statusCode := 500, body := .string failureText }
        effects := [.send (params rt task), .consoleError err] } := by
  simp [handler, hparse, htask, hsend, catchBlock_eq]

theorem stringify_created (rt : Runtime) (task : JSValue) :
    JSON.stringify (.object
      [(utf16 "message", .string (utf16 "To-do item created successfully")),
       (utf16 "item", (params rt task).Item)])
      = .string (createdText rt.randomUUID (serializeJSONProperty task) rt.now) := by
  simp only [JSON.stringify, serialize_created]

theorem task_of_object (members : List (JSString × JSValue)) :
    (JSValue.object members).task = .ok (ownProperty members (utf16 "task")) := rfl

/-- An invocation that returns 201 read a task from the body and had its put
accepted. -/
theorem handler_201_inv (rt : Runtime) (event : Event) (r : Response)
    (hres : (handler rt event).result = .ok r) (h201 : r.statusCode = 201) :
    ∃ body task, JSON.parse event.body = .ok body ∧ body.task = .ok task ∧
      rt.send (params rt task) = .ok () ∧ task.depth + 2 ≤ rt.stack := by
  cases hparse : JSON.parse event.body with
  | error e => rw [handler_of_parse_error rt event e hparse] at hres; simp at hres
  | ok body =>
    cases htask : body.task with
    | error e => rw [handler_of_task_error rt event body e hparse htask] at hres; simp at hres
    | ok task =>
      cases hsend : rt.send (params rt task) with
      | error err =>
        rw [handler_of_send_error rt event body task err hparse htask hsend] at hres
        simp at hres
        subst hres
        simp at h201
      | ok u =>
        by_cases hfit : task.depth + 2 ≤ rt.stack
        · exact ⟨body, task, rfl, htask, hsend, hfit⟩
        · rw [handler_of_overflow rt event body task hparse htask hsend (by omega)] at hres
          simp at hres
          subst hres
          simp at h201

/-! ## The fuel of the parser -/

theorem parse_fuel_succ (fuel : Nat) :
    (∀ cs r, parseValue fuel cs = some r → parseValue (fuel + 1) cs = some r) ∧
    (∀ cs acc r, parseElements fuel cs acc = some r → parseElements (fuel + 1) cs acc = some r) ∧
    (∀ cs acc r, parseMembers fuel cs acc = some r → parseMembers (fuel + 1) cs acc = some r) := by
  induction fuel with
  | zero => simp [parseValue, parseElements, parseMembers]
  | succ n ih =>
    obtain ⟨ihv, ihe, ihm⟩ := ih
    refine ⟨?_, ?_, ?_⟩
    · intro cs r h
      rw [parseValue] at h ⊢
      split at h
      · simp at h
      · rename_i c rest heq
        split_ifs at h ⊢ with h1 h2 h3
        · exact h
        · split at h
          · simp at h
          · split_ifs at h ⊢
            · exact h
            · exact ihm _ _ _ h
        · split at h
          · simp at h
          · split_ifs at h ⊢
            · exact h
            · exact ihe _ _ _ h
        all_goals exact h
    · intro cs acc r h
      rw [parseElements] at h ⊢
      split at h
      · simp at h
      · rename_i v rest heq
        rw [ihv _ _ heq]
        dsimp only
        split at h
        · simp at h
        · split_ifs at h ⊢
          · exact ihe _ _ _ h
          · exact h
    · intro cs acc r h
      rw [parseMembers] at h ⊢
      split at h
      · simp at h
      · split_ifs at h ⊢
        split at h
        · simp at h
        · split at h
          · simp at h
          · split_ifs at h ⊢
            split at h
            · simp at h
            · rename_i v rest3 heq
              rw [ihv _ _ heq]
              dsimp only
              split at h
              · simp at h
              · split_ifs at h ⊢
                · exact ihm _ _ _ h
                · exact h

theorem skipWhiteSpace_length (cs : List Nat) : (skipWhiteSpace cs).length ≤ cs.length := by
  induction cs with
  | nil => simp [skipWhiteSpace]
  | cons c cs ih =>
    simp only [skipWhiteSpace]
    split_ifs
    · simp only [List.length_cons]; omega
    · exact Nat.le_refl _

theorem length_of_skipWhiteSpace {cs : List Nat} {c : Nat} {rest : List Nat}
    (h : skipWhiteSpace cs = c :: rest) : rest.length < cs.length := by
  have := skipWhiteSpace_length cs
  rw [h] at this
  simpa using this

theorem parseStringBody_length_aux (n : Nat) :
    ∀ cs : List Nat, cs.length ≤ n → ∀ r, parseStringBody cs = some r → r.2.length < cs.length := by
  induction n with
  | zero =>
    intro cs hcs r h
    have : cs = [] := List.length_eq_zero.mp (Nat.le_zero.mp hcs)
    subst this
    simp [parseStringBody] at h
  | succ n ih =>
    intro cs hcs r h
    rw [parseStringBody.eq_def] at h
    split at h
    · simp at h
    · rename_i c cs1
      simp only [List.length_cons] at hcs ⊢
      split_ifs at h
      · simp at h; subst h; simp
      · split at h
        · simp at h
        · rename_i e cs2
          simp only [List.length_cons] at hcs ⊢
          split_ifs at h
          · split at h
            · rename_i h1 h2 h3 h4 cs3
              simp only [List.length_cons] at hcs ⊢
              split at h
              · split at h
                · rename_i r' hr'
                  have := ih cs3 (by omega) r' hr'
                  simp at h; subst h
                  simp only; omega
                · simp at h
              · simp at h
            · simp at h
          · split at h
            · split at h
              · rename_i r' hr'
                have := ih cs2 (by omega) r' hr'
                simp at h; subst h
                simp only; omega
              · simp at h
            · simp at h
      · split at h
        · rename_i r' hr'
          have := ih cs1 (by omega) r' hr'
          simp at h; subst h
          simp only; omega
        · simp at h

theorem parseStringBody_length {cs : List Nat} {r : JSString × List Nat}
    (h : parseStringBody cs = some r) : r.2.length < cs.length :=
  parseStringBody_length_aux cs.length cs (Nat.le_refl _) r h

theorem expectWord_length (w : List Nat) :
    ∀ cs r, expectWord w cs = some r → r.length ≤ cs.length := by
  induction w with
  | nil => intro cs r h; simp [expectWord] at h; subst h; exact Nat.le_refl _
  | cons a w ih =>
    intro cs r h
    cases cs with
    | nil => simp [expectWord] at h
    | cons c cs =>
      simp only [expectWord] at h
      split_ifs at h
      have := ih cs r h
      simp only [List.length_cons]; omega

theorem takeDigits_length (cs : List Nat) : (takeDigits cs).2.length ≤ cs.length := by
  induction cs with
  | nil => simp [takeDigits]
  | cons c cs ih =>
    simp only [takeDigits]
    split_ifs
    · simp only [List.length_cons]; omega
    · exact Nat.le_refl _

theorem parseFraction_length {cs : List Nat} {r : List Nat × List Nat}
    (h : parseFraction cs = some r) : r.2.length ≤ cs.length := by
  unfold parseFraction at h
  split at h
  · simp at h; subst h; simp
  · rename_i c cs1
    split_ifs at h
    · simp at h; subst h
      have := takeDigits_length cs1
      simp only [List.length_cons]; omega
    · simp at h; subst h; simp

theorem parseExponent_length {cs : List Nat} {r : Int × List Nat}
    (h : parseExponent cs = some r) : r.2.length ≤ cs.length := by
  cases cs with
  | nil => simp only [parseExponent, Option.some.injEq] at h; subst h; exact Nat.le_refl _
  | cons c cs1 =>
    simp only [parseExponent] at h
    by_cases hc : c = 0x65 ∨ c = 0x45
    · rw [if_pos hc] at h
      cases cs1 with
      | nil => simp at h
      | cons g cs2 =>
        have h1 := takeDigits_length cs2
        have h2 := takeDigits_length (g :: cs2)
        simp only [List.length_cons] at h2 ⊢
        dsimp only at h
        split_ifs at h <;>
          (simp only [Option.some.injEq] at h; subst h; simp only; omega)
    · rw [if_neg hc] at h
      simp only [Option.some.injEq] at h; subst h; exact Nat.le_refl _

theorem parseUnsigned_length {neg : Bool} {cs : List Nat} {r : JSNumber × List Nat}
    (h : parseUnsigned neg cs = some r) : r.2.length < cs.length := by
  cases cs with
  | nil => simp [parseUnsigned] at h
  | cons c cs1 =>
    simp only [parseUnsigned] at h
    by_cases hd : isDigit c = true
    · rw [if_pos hd] at h
      have h3 := takeDigits_length cs1
      split at h
      · simp at h
      · rename_i fracDigits rest2 hf
        split at h
        · simp at h
        · rename_i exp rest3 he
          have h1 := parseFraction_length hf
          have h2 := parseExponent_length he
          simp only [Option.some.injEq] at h; subst h
          simp only [List.length_cons] at h1 h2 ⊢
          split_ifs at h1 <;> omega
    · rw [if_neg hd] at h
      simp at h

theorem parseNumber_length {cs : List Nat} {r : JSNumber × List Nat}
    (h : parseNumber cs = some r) : r.2.length < cs.length := by
  cases cs with
  | nil => simp [parseNumber] at h
  | cons c cs1 =>
    simp only [parseNumber] at h
    split_ifs at h
    · have := parseUnsigned_length h
      simp only [List.length_cons]; omega
    · exact parseUnsigned_length h

theorem parse_rest_length (fuel : Nat) :
    (∀ cs r, parseValue fuel cs = some r → r.2.length < cs.length) ∧
    (∀ cs acc r, parseElements fuel cs acc = some r → r.2.length < cs.length) ∧
    (∀ cs acc r, parseMembers fuel cs acc = some r → r.2.length < cs.length) := by
  induction fuel with
  | zero => simp [parseValue, parseElements, parseMembers]
  | succ n ih =>
    obtain ⟨ihv, ihe, ihm⟩ := ih
    refine ⟨?_, ?_, ?_⟩
    · intro cs r h
      rw [parseValue] at h
      split at h
      · simp at h
      · rename_i c rest heq
        have h0 := length_of_skipWhiteSpace heq
        split_ifs at h
        · split at h
          · rename_i r' hr'
            have := parseStringBody_length hr'
            simp only [Option.some.injEq] at h; subst h
            simp only; omega
          · simp at h
        · split at h
          · simp at h
          · rename_i d rest1 heq1
            have h1 := length_of_skipWhiteSpace heq1
            split_ifs at h
            · simp only [Option.some.injEq] at h; subst h
              simp only; omega
            · have := ihm _ _ _ h
              simp only [List.length_cons] at this; omega
        · split at h
          · simp at h
          · rename_i d rest1 heq1
            have h1 := length_of_skipWhiteSpace heq1
            split_ifs at h
            · simp only [Option.some.injEq] at h; subst h
              simp only; omega
            · have := ihe _ _ _ h
              simp only [List.length_cons] at this; omega
        · split at h
          · rename_i r' hr'
            have := expectWord_length _ _ _ hr'
            simp only [Option.some.injEq] at h; subst h
            simp only; omega
          · simp at h
        · split at h
          · rename_i r' hr'
            have := expectWord_length _ _ _ hr'
            simp only [Option.some.injEq] at h; subst h
            simp only; omega
          · simp at h
        · split at h
          · rename_i r' hr'
            have := expectWord_length _ _ _ hr'
            simp only [Option.some.injEq] at h; subst h
            simp only; omega
          · simp at h
        · split at h
          · rename_i r' hr'
            have := parseNumber_length hr'
            simp only [Option.some.injEq] at h; subst h
            simp only [List.length_cons] at this ⊢; omega
          · simp at h
    · intro cs acc r h
      rw [parseElements] at h
      split at h
      · simp at h
      · rename_i v rest heq
        have h0 := ihv _ _ heq
        split at h
        · simp at h
        · rename_i d rest1 heq1
          have h1 := length_of_skipWhiteSpace heq1
          simp only at h0
          split_ifs at h
          · have := ihe _ _ _ h
            omega
          · simp only [Option.some.injEq] at h; subst h
            simp only; omega
    · intro cs acc r h
      rw [parseMembers] at h
      split at h
      · simp at h
      · rename_i q rest heq
        have h0 := length_of_skipWhiteSpace heq
        split_ifs at h
        split at h
        · simp at h
        · rename_i k rest1 hk
          have h1 := parseStringBody_length hk
          simp only at h1
          split at h
          · simp at h
          · rename_i colon rest2 heq2
            have h2 := length_of_skipWhiteSpace heq2
            split_ifs at h
            split at h
            · simp at h
            · rename_i v rest3 hv
              have h3 := ihv _ _ hv
              simp only at h3
              split at h
              · simp at h
              · rename_i d rest4 heq4
                have h4 := length_of_skipWhiteSpace heq4
                split_ifs at h
                · have := ihm _ _ _ h
                  omega
                · simp only [Option.some.injEq] at h; subst h
                  simp only; omega

theorem parseValue_fuel_le {f g : Nat} (hfg : f ≤ g) {cs : List Nat} {r : JSValue × List Nat}
    (h : parseValue f cs = some r) : parseValue g cs = some r := by
  induction hfg with
  | refl => exact h
  | step _ ih => exact (parse_fuel_succ _).1 _ _ ih

theorem parseElements_fuel_le {f g : Nat} (hfg : f ≤ g) {cs : List Nat} {acc : List JSValue}
    {r : JSValue × List Nat} (h : parseElements f cs acc = some r) :
    parseElements g cs acc = some r := by
  induction hfg with
  | refl => exact h
  | step _ ih => exact (parse_fuel_succ _).2.1 _ _ _ ih

theorem parseMembers_fuel_le {f g : Nat} (hfg : f ≤ g) {cs : List Nat}
    {acc : List (JSString × JSValue)} {r : JSValue × List Nat}
    (h : parseMembers f cs acc = some r) : parseMembers g cs acc = some r := by
  induction hfg with
  | refl => exact h
  | step _ ih => exact (parse_fuel_succ _).2.2 _ _ _ ih

theorem parse_fuel_enough (fuel : Nat) :
    (∀ cs r, parseValue fuel cs = some r → parseValue (2 * cs.length + 2) cs = some r) ∧
    (∀ cs acc r, parseElements fuel cs acc = some r →
      parseElements (2 * cs.length + 3) cs acc = some r) ∧
    (∀ cs acc r, parseMembers fuel cs acc = some r →
      parseMembers (2 * cs.length + 1) cs acc = some r) := by
  induction fuel with
  | zero => simp [parseValue, parseElements, parseMembers]
  | succ n ih =>
    obtain ⟨ihv, ihe, ihm⟩ := ih
    refine ⟨?_, ?_, ?_⟩
    · intro cs r h
      show parseValue ((2 * cs.length + 1) + 1) cs = some r
      rw [parseValue] at h ⊢
      split at h
      · simp at h
      · rename_i c rest heq
        have h0 := length_of_skipWhiteSpace heq
        split_ifs at h ⊢
        · exact h
        · split at h
          · simp at h
          · rename_i d rest1 heq1
            have h1 := length_of_skipWhiteSpace heq1
            split_ifs at h ⊢
            · exact h
            · exact parseMembers_fuel_le (by simp only [List.length_cons]; omega) (ihm _ _ _ h)
        · split at h
          · simp at h
          · rename_i d rest1 heq1
            have h1 := length_of_skipWhiteSpace heq1
            split_ifs at h ⊢
            · exact h
            · exact parseElements_fuel_le (by simp only [List.length_cons]; omega) (ihe _ _ _ h)
        all_goals exact h
    · intro cs acc r h
      show parseElements ((2 * cs.length + 2) + 1) cs acc = some r
      rw [parseElements] at h ⊢
      split at h
      · simp at h
      · rename_i v rest heq
        have h0 := (parse_rest_length _).1 _ _ heq
        simp only at h0
        rw [ihv _ _ heq]
        dsimp only
        split at h
        · simp at h
        · rename_i d rest1 heq1
          have h1 := length_of_skipWhiteSpace heq1
          split_ifs at h ⊢
          · exact parseElements_fuel_le (by omega) (ihe _ _ _ h)
          · exact h
    · intro cs acc r h
      have hpos : 0 < cs.length := by
        have := (parse_rest_length _).2.2 _ _ _ h
        omega
      obtain ⟨m, hm⟩ : ∃ m, 2 * cs.length + 1 = m + 1 := ⟨2 * cs.length, rfl⟩
      rw [hm]
      rw [parseMembers] at h ⊢
      split at h
      · simp at h
      · rename_i q rest heq
        have h0 := length_of_skipWhiteSpace heq
        split_ifs at h ⊢
        split at h
        · simp at h
        · rename_i k rest1 hk
          have h1 := parseStringBody_length hk
          simp only at h1
          split at h
          · simp at h
          · rename_i colon rest2 heq2
            have h2 := length_of_skipWhiteSpace heq2
            split_ifs at h ⊢
            split at h
            · simp at h
            · rename_i v rest3 hv
              have h3 := (parse_rest_length _).1 _ _ hv
              simp only at h3
              rw [parseValue_fuel_le (by omega) (ihv _ _ hv)]
              dsimp only
              split at h
              · simp at h
              · rename_i d rest4 heq4
                have h4 := length_of_skipWhiteSpace heq4
                split_ifs at h ⊢
                · exact parseMembers_fuel_le (by omega) (ihm _ _ _ h)
                · exact h

/-- The fuel that `JSON.parse` hands to `parseValue` is enough: with any larger
amount the result is the same. -/
theorem parseValue_fuel_stable (cs : List Nat) (fuel : Nat) (h : 2 * cs.length + 2 ≤ fuel) :
    parseValue fuel cs = parseValue (2 * cs.length + 2) cs := by
  cases hf : parseValue fuel cs with
  | some r => exact ((parse_fuel_enough fuel).1 cs r hf).symm
  | none =>
    cases hb : parseValue (2 * cs.length + 2) cs with
    | none => rfl
    | some r =>
      rw [parseValue_fuel_le h hb] at hf
      simp at hf

theorem parse_of_parseValue (text : JSString) (fuel : Nat) (v : JSValue)
    (h : parseValue fuel text = some (v, [])) : JSON.parse text = .ok v := by
  have h' := (parse_fuel_enough fuel).1 text _ h
  simp [JSON.parse, h', skipWhiteSpace]

/-! ## A value read at the end of a text is read the same before a delimiter -/

theorem skipWhiteSpace_append (cs t : List Nat) (h : skipWhiteSpace cs ≠ []) :
    skipWhiteSpace (cs ++ t) = skipWhiteSpace cs ++ t := by
  induction cs with
  | nil => simp [skipWhiteSpace] at h
  | cons c cs ih =>
    simp only [skipWhiteSpace, List.cons_append] at h ⊢
    split_ifs at h ⊢ with hc
    · exact ih h
    · rfl

theorem skipWhiteSpace_append_delimiter (r : List Nat) (d : Nat) (t : List Nat)
    (h : skipWhiteSpace r = []) (hd : isWhiteSpace d = false) :
    skipWhiteSpace (r ++ d :: t) = d :: t := by
  induction r with
  | nil => simp [skipWhiteSpace, hd]
  | cons c cs ih =>
    simp only [skipWhiteSpace, List.cons_append] at h ⊢
    split_ifs at h ⊢ with hc
    exact ih h

theorem parseStringBody_append_aux (n : Nat) :
    ∀ cs : List Nat, cs.length ≤ n → ∀ r t, parseStringBody cs = some r →
      parseStringBody (cs ++ t) = some (r.1, r.2 ++ t) := by
  induction n with
  | zero =>
    intro cs hcs r t h
    have : cs = [] := List.length_eq_zero.mp (Nat.le_zero.mp hcs)
    subst this
    simp [parseStringBody] at h
  | succ n ih =>
    intro cs hcs r t h
    cases cs with
    | nil => simp [parseStringBody] at h
    | cons c cs1 =>
      rw [parseStringBody.eq_def] at h
      rw [List.cons_append, parseStringBody.eq_def]
      simp only [List.length_cons] at hcs
      dsimp only at h ⊢
      split_ifs at h ⊢
      · simp only [Option.some.injEq] at h; subst h; rfl
      · cases cs1 with
        | nil => simp at h
        | cons e cs2 =>
          simp only [List.length_cons] at hcs
          dsimp only [List.cons_append] at h ⊢
          split_ifs at h ⊢
          · match cs2, h, hcs with
            | h1 :: h2 :: h3 :: h4 :: cs3, h, hcs =>
              simp only [List.length_cons] at hcs
              dsimp only [List.cons_append] at h ⊢
              split at h
              · rename_i a b c' d' ha hb hc hd
                split at h
                · rename_i r' hr'
                  rw [ih cs3 (by omega) r' t hr']
                  simp only [Option.some.injEq] at h; subst h; rfl
                · simp at h
              · simp at h
            | [], h, _ => simp at h
            | [_], h, _ => simp at h
            | [_, _], h, _ => simp at h
            | [_, _, _], h, _ => simp at h
          · split at h
            · split at h
              · rename_i r' hr'
                rw [ih cs2 (by omega) r' t hr']
                simp only [Option.some.injEq] at h; subst h; rfl
              · simp at h
            · simp at h
      · split at h
        · rename_i r' hr'
          rw [ih cs1 (by omega) r' t hr']
          simp only [Option.some.injEq] at h; subst h; rfl
        · simp at h

theorem parseStringBody_append {cs : List Nat} {r : JSString × List Nat} (t : List Nat)
    (h : parseStringBody cs = some r) : parseStringBody (cs ++ t) = some (r.1, r.2 ++ t) :=
  parseStringBody_append_aux cs.length cs (Nat.le_refl _) r t h

theorem expectWord_append (w : List Nat) :
    ∀ cs r t, expectWord w cs = some r → expectWord w (cs ++ t) = some (r ++ t) := by
  induction w with
  | nil => intro cs r t h; simp only [expectWord, Option.some.injEq] at h ⊢; rw [h]
  | cons a w ih =>
    intro cs r t h
    cases cs with
    | nil => simp [expectWord] at h
    | cons c cs =>
      simp only [expectWord, List.cons_append] at h ⊢
      split_ifs at h ⊢
      exact ih cs r t h


theorem isDelimiter_facts {d : Nat} (hd : isDelimiter d = true) :
    isWhiteSpace d = false ∧ isDigit d = false ∧ d ≠ 0x2E ∧ d ≠ 0x65 ∧ d ≠ 0x45 := by
  simp only [isDelimiter, Bool.or_eq_true, decide_eq_true_eq] at hd
  rcases hd with (rfl | rfl) | rfl <;> decide

theorem takeDigits_append (cs : List Nat) (d : Nat) (t : List Nat) (hd : isDigit d = false) :
    takeDigits (cs ++ d :: t) = ((takeDigits cs).1, (takeDigits cs).2 ++ d :: t) := by
  induction cs with
  | nil => simp [takeDigits, hd]
  | cons c cs ih =>
    simp only [List.cons_append, takeDigits, List.append_eq]
    split_ifs
    · rw [ih]
    · rfl

theorem parseFraction_append {cs : List Nat} {r : List Nat × List Nat} (d : Nat) (t : List Nat)
    (hd : isDelimiter d = true) (h : parseFraction cs = some r) :
    parseFraction (cs ++ d :: t) = some (r.1, r.2 ++ d :: t) := by
  obtain ⟨_, hdig, hdot, _, _⟩ := isDelimiter_facts hd
  cases cs with
  | nil =>
    simp only [parseFraction, Option.some.injEq] at h; subst h
    simp [parseFraction, hdot]
  | cons c cs1 =>
    simp only [parseFraction, List.cons_append, List.append_eq] at h ⊢
    by_cases hc : c = 0x2E
    · rw [if_pos hc] at h ⊢
      rw [takeDigits_append _ _ _ hdig]
      dsimp only
      split_ifs at h ⊢
      simp only [Option.some.injEq] at h; subst h; rfl
    · rw [if_neg hc] at h ⊢
      simp only [Option.some.injEq] at h; subst h; rfl

theorem parseExponent_append {cs : List Nat} {r : Int × List Nat} (d : Nat) (t : List Nat)
    (hd : isDelimiter d = true) (h : parseExponent cs = some r) :
    parseExponent (cs ++ d :: t) = some (r.1, r.2 ++ d :: t) := by
  obtain ⟨_, hdig, _, he1, he2⟩ := isDelimiter_facts hd
  cases cs with
  | nil =>
    simp only [parseExponent, Option.some.injEq] at h; subst h
    simp [parseExponent, he1, he2]
  | cons c cs1 =>
    simp only [parseExponent, List.cons_append, List.append_eq] at h ⊢
    by_cases hc : c = 0x65 ∨ c = 0x45
    · rw [if_pos hc] at h ⊢
      cases cs1 with
      | nil => simp at h
      | cons g cs2 =>
        dsimp only [List.cons_append] at h ⊢
        rw [← List.cons_append, takeDigits_append cs2 _ _ hdig,
          takeDigits_append (g :: cs2) _ _ hdig]
        dsimp only
        split_ifs at h ⊢ <;>
          (simp only [Option.some.injEq] at h; subst h; rfl)
    · rw [if_neg hc] at h ⊢
      simp only [Option.some.injEq] at h; subst h; rfl

theorem parseUnsigned_append {neg : Bool} {cs : List Nat} {r : JSNumber × List Nat}
    (d : Nat) (t : List Nat) (hd : isDelimiter d = true) (h : parseUnsigned neg cs = some r) :
    parseUnsigned neg (cs ++ d :: t) = some (r.1, r.2 ++ d :: t) := by
  obtain ⟨_, hdig, _, _, _⟩ := isDelimiter_facts hd
  cases cs with
  | nil => simp [parseUnsigned] at h
  | cons c cs1 =>
    simp only [parseUnsigned, List.cons_append, List.append_eq] at h ⊢
    by_cases hc : isDigit c = true
    · rw [if_pos hc] at h ⊢
      rw [takeDigits_append cs1 _ _ hdig]
      dsimp only
      split at h
      · simp at h
      · rename_i fracDigits rest2 hf
        split at h
        · simp at h
        · rename_i exp rest3 he
          simp only [Option.some.injEq] at h; subst h
          by_cases h0 : c = 0x30
          · simp only [h0, if_true] at hf ⊢
            rw [parseFraction_append d t hd hf]
            dsimp only
            rw [parseExponent_append d t hd he]
          · simp only [h0, if_false] at hf ⊢
            rw [parseFraction_append d t hd hf]
            dsimp only
            rw [parseExponent_append d t hd he]
    · rw [if_neg hc] at h
      simp at h

theorem parseNumber_append {cs : List Nat} {r : JSNumber × List Nat}
    (d : Nat) (t : List Nat) (hd : isDelimiter d = true) (h : parseNumber cs = some r) :
    parseNumber (cs ++ d :: t) = some (r.1, r.2 ++ d :: t) := by
  cases cs with
  | nil => simp [parseNumber] at h
  | cons c cs1 =>
    simp only [parseNumber, List.cons_append, List.append_eq] at h ⊢
    split_ifs at h ⊢
    · exact parseUnsigned_append d t hd h
    · exact parseUnsigned_append d t hd h


theorem skipWhiteSpace_append_cons {cs : List Nat} {c : Nat} {rest : List Nat} (t : List Nat)
    (h : skipWhiteSpace cs = c :: rest) : skipWhiteSpace (cs ++ t) = c :: (rest ++ t) := by
  rw [skipWhiteSpace_append cs t (by rw [h]; simp), h]
  rfl

theorem parse_append (fuel : Nat) (d : Nat) (t : List Nat) (hd : isDelimiter d = true) :
    (∀ cs r, parseValue fuel cs = some r →
      parseValue fuel (cs ++ d :: t) = some (r.1, r.2 ++ d :: t)) ∧
    (∀ cs acc r, parseElements fuel cs acc = some r →
      parseElements fuel (cs ++ d :: t) acc = some (r.1, r.2 ++ d :: t)) ∧
    (∀ cs acc r, parseMembers fuel cs acc = some r →
      parseMembers fuel (cs ++ d :: t) acc = some (r.1, r.2 ++ d :: t)) := by
  induction fuel with
  | zero => simp [parseValue, parseElements, parseMembers]
  | succ n ih =>
    obtain ⟨ihv, ihe, ihm⟩ := ih
    refine ⟨?_, ?_, ?_⟩
    · intro cs r h
      rw [parseValue] at h ⊢
      split at h
      · simp at h
      · rename_i c rest heq
        rw [skipWhiteSpace_append_cons _ heq]
        dsimp only
        split_ifs at h ⊢
        · split at h
          · rename_i r' hr'
            rw [parseStringBody_append _ hr']
            simp only [Option.some.injEq] at h; subst h; rfl
          · simp at h
        · split at h
          · simp at h
          · rename_i d1 rest1 heq1
            rw [skipWhiteSpace_append_cons _ heq1]
            dsimp only
            split_ifs at h ⊢
            · simp only [Option.some.injEq] at h; subst h; rfl
            · exact ihm _ _ _ h
        · split at h
          · simp at h
          · rename_i d1 rest1 heq1
            rw [skipWhiteSpace_append_cons _ heq1]
            dsimp only
            split_ifs at h ⊢
            · simp only [Option.some.injEq] at h; subst h; rfl
            · exact ihe _ _ _ h
        · split at h
          · rename_i r' hr'
            rw [expectWord_append _ _ _ _ hr']
            simp only [Option.some.injEq] at h; subst h; rfl
          · simp at h
        · split at h
          · rename_i r' hr'
            rw [expectWord_append _ _ _ _ hr']
            simp only [Option.some.injEq] at h; subst h; rfl
          · simp at h
        · split at h
          · rename_i r' hr'
            rw [expectWord_append _ _ _ _ hr']
            simp only [Option.some.injEq] at h; subst h; rfl
          · simp at h
        · split at h
          · rename_i r' hr'
            rw [← List.cons_append, parseNumber_append d t hd hr']
            simp only [Option.some.injEq] at h; subst h; rfl
          · simp at h
    · intro cs acc r h
      rw [parseElements] at h ⊢
      split at h
      · simp at h
      · rename_i v rest heq
        rw [ihv _ _ heq]
        dsimp only
        split at h
        · simp at h
        · rename_i d1 rest1 heq1
          rw [skipWhiteSpace_append_cons _ heq1]
          dsimp only
          split_ifs at h ⊢
          · exact ihe _ _ _ h
          · simp only [Option.some.injEq] at h; subst h; rfl
    · intro cs acc r h
      rw [parseMembers] at h ⊢
      split at h
      · simp at h
      · rename_i q rest heq
        rw [skipWhiteSpace_append_cons _ heq]
        dsimp only
        split_ifs at h ⊢
        split at h
        · simp at h
        · rename_i k rest1 hk
          rw [parseStringBody_append _ hk]
          dsimp only
          split at h
          · simp at h
          · rename_i colon rest2 heq2
            rw [skipWhiteSpace_append_cons _ heq2]
            dsimp only
            split_ifs at h ⊢
            split at h
            · simp at h
            · rename_i v rest3 hv
              rw [ihv _ _ hv]
              dsimp only
              split at h
              · simp at h
              · rename_i d1 rest4 heq4
                rw [skipWhiteSpace_append_cons _ heq4]
                dsimp only
                split_ifs at h ⊢
                · exact ihm _ _ _ h
                · simp only [Option.some.injEq] at h; subst h; rfl


/-- A text that `JSON.parse` reads as `v` reads as `v` where a member of an
object stands. -/
theorem readsInPlace_of_parse (T : List Nat) (v : JSValue) (h : JSON.parse T = .ok v) :
    ReadsInPlace (2 * T.length + 2) T v := by
  intro fuel d rest hd
  unfold JSON.parse at h
  split at h
  · rename_i v' r hv
    split_ifs at h with hws
    simp only [Except.ok.injEq] at h
    subst h
    have h1 := parseValue_fuel_le (Nat.le_add_left _ fuel) hv
    have h2 := (parse_append _ d rest hd).1 _ _ h1
    exact ⟨r ++ d :: rest, h2, skipWhiteSpace_append_delimiter r d rest hws
      (isDelimiter_facts hd).1⟩
  · simp at h

/-! ## `JSON.parse` never returns `undefined` -/

theorem parse_ne_undefined_aux (fuel : Nat) :
    (∀ cs v r, parseValue fuel cs = some (v, r) → v ≠ .undefined) ∧
    (∀ cs acc v r, parseElements fuel cs acc = some (v, r) → v ≠ .undefined) ∧
    (∀ cs acc v r, parseMembers fuel cs acc = some (v, r) → v ≠ .undefined) := by
  induction fuel with
  | zero => simp [parseValue, parseElements, parseMembers]
  | succ n ih =>
    obtain ⟨ihv, ihe, ihm⟩ := ih
    refine ⟨?_, ?_, ?_⟩
    · intro cs v r h
      rw [parseValue] at h
      split at h
      · simp at h
      · split_ifs at h
        all_goals first
          | (split at h <;> first
              | (simp at h; obtain ⟨rfl, _⟩ := h; simp)
              | (simp at h)
              | (split_ifs at h <;> first
                  | (simp at h; obtain ⟨rfl, _⟩ := h; simp)
                  | exact ihm _ _ _ _ h
                  | exact ihe _ _ _ _ h))
    · intro cs acc v r h
      rw [parseElements] at h
      split at h
      · simp at h
      · split at h
        · simp at h
        · split_ifs at h
          · exact ihe _ _ _ _ h
          · simp at h; obtain ⟨rfl, _⟩ := h; simp
    · intro cs acc v r h
      rw [parseMembers] at h
      split at h
      · simp at h
      · split_ifs at h
        split at h
        · simp at h
        · split at h
          · simp at h
          · split_ifs at h
            split at h
            · simp at h
            · split at h
              · simp at h
              · split_ifs at h
                · exact ihm _ _ _ _ h
                · simp at h; obtain ⟨rfl, _⟩ := h; simp

theorem parse_ne_undefined (text : JSString) (v : JSValue) (h : JSON.parse text = .ok v) :
    v ≠ .undefined := by
  unfold JSON.parse at h
  split at h
  · rename_i v' rest hv
    split_ifs at h
    simp at h
    subst h
    exact (parse_ne_undefined_aux _).1 _ _ _ hv
  · simp at h

/-! ## Fields of the item read back -/

theorem parse_quoteJSONString (s : JSString) :
    JSON.parse (quoteJSONString s) = .ok (.string s) := by
  have hr := readsAs_string s (2 * (quoteJSONString s).length + 1) []
  rw [List.append_nil] at hr
  simp [JSON.parse, hr, skipWhiteSpace]

theorem get_item_decodedBody (id : JSString) (taskText : Option (List Nat)) (task : JSValue)
    (now : JSString) :
    (decodedBody id taskText task now).get (utf16 "item") = decodedItem id taskText task now :=
  rfl

theorem decodedItem_some (rt : Runtime) (T : List Nat) (task : JSValue) :
    decodedItem rt.randomUUID (some T) task rt.now = (params rt task).Item := rfl

theorem sameItem_decodedItem_none (rt : Runtime) :
    SameItem (decodedItem rt.randomUUID none .undefined rt.now) (params rt .undefined).Item :=
  ⟨rfl, rfl, rfl, rfl⟩

theorem get_task_decodedItem_some (id : JSString) (T : List Nat) (task : JSValue)
    (now : JSString) : (decodedItem id (some T) task now).get (utf16 "task") = task := rfl

theorem get_task_params (rt : Runtime) (task : JSValue) :
    (params rt task).Item.get (utf16 "task") = task := rfl


/-! ## Binary logarithms and rounding -/

theorem log2Aux_spec (fuel : Nat) : ∀ n, 0 < n → n ≤ fuel →
    2 ^ log2Aux fuel n ≤ n ∧ n < 2 ^ (log2Aux fuel n + 1) := by
  induction fuel with
  | zero => intro n h1 h2; omega
  | succ f ih =>
    intro n h1 h2
    rw [log2Aux]
    split_ifs with ha hb
    · constructor <;> simp <;> omega
    · have hn : 0 < n / 2 := Nat.div_pos (by omega) (by norm_num)
      obtain ⟨l, u⟩ := ih (n / 2) hn (by omega)
      constructor
      · rw [pow_succ]
        exact (Nat.le_div_iff_mul_le (by norm_num)).1 l
      · rw [pow_succ]
        exact (Nat.div_lt_iff_lt_mul (by norm_num)).1 u
    · have hp : 0 < 2 ^ 64 := by norm_num
      have hn : 0 < n / 2 ^ 64 := Nat.div_pos (by omega) hp
      have hle : n / 2 ^ 64 ≤ f := by
        have : n / 2 ^ 64 ≤ n / 2 := Nat.div_le_div_left (by norm_num) (by norm_num)
        omega
      obtain ⟨l, u⟩ := ih (n / 2 ^ 64) hn hle
      constructor
      · rw [pow_add]
        exact (Nat.le_div_iff_mul_le hp).1 l
      · rw [show log2Aux f (n / 2 ^ 64) + 64 + 1 = (log2Aux f (n / 2 ^ 64) + 1) + 64 by omega,
          pow_add]
        exact (Nat.div_lt_iff_lt_mul hp).1 u

theorem log2_spec (n : Nat) (h : 0 < n) : 2 ^ log2 n ≤ n ∧ n < 2 ^ (log2 n + 1) :=
  log2Aux_spec n n h le_rfl

/-- The condition `floorLog2` tests, as an inequality of rational numbers. -/
theorem scaled_le_iff (num den : Nat) (e : Int) :
    (if 0 ≤ e then den * 2 ^ e.toNat ≤ num else den ≤ num * 2 ^ (-e).toNat)
      ↔ (den : ℚ) * (2 : ℚ) ^ e ≤ num := by
  split_ifs with h
  · obtain ⟨k, rfl⟩ := Int.eq_ofNat_of_zero_le h
    simp only [Int.toNat_ofNat, zpow_natCast]
    exact_mod_cast Iff.rfl
  · obtain ⟨k, hk⟩ : ∃ k : Nat, e = -(k : Int) := ⟨(-e).toNat, by omega⟩
    subst hk
    simp only [neg_neg, Int.toNat_ofNat, zpow_neg, zpow_natCast]
    have hpos : (0 : ℚ) < 2 ^ k := by positivity
    rw [mul_inv_le_iff₀ hpos]
    exact_mod_cast Iff.rfl

theorem floorLog2_spec (num den : Nat) (hn : 0 < num) (hd : 0 < den) :
    (den : ℚ) * (2 : ℚ) ^ floorLog2 num den ≤ num ∧
    (num : ℚ) < den * (2 : ℚ) ^ (floorLog2 num den + 1) := by
  obtain ⟨la, ua⟩ := log2_spec num hn
  obtain ⟨lb, ub⟩ := log2_spec den hd
  have la' : (2 : ℚ) ^ (log2 num : Int) ≤ num := by
    rw [zpow_natCast]; exact_mod_cast la
  have ua' : (num : ℚ) < (2 : ℚ) ^ ((log2 num : Int) + 1) := by
    rw [show ((log2 num : Int) + 1) = ((log2 num + 1 : Nat) : Int) by push_cast; ring, zpow_natCast]
    exact_mod_cast ua
  have lb' : (2 : ℚ) ^ (log2 den : Int) ≤ den := by
    rw [zpow_natCast]; exact_mod_cast lb
  have ub' : (den : ℚ) < (2 : ℚ) ^ ((log2 den : Int) + 1) := by
    rw [show ((log2 den : Int) + 1) = ((log2 den + 1 : Nat) : Int) by push_cast; ring, zpow_natCast]
    exact_mod_cast ub
  have h2 : (2 : ℚ) ≠ 0 := by norm_num
  unfold floorLog2
  simp only
  by_cases hc0 : (if 0 ≤ (log2 num : Int) - (log2 den : Int)
      then den * 2 ^ ((log2 num : Int) - (log2 den : Int)).toNat ≤ num
      else den ≤ num * 2 ^ (-((log2 num : Int) - (log2 den : Int))).toNat)
  · rw [if_pos hc0]
    have hc := (scaled_le_iff num den _).1 hc0
    refine ⟨hc, ?_⟩
    calc (num : ℚ) < (2 : ℚ) ^ ((log2 num : Int) + 1) := ua'
      _ = (2 : ℚ) ^ (log2 den : Int) * (2 : ℚ) ^ ((log2 num : Int) - (log2 den : Int) + 1) := by
        rw [← zpow_add₀ h2]; congr 1; ring
      _ ≤ den * (2 : ℚ) ^ ((log2 num : Int) - (log2 den : Int) + 1) := by
        apply mul_le_mul_of_nonneg_right lb' (by positivity)
  · rw [if_neg hc0]
    have hc := fun h => hc0 ((scaled_le_iff num den _).2 h)
    refine ⟨?_, ?_⟩
    · have hpos : (0 : ℚ) < (2 : ℚ) ^ ((log2 num : Int) - (log2 den : Int) - 1) := by positivity
      calc (den : ℚ) * (2 : ℚ) ^ ((log2 num : Int) - (log2 den : Int) - 1)
          ≤ (2 : ℚ) ^ ((log2 den : Int) + 1)
              * (2 : ℚ) ^ ((log2 num : Int) - (log2 den : Int) - 1) :=
            mul_le_mul_of_nonneg_right ub'.le hpos.le
        _ = (2 : ℚ) ^ (log2 num : Int) := by
          rw [← zpow_add₀ h2]; congr 1; ring
        _ ≤ num := la'
    · rw [show (log2 num : Int) - (log2 den : Int) - 1 + 1 = (log2 num : Int) - (log2 den : Int)
        by ring]
      exact lt_of_not_le hc

/-- Two integers whose powers of two bracket the same positive number are equal. -/
theorem zpow_bracket_unique (x : ℚ) (a b : Int)
    (ha : (2 : ℚ) ^ a ≤ x) (ha' : x < (2 : ℚ) ^ (a + 1))
    (hb : (2 : ℚ) ^ b ≤ x) (hb' : x < (2 : ℚ) ^ (b + 1)) : a = b := by
  have h1 : (2 : ℚ) ^ a < (2 : ℚ) ^ (b + 1) := lt_of_le_of_lt ha hb'
  have h2 : (2 : ℚ) ^ b < (2 : ℚ) ^ (a + 1) := lt_of_le_of_lt hb ha'
  have h1' := (zpow_lt_zpow_iff_right₀ (by norm_num : (1 : ℚ) < 2)).1 h1
  have h2' := (zpow_lt_zpow_iff_right₀ (by norm_num : (1 : ℚ) < 2)).1 h2
  omega

theorem roundHalfEven_exact (N D m : Nat) (hD : 0 < D) (h : N = m * D) :
    roundHalfEven N D = m := by
  subst h
  unfold roundHalfEven
  simp [Nat.mul_div_cancel _ hD, hD]

theorem roundHalfEven_lower (N D a : Nat) (hD : 0 < D) (h : a * D ≤ N) :
    a ≤ roundHalfEven N D := by
  have hq : a ≤ N / D := (Nat.le_div_iff_mul_le hD).2 h
  unfold roundHalfEven
  simp only
  split_ifs <;> omega

theorem roundHalfEven_upper (N D b : Nat) (hD : 0 < D) (h : N ≤ b * D) :
    roundHalfEven N D ≤ b := by
  have hq : N / D ≤ b := by
    calc N / D ≤ b * D / D := Nat.div_le_div_right h
      _ = b := Nat.mul_div_cancel _ hD
  have hr : N / D = b → N % D = 0 := by
    intro hb
    have := Nat.div_add_mod N D
    rw [hb] at this
    have h3 : D * b = b * D := Nat.mul_comm _ _
    omega
  unfold roundHalfEven
  simp only
  split_ifs with h1 h2 h3
  · exact hq
  · by_contra hcon
    have : N / D = b := by omega
    have := hr this
    omega
  · exact hq
  · by_contra hcon
    have : N / D = b := by omega
    have := hr this
    omega

/-- The numerator and denominator `roundToDouble` rounds, for the exponent `p`. -/
theorem scaled_ratio (num den : Nat) (p : Int) (hd : 0 < den) :
    0 < (if 0 ≤ p then den * 2 ^ p.toNat else den) ∧
    ((if 0 ≤ p then num else num * 2 ^ (-p).toNat : Nat) : ℚ)
      = (num : ℚ) / den * (2 : ℚ) ^ (-p) * ((if 0 ≤ p then den * 2 ^ p.toNat else den : Nat) : ℚ) := by
  have hd' : (den : ℚ) ≠ 0 := by exact_mod_cast hd.ne'
  split_ifs with h
  · obtain ⟨k, rfl⟩ := Int.eq_ofNat_of_zero_le h
    refine ⟨by positivity, ?_⟩
    simp only [Int.toNat_ofNat, zpow_neg, zpow_natCast]
    push_cast
    field_simp
  · obtain ⟨k, hk⟩ : ∃ k : Nat, p = -(k : Int) := ⟨(-p).toNat, by omega⟩
    subst hk
    refine ⟨hd, ?_⟩
    simp only [neg_neg, Int.toNat_ofNat, zpow_natCast]
    push_cast
    field_simp

theorem roundToDouble_eq (neg : Bool) (num den : Nat) (hn : num ≠ 0) :
    roundToDouble neg num den =
      (let p : Int := max (floorLog2 num den - 52) (-1074)
       let m := roundHalfEven (if 0 ≤ p then num else num * 2 ^ (-p).toNat)
         (if 0 ≤ p then den * 2 ^ p.toNat else den)
       if 971 < (if m = 2 ^ 53 then p + 1 else p) then .infinity neg
       else .finite neg (if m = 2 ^ 53 then 2 ^ 52 else m) (if m = 2 ^ 53 then p + 1 else p)) := by
  unfold roundToDouble
  rw [if_neg hn]
  simp only
  split_ifs <;> rfl


theorem roundHalfEven_ge (N D a : Nat) (y : ℚ) (hD : 0 < D) (hN : (N : ℚ) = y * D)
    (h : (a : ℚ) ≤ y) : a ≤ roundHalfEven N D := by
  apply roundHalfEven_lower N D a hD
  have hD' : (0 : ℚ) ≤ D := by positivity
  have : (a : ℚ) * D ≤ N := by rw [hN]; exact mul_le_mul_of_nonneg_right h hD'
  exact_mod_cast this

theorem roundHalfEven_le (N D b : Nat) (y : ℚ) (hD : 0 < D) (hN : (N : ℚ) = y * D)
    (h : y ≤ (b : ℚ)) : roundHalfEven N D ≤ b := by
  apply roundHalfEven_upper N D b hD
  have hD' : (0 : ℚ) ≤ D := by positivity
  have : (N : ℚ) ≤ b * D := by rw [hN]; exact mul_le_mul_of_nonneg_right h hD'
  exact_mod_cast this

theorem roundHalfEven_eq (N D m : Nat) (y : ℚ) (hD : 0 < D) (hN : (N : ℚ) = y * D)
    (h : y = (m : ℚ)) : roundHalfEven N D = m := by
  apply roundHalfEven_exact N D m hD
  have : (N : ℚ) = m * D := by rw [hN, h]
  exact_mod_cast this

/-- The bracket of `floorLog2`, for the quotient itself. -/
theorem floorLog2_bracket (num den : Nat) (hn : 0 < num) (hd : 0 < den) :
    (2 : ℚ) ^ floorLog2 num den ≤ (num : ℚ) / den ∧
    (num : ℚ) / den < (2 : ℚ) ^ (floorLog2 num den + 1) := by
  obtain ⟨l, u⟩ := floorLog2_spec num den hn hd
  have hd' : (0 : ℚ) < den := by exact_mod_cast hd
  constructor
  · rw [le_div_iff₀ hd']
    linarith
  · rw [div_lt_iff₀ hd']
    linarith

/-- What `roundToDouble` returns is a binary64 value. -/
theorem roundToDouble_isDouble (neg : Bool) (num den : Nat) (hd : 0 < den) :
    (roundToDouble neg num den).isDouble = true := by
  by_cases hn : num = 0
  · subst hn
    simp [roundToDouble, JSNumber.isDouble]
  rw [roundToDouble_eq neg num den hn]
  obtain ⟨l, u⟩ := floorLog2_bracket num den (Nat.pos_of_ne_zero hn) hd
  generalize floorLog2 num den = e at l u
  simp only
  have hp1 : e - 52 ≤ max (e - 52) (-1074) := le_max_left _ _
  have hp2 : -1074 ≤ max (e - 52) (-1074) := le_max_right _ _
  have hp3 : max (e - 52) (-1074) = e - 52 ∨
      (max (e - 52) (-1074) = -1074 ∧ e - 52 < -1074) := by
    rcases le_total (-1074) (e - 52) with h | h
    · exact Or.inl (max_eq_left h)
    · rcases eq_or_lt_of_le h with h' | h'
      · exact Or.inl (max_eq_left h'.symm.le)
      · exact Or.inr ⟨max_eq_right h, h'⟩
  generalize max (e - 52) (-1074) = p at hp1 hp2 hp3 ⊢
  obtain ⟨hD, hN⟩ := scaled_ratio num den p hd
  generalize hm : roundHalfEven _ _ = m
  have h2 : (2 : ℚ) ≠ 0 := by norm_num
  have hpos : (0 : ℚ) < (2 : ℚ) ^ (-p) := by positivity
  have hup : ∀ b : Nat, e + 1 - p ≤ (b : Int) → m ≤ 2 ^ b := by
    intro b hb
    rw [← hm]
    apply roundHalfEven_le _ _ _ _ hD hN
    calc (num : ℚ) / den * (2 : ℚ) ^ (-p)
        ≤ (2 : ℚ) ^ (e + 1) * (2 : ℚ) ^ (-p) :=
          mul_le_mul_of_nonneg_right u.le hpos.le
      _ = (2 : ℚ) ^ (e + 1 - p) := by
          rw [← zpow_add₀ h2]; congr 1
      _ ≤ (2 : ℚ) ^ (b : Int) := zpow_le_zpow_right₀ (by norm_num) hb
      _ = ((2 ^ b : Nat) : ℚ) := by rw [zpow_natCast]; norm_cast
  have hlow : ∀ a : Nat, (a : Int) ≤ e - p → 2 ^ a ≤ m := by
    intro a ha
    rw [← hm]
    apply roundHalfEven_ge _ _ _ _ hD hN
    calc ((2 ^ a : Nat) : ℚ) = (2 : ℚ) ^ (a : Int) := by
          rw [zpow_natCast]; norm_cast
      _ ≤ (2 : ℚ) ^ (e - p) := zpow_le_zpow_right₀ (by norm_num) ha
      _ = (2 : ℚ) ^ e * (2 : ℚ) ^ (-p) := by
          rw [← zpow_add₀ h2]; congr 1
      _ ≤ (num : ℚ) / den * (2 : ℚ) ^ (-p) :=
          mul_le_mul_of_nonneg_right l hpos.le
  have h53 := hup 53 (by push_cast; omega)
  rcases hp3 with hp | ⟨hp, hlt⟩
  · have h52 := hlow 52 (by push_cast; omega)
    split_ifs with h1 h2 h3 <;> simp [JSNumber.isDouble] <;> omega
  · have h52 := hup 52 (by push_cast; omega)
    split_ifs with h1 h2 h3 <;> simp [JSNumber.isDouble] <;> omega


/-- Rounding is exact on a binary64 value: a quotient that is `m * 2^p`, for a
binary64 significand and exponent, rounds to that significand and exponent. -/
theorem roundToDouble_exact (neg : Bool) (num den m : Nat) (p : Int) (hd : 0 < den)
    (hm0 : m ≠ 0) (hdbl : (JSNumber.finite neg m p).isDouble = true)
    (hx : (num : ℚ) / den = (m : ℚ) * (2 : ℚ) ^ p) :
    roundToDouble neg num den = .finite neg m p := by
  have h2 : (2 : ℚ) ≠ 0 := by norm_num
  have hmpos : (0 : ℚ) < m := by exact_mod_cast Nat.pos_of_ne_zero hm0
  have hn : num ≠ 0 := by
    rintro rfl
    have : (0 : ℚ) < (m : ℚ) * (2 : ℚ) ^ p := by positivity
    rw [← hx] at this
    simp at this
  rw [roundToDouble_eq neg num den hn]
  obtain ⟨l, u⟩ := floorLog2_bracket num den (Nat.pos_of_ne_zero hn) hd
  generalize floorLog2 num den = e at l u
  rw [hx] at l u
  simp only [JSNumber.isDouble, Bool.or_eq_true, Bool.and_eq_true, decide_eq_true_eq] at hdbl
  have hpow : (2 : ℚ) ^ p > 0 := by positivity
  have hP : max (e - 52) (-1074) = p := by
    rcases hdbl with ⟨⟨⟨h52, h53⟩, hlo⟩, hhi⟩ | ⟨h52, hp⟩
    · have he : e = 52 + p := by
        apply zpow_bracket_unique ((m : ℚ) * (2 : ℚ) ^ p) _ _ l u
        · rw [zpow_add₀ h2]
          apply mul_le_mul_of_nonneg_right _ hpow.le
          rw [show (52 : Int) = ((52 : Nat) : Int) by rfl, zpow_natCast]
          exact_mod_cast h52
        · rw [show (52 + p + 1 : Int) = 53 + p by ring, zpow_add₀ h2]
          apply mul_lt_mul_of_pos_right _ hpow
          rw [show (53 : Int) = ((53 : Nat) : Int) by rfl, zpow_natCast]
          exact_mod_cast h53
      rw [he, show 52 + p - 52 = p by ring]
      exact max_eq_left hlo
    · have hlt : (2 : ℚ) ^ e < (2 : ℚ) ^ (52 + p) := by
        apply lt_of_le_of_lt l
        rw [zpow_add₀ h2]
        apply mul_lt_mul_of_pos_right _ hpow
        rw [show (52 : Int) = ((52 : Nat) : Int) by rfl, zpow_natCast]
        exact_mod_cast h52
      have := (zpow_lt_zpow_iff_right₀ (by norm_num : (1 : ℚ) < 2)).1 hlt
      rw [hp] at this ⊢
      apply max_eq_right
      omega
  simp only
  rw [hP]
  obtain ⟨hD, hN⟩ := scaled_ratio num den p hd
  have hm : roundHalfEven (if 0 ≤ p then num else num * 2 ^ (-p).toNat)
      (if 0 ≤ p then den * 2 ^ p.toNat else den) = m := by
    apply roundHalfEven_eq _ _ _ _ hD hN
    rw [hx, mul_assoc, ← zpow_add₀ h2]
    simp
  rw [hm]
  have hlt : m < 2 ^ 53 := by
    rcases hdbl with ⟨⟨⟨h52, h53⟩, hlo⟩, hhi⟩ | ⟨h52, hp⟩ <;> omega
  have hle : p ≤ 971 := by
    rcases hdbl with ⟨⟨⟨h52, h53⟩, hlo⟩, hhi⟩ | ⟨h52, hp⟩ <;> omega
  have hne : m ≠ 2 ^ 53 := Nat.ne_of_lt hlt
  simp only [if_neg hne]
  rw [if_neg (by omega)]

/-- The sign of a rounded number is the sign that was given. -/
theorem roundToDouble_sign (neg : Bool) (num den m : Nat) (p : Int)
    (h : roundToDouble false num den = .finite false m p) :
    roundToDouble neg num den = .finite neg m p := by
  by_cases hn : num = 0
  · subst hn
    simp only [roundToDouble, if_true, JSNumber.finite.injEq, true_and] at h ⊢
    exact h
  · rw [roundToDouble_eq _ _ _ hn] at h ⊢
    simp only at h ⊢
    generalize max (floorLog2 num den - 52) (-1074) = P at h ⊢
    generalize roundHalfEven _ _ = M at h ⊢
    split_ifs at h ⊢ <;> simp_all

theorem decimalToDouble_sign (neg : Bool) (s : Nat) (q : Int) (m : Nat) (p : Int)
    (h : decimalToDouble false s q = .finite false m p) :
    decimalToDouble neg s q = .finite neg m p := by
  unfold decimalToDouble at h ⊢
  split_ifs at h ⊢ <;> exact roundToDouble_sign neg _ _ _ _ h

theorem decimalToDouble_zero (neg : Bool) (q : Int) :
    decimalToDouble neg 0 q = .finite neg 0 (-1074) := by
  unfold decimalToDouble roundToDouble
  split_ifs <;> simp_all

theorem decimalToDouble_isDouble (neg : Bool) (s : Nat) (q : Int) :
    (decimalToDouble neg s q).isDouble = true := by
  unfold decimalToDouble
  split_ifs
  · exact roundToDouble_isDouble _ _ _ (by norm_num)
  · exact roundToDouble_isDouble _ _ _ (by positivity)

/-- The exact decimal expansion of a binary64 value reads back as that value. -/
theorem decimalToDouble_exactDecimal (m : Nat) (p : Int) (hm0 : m ≠ 0)
    (hdbl : (JSNumber.finite false m p).isDouble = true) :
    decimalToDouble false (exactDecimal m p).1 (exactDecimal m p).2 = .finite false m p := by
  unfold exactDecimal
  split_ifs with h
  · obtain ⟨k, rfl⟩ := Int.eq_ofNat_of_zero_le h
    simp only [Int.toNat_ofNat, decimalToDouble, le_refl, if_true, Int.toNat_zero, pow_zero,
      mul_one]
    apply roundToDouble_exact _ _ _ _ _ (by norm_num) hm0 hdbl
    push_cast
    rw [zpow_natCast]
    simp
  · obtain ⟨k, hk⟩ : ∃ k : Nat, p = -(k : Int) := ⟨(-p).toNat, by omega⟩
    subst hk
    simp only [decimalToDouble, if_neg h, neg_neg, Int.toNat_ofNat]
    apply roundToDouble_exact _ _ _ _ _ (by positivity) hm0 hdbl
    push_cast
    rw [zpow_neg, zpow_natCast, show (10 : ℚ) = 5 * 2 by norm_num, mul_pow]
    field_simp
    ring

theorem pick_spec {α : Type} (P : α → Prop) (lo hi : α) (okLo okHi : Bool) (c1 c2 c3 : Prop)
    [Decidable c1] [Decidable c2] [Decidable c3]
    (hlo : okLo = true → P lo) (hhi : okHi = true → P hi) (r : α)
    (h : (if (okLo && okHi) = true then
        some (if c1 then lo else if c2 then hi else if c3 then lo else hi)
      else if okLo = true then some lo
      else if okHi = true then some hi
      else none) = some r) : P r := by
  cases okLo <;> cases okHi <;> simp at h hlo hhi
  · subst h; exact hhi
  · subst h; exact hlo
  · subst h
    split_ifs <;> assumption

theorem tryDigits_spec (x : JSNumber) (num den : Nat) (n0 : Int) (k : Nat) (r : Nat × Int)
    (h : tryDigits x num den n0 k = some r) : decimalToDouble false r.1 r.2 = x := by
  unfold tryDigits at h
  refine pick_spec (fun r => decimalToDouble false r.1 r.2 = x) _ _ _ _ _ _ _ ?_ ?_ r h
  · intro h1
    simpa using h1
  · intro h1
    simp only [Bool.and_eq_true, beq_iff_eq] at h1
    exact h1.2

theorem shortestDecimal_spec (x : JSNumber) (num den : Nat) (n0 : Int) (exact : Nat × Int)
    (hexact : decimalToDouble false exact.1 exact.2 = x) (fuel : Nat) :
    ∀ k, decimalToDouble false (shortestDecimal x num den n0 exact fuel k).1
      (shortestDecimal x num den n0 exact fuel k).2 = x := by
  induction fuel with
  | zero =>
    intro k
    rw [shortestDecimal]
    cases h : tryDigits x num den n0 k with
    | none => simpa using hexact
    | some r => simpa using tryDigits_spec _ _ _ _ _ _ h
  | succ f ih =>
    intro k
    rw [shortestDecimal]
    cases h : tryDigits x num den n0 k with
    | none => simpa using ih (k + 1)
    | some r => simpa using tryDigits_spec _ _ _ _ _ _ h

/-! ## Decimal digits -/

theorem digitsAux_eq (fuel : Nat) : ∀ n acc, n ≤ fuel →
    digitsAux fuel n acc = digitsAux n n [] ++ acc := by
  induction fuel using Nat.strong_induction_on with
  | _ fuel ih =>
    intro n acc hn
    cases fuel with
    | zero =>
      have : n = 0 := by omega
      subst this
      simp [digitsAux]
    | succ f =>
      rw [digitsAux]
      split_ifs with h
      · cases n with
        | zero => simp [digitsAux]
        | succ n' => simp [digitsAux, h]
      · have hn' : n / 10 ≤ f := by omega
        rw [ih f (by omega) (n / 10) _ hn']
        cases n with
        | zero => omega
        | succ n' =>
          rw [digitsAux, if_neg h, ih n' (by omega) ((n' + 1) / 10) [(n' + 1) % 10] (by omega)]
          simp

theorem decimalDigits_eq (n : Nat) :
    decimalDigits n = if n < 10 then [n] else decimalDigits (n / 10) ++ [n % 10] := by
  unfold decimalDigits
  cases n with
  | zero => simp [digitsAux]
  | succ n' =>
    rw [digitsAux]
    split_ifs with h
    · rfl
    · rw [digitsAux_eq n' ((n' + 1) / 10) _ (by omega)]

theorem decimalDigits_small (n : Nat) (h : n < 10) : decimalDigits n = [n] := by
  rw [decimalDigits_eq, if_pos h]

theorem decimalDigits_lt (n : Nat) : ∀ d ∈ decimalDigits n, d < 10 := by
  induction n using Nat.strong_induction_on with
  | _ n ih =>
    rw [decimalDigits_eq]
    split_ifs with h
    · simp [h]
    · intro d hd
      simp only [List.mem_append, List.mem_singleton] at hd
      rcases hd with hd | rfl
      · exact ih (n / 10) (by omega) d hd
      · omega

theorem decimalDigits_ne_nil (n : Nat) : decimalDigits n ≠ [] := by
  rw [decimalDigits_eq]
  split_ifs <;> simp

theorem decimalDigits_head (n : Nat) (hn : 0 < n) : ∀ ds, decimalDigits n ≠ 0 :: ds := by
  induction n using Nat.strong_induction_on with
  | _ n ih =>
    intro ds
    rw [decimalDigits_eq]
    split_ifs with h
    · intro hc
      simp only [List.cons.injEq] at hc
      omega
    · have h1 := ih (n / 10) (by omega) (by omega)
      have h2 := decimalDigits_ne_nil (n / 10)
      generalize decimalDigits (n / 10) = l at h1 h2
      cases l with
      | nil => exact absurd rfl h2
      | cons a l' =>
        intro hc
        simp only [List.cons_append, List.cons.injEq] at hc
        exact h1 l' (by rw [hc.1])

theorem digitsValue_cons (a x : Nat) (xs : List Nat) :
    digitsValue a (x :: xs) = digitsValue (10 * a + (x - 0x30)) xs := rfl

theorem digitsValue_nil (a : Nat) : digitsValue a [] = a := rfl

theorem digitsValue_append (a : Nat) (xs ys : List Nat) :
    digitsValue a (xs ++ ys) = digitsValue (digitsValue a xs) ys := by
  induction xs generalizing a with
  | nil => rw [List.nil_append, digitsValue_nil]
  | cons x xs ih => rw [List.cons_append, digitsValue_cons, digitsValue_cons, ih]

theorem digitsValue_zeros (a z : Nat) : digitsValue a (List.replicate z 0x30) = a * 10 ^ z := by
  induction z generalizing a with
  | zero => simp [digitsValue_nil]
  | succ z ih =>
    rw [List.replicate_succ, digitsValue_cons, ih]
    ring

theorem digitsValue_decimalDigits (n : Nat) : digitsValue 0 (digitUnits (decimalDigits n)) = n := by
  induction n using Nat.strong_induction_on with
  | _ n ih =>
    rw [decimalDigits_eq]
    split_ifs with h
    · simp [digitUnits, digitsValue_cons, digitsValue_nil]
    · simp only [digitUnits, List.map_append, List.map_cons, List.map_nil]
      rw [digitsValue_append]
      have := ih (n / 10) (by omega)
      simp only [digitUnits] at this
      rw [this, digitsValue_cons, digitsValue_nil]
      omega

theorem digitUnits_append (xs ys : List Nat) :
    digitUnits (xs ++ ys) = digitUnits xs ++ digitUnits ys := by
  simp [digitUnits]

theorem digitUnits_length (xs : List Nat) : (digitUnits xs).length = xs.length := by
  simp [digitUnits]

theorem isDigit_unit (d : Nat) (h : d < 10) : isDigit (0x30 + d) = true := by
  simp [isDigit]; omega

theorem all_isDigit_units (ds : List Nat) (h : ∀ d ∈ ds, d < 10) :
    ∀ c ∈ digitUnits ds, isDigit c = true := by
  intro c hc
  simp only [digitUnits, List.mem_map] at hc
  obtain ⟨d, hd, rfl⟩ := hc
  exact isDigit_unit d (h d hd)

theorem all_isDigit_zeros (z : Nat) : ∀ c ∈ List.replicate z 0x30, isDigit c = true := by
  intro c hc
  rw [List.eq_of_mem_replicate hc]
  decide

theorem takeDigits_all (us t : List Nat) (hus : ∀ c ∈ us, isDigit c = true)
    (ht : ∀ c t', t = c :: t' → isDigit c = false) : takeDigits (us ++ t) = (us, t) := by
  induction us with
  | nil =>
    cases t with
    | nil => rfl
    | cons c t' => simp [takeDigits, ht c t' rfl]
  | cons u us ih =>
    have hu := hus u (List.mem_cons_self _ _)
    have := ih (fun c hc => hus c (List.mem_cons_of_mem _ hc))
    simp [takeDigits, hu, this]


/-! ## Reading the digits of a number -/

theorem parseUnsigned_parts (neg : Bool) (c : Nat) (us t fs t2 : List Nat) (e : Int)
    (t3 : List Nat) (hc : isDigit c = true) (hz : c = 0x30 → us = [])
    (hus : ∀ u ∈ us, isDigit u = true) (ht : ∀ u t', t = u :: t' → isDigit u = false)
    (hf : parseFraction t = some (fs, t2)) (he : parseExponent t2 = some (e, t3)) :
    parseUnsigned neg (c :: (us ++ t))
      = some (decimalToDouble neg (digitsValue 0 ((c :: us) ++ fs)) (e - (fs.length : Int)), t3) := by
  unfold parseUnsigned
  simp only [hc, if_true]
  by_cases h0 : c = 0x30
  · have := hz h0
    subst this
    simp only [if_pos h0, List.nil_append, hf, he]
  · simp only [if_neg h0, takeDigits_all us t hus ht, hf, he]

theorem parseFraction_none (t : List Nat) (h : ∀ u t', t = u :: t' → u ≠ 0x2E) :
    parseFraction t = some ([], t) := by
  unfold parseFraction
  cases t with
  | nil => rfl
  | cons u t' => simp [h u t' rfl]

theorem parseFraction_some (fs t : List Nat) (hne : fs ≠ []) (hfs : ∀ u ∈ fs, isDigit u = true)
    (ht : ∀ u t', t = u :: t' → isDigit u = false) :
    parseFraction (0x2E :: (fs ++ t)) = some (fs, t) := by
  unfold parseFraction
  simp [takeDigits_all fs t hfs ht, hne]

theorem parseExponent_nil : parseExponent [] = some (0, []) := rfl

theorem parseExponent_minus (es : List Nat) (hne : es ≠ []) (hes : ∀ u ∈ es, isDigit u = true) :
    parseExponent (0x65 :: 0x2D :: es) = some (-(digitsValue 0 es : Int), []) := by
  have h := takeDigits_all es [] hes (by simp)
  rw [List.append_nil] at h
  unfold parseExponent
  simp [h, hne]

theorem parseExponent_plus (es : List Nat) (hne : es ≠ []) (hes : ∀ u ∈ es, isDigit u = true) :
    parseExponent (0x65 :: 0x2B :: es) = some ((digitsValue 0 es : Int), []) := by
  have h := takeDigits_all es [] hes (by simp)
  rw [List.append_nil] at h
  unfold parseExponent
  simp [h, hne]

/-- The exponent part that Number::toString writes reads back as the exponent. -/
theorem parseExponent_written (x : Int) :
    parseExponent (0x65 :: (if x < 0 then 0x2D else 0x2B) ::
      digitUnits (decimalDigits x.natAbs)) = some (x, []) := by
  have hne : digitUnits (decimalDigits x.natAbs) ≠ [] := by
    simp [digitUnits, decimalDigits_ne_nil]
  have hes := all_isDigit_units _ (decimalDigits_lt x.natAbs)
  split_ifs with h
  · rw [parseExponent_minus _ hne hes, digitsValue_decimalDigits]
    have : -((x.natAbs : Nat) : Int) = x := by omega
    rw [this]
  · rw [parseExponent_plus _ hne hes, digitsValue_decimalDigits]
    have : ((x.natAbs : Nat) : Int) = x := by omega
    rw [this]


theorem digitUnits_cons (d : Nat) (ds : List Nat) :
    digitUnits (d :: ds) = (0x30 + d) :: digitUnits ds := rfl

theorem decimalToDouble_shift (neg : Bool) (s z : Nat) :
    decimalToDouble neg (s * 10 ^ z) 0 = decimalToDouble neg s (z : Int) := by
  simp [decimalToDouble]

/-- The digits and exponent that Number::toString writes read back as the
decimal they stand for. -/
theorem parseUnsigned_formatDecimal (neg : Bool) (s : Nat) (hs : 0 < s) (n : Int) :
    parseUnsigned neg (formatDecimal (decimalDigits s) n)
      = some (decimalToDouble neg s (n - ((decimalDigits s).length : Int)), []) := by
  have hval := digitsValue_decimalDigits s
  have hlt := decimalDigits_lt s
  have hhead := decimalDigits_head s hs
  have hne := decimalDigits_ne_nil s
  generalize decimalDigits s = ds at hval hlt hhead hne
  cases ds with
  | nil => exact absurd rfl hne
  | cons d0 ds' =>
    have hd0 : d0 ≠ 0 := fun h => hhead ds' (by rw [h])
    have hd0lt : d0 < 10 := hlt d0 (List.mem_cons_self _ _)
    have hc : isDigit (0x30 + d0) = true := isDigit_unit d0 hd0lt
    have hcz : 0x30 + d0 ≠ 0x30 := by omega
    have hlt' : ∀ d ∈ ds', d < 10 := fun d hd => hlt d (List.mem_cons_of_mem _ hd)
    have hds' : ∀ u ∈ digitUnits ds', isDigit u = true := all_isDigit_units ds' hlt'
    have hnil : ∀ u t', ([] : List Nat) = u :: t' → isDigit u = false := by simp
    have hexpo := parseExponent_written (n - 1)
    unfold formatDecimal
    simp only [List.length_cons]
    generalize (if n - 1 < 0 then 0x2D else 0x2B : Nat) = sg at hexpo ⊢
    split_ifs with h1 h2 h3
    · obtain ⟨z, hz⟩ : ∃ z : Nat, n = ((ds'.length + 1 + z : Nat) : Int) :=
        ⟨(n - (ds'.length + 1)).toNat, by omega⟩
      subst hz
      have hzz : ((ds'.length + 1 + z : Nat) : Int).toNat - (ds'.length + 1) = z := by
        rw [Int.toNat_ofNat]; omega
      rw [hzz]
      have hp := parseUnsigned_parts neg (0x30 + d0) (digitUnits ds' ++ List.replicate z 0x30)
        [] [] [] 0 [] hc (fun h => absurd h hcz)
        (by
          intro u hu
          rcases List.mem_append.1 hu with hu | hu
          · exact hds' u hu
          · exact all_isDigit_zeros z u hu)
        hnil (parseFraction_none [] (by simp)) parseExponent_nil
      simp only [List.append_nil] at hp
      rw [digitUnits_cons, List.cons_append, hp]
      have hv : digitsValue 0 ((0x30 + d0) :: (digitUnits ds' ++ List.replicate z 0x30))
          = s * 10 ^ z := by
        rw [← List.cons_append, ← digitUnits_cons, digitsValue_append, hval, digitsValue_zeros]
      rw [hv]
      have he : ((ds'.length + 1 + z : Nat) : Int) - ((ds'.length + 1 : Nat) : Int) = (z : Int) := by
        push_cast; ring
      simp only [List.length_nil, Nat.cast_zero, sub_zero]
      rw [decimalToDouble_shift, he]
    · obtain ⟨j, hj⟩ : ∃ j : Nat, n = ((j + 1 : Nat) : Int) := ⟨(n - 1).toNat, by omega⟩
      subst hj
      have hjlt : j < ds'.length := by
        by_contra hcon
        exact h1 ⟨by push_cast at hcon ⊢; omega, h2.2⟩
      rw [Int.toNat_ofNat, List.take_succ_cons, List.drop_succ_cons, digitUnits_cons,
        List.cons_append]
      have hdrop : digitUnits (ds'.drop j) ≠ [] := by
        intro hc0
        have := congrArg List.length hc0
        rw [digitUnits_length, List.length_drop] at this
        simp at this
        omega
      have hp := parseUnsigned_parts neg (0x30 + d0) (digitUnits (ds'.take j))
        (0x2E :: (digitUnits (ds'.drop j) ++ [])) (digitUnits (ds'.drop j)) [] 0 []
        hc (fun h => absurd h hcz)
        (all_isDigit_units _ (fun d hd => hlt' d (List.mem_of_mem_take hd)))
        (by intro u t' h; simp only [List.cons.injEq] at h; rw [← h.1]; decide)
        (parseFraction_some _ [] hdrop
          (all_isDigit_units _ (fun d hd => hlt' d (List.mem_of_mem_drop hd))) hnil)
        parseExponent_nil
      rw [List.append_nil] at hp
      rw [hp]
      have hv : digitsValue 0 ((0x30 + d0) :: digitUnits (ds'.take j) ++ digitUnits (ds'.drop j))
          = s := by
        rw [List.cons_append, ← digitUnits_append, List.take_append_drop, ← digitUnits_cons, hval]
      rw [hv, digitUnits_length, List.length_drop]
      congr 3
      omega
    · obtain ⟨z, hz⟩ : ∃ z : Nat, n = -((z : Nat) : Int) := ⟨(-n).toNat, by omega⟩
      subst hz
      rw [neg_neg, Int.toNat_ofNat]
      have hfs : ∀ u ∈ List.replicate z 0x30 ++ digitUnits (d0 :: ds'), isDigit u = true := by
        intro u hu
        rcases List.mem_append.1 hu with hu | hu
        · exact all_isDigit_zeros z u hu
        · exact all_isDigit_units _ hlt u hu
      have hp := parseUnsigned_parts neg 0x30 []
        (0x2E :: ((List.replicate z 0x30 ++ digitUnits (d0 :: ds')) ++ []))
        (List.replicate z 0x30 ++ digitUnits (d0 :: ds')) [] 0 []
        (by decide) (fun _ => rfl) (by simp)
        (by intro u t' h; simp only [List.cons.injEq] at h; rw [← h.1]; decide)
        (parseFraction_some _ [] (by simp [digitUnits]) hfs hnil)
        parseExponent_nil
      rw [List.append_nil, List.nil_append] at hp
      rw [hp]
      have hv : digitsValue 0 ([0x30] ++ (List.replicate z 0x30 ++ digitUnits (d0 :: ds'))) = s := by
        rw [List.singleton_append, digitsValue_cons, digitsValue_append, digitsValue_zeros]
        simpa using hval
      rw [hv]
      congr 3
      simp only [List.length_append, List.length_replicate, digitUnits_length, List.length_cons]
      omega
    · cases ds' with
      | nil =>
        simp only
        have hp := parseUnsigned_parts neg (0x30 + d0) []
          (0x65 :: sg :: digitUnits (decimalDigits (n - 1).natAbs)) [] _ (n - 1) []
          hc (fun h => absurd h hcz) (by simp)
          (by intro u t' h; simp only [List.cons.injEq] at h; rw [← h.1]; decide)
          (parseFraction_none _
            (by intro u t' h; simp only [List.cons.injEq] at h; rw [← h.1]; decide))
          hexpo
        rw [List.nil_append] at hp
        rw [hp]
        have hv : digitsValue 0 ([0x30 + d0] ++ []) = s := by
          rw [List.append_nil]; exact hval
        rw [hv]
        congr 2
        simp
      | cons d1 ds'' =>
        simp only
        have hp := parseUnsigned_parts neg (0x30 + d0) []
          (0x2E :: (digitUnits (d1 :: ds'') ++
            0x65 :: sg :: digitUnits (decimalDigits (n - 1).natAbs)))
          (digitUnits (d1 :: ds'')) _ (n - 1) []
          hc (fun h => absurd h hcz) (by simp)
          (by intro u t' h; simp only [List.cons.injEq] at h; rw [← h.1]; decide)
          (parseFraction_some _ _ (by simp [digitUnits]) hds'
            (by intro u t' h; simp only [List.cons.injEq] at h; rw [← h.1]; decide))
          hexpo
        rw [List.nil_append] at hp
        rw [hp]
        have hv : digitsValue 0 ([0x30 + d0] ++ digitUnits (d1 :: ds'')) = s := by
          rw [List.singleton_append, ← digitUnits_cons]; exact hval
        rw [hv, digitUnits_length]
        congr 3
        simp only [List.length_cons]
        omega


/-! ## A number survives writing and reading back -/

theorem isDouble_sign (neg neg' : Bool) (m : Nat) (p : Int)
    (h : (JSNumber.finite neg m p).isDouble = true) :
    (JSNumber.finite neg' m p).isDouble = true := h

theorem parseUnsigned_head {neg : Bool} {cs : List Nat} {r : JSNumber × List Nat}
    (h : parseUnsigned neg cs = some r) : ∃ c rest, cs = c :: rest ∧ isDigit c = true := by
  unfold parseUnsigned at h
  cases cs with
  | nil => simp at h
  | cons c rest =>
    by_cases hc : isDigit c = true
    · exact ⟨c, rest, rfl, hc⟩
    · simp [hc] at h

theorem parseNumber_toJSString (neg : Bool) (m : Nat) (p : Int) (hm : m ≠ 0)
    (hdbl : (JSNumber.finite neg m p).isDouble = true) :
    parseNumber (JSNumber.finite neg m p).toJSString = some (.finite neg m p, []) := by
  unfold JSNumber.toJSString
  simp only [if_neg hm]
  have hr := shortestDecimal_spec (.finite false m p) (if 0 ≤ p then m * 2 ^ p.toNat else m)
    (if 0 ≤ p then 1 else 2 ^ (-p).toNat)
    (decimalExponent (if 0 ≤ p then m * 2 ^ p.toNat else m) (if 0 ≤ p then 1 else 2 ^ (-p).toNat))
    (exactDecimal m p) (decimalToDouble_exactDecimal m p hm (isDouble_sign neg false m p hdbl))
    16 1
  generalize shortestDecimal _ _ _ _ _ _ _ = r at hr ⊢
  have hs : 0 < r.1 := by
    rcases Nat.eq_zero_or_pos r.1 with h0 | h0
    · rw [h0, decimalToDouble_zero] at hr
      simp only [JSNumber.finite.injEq, true_and] at hr
      exact absurd hr.1.symm hm
    · exact h0
  have hparse := fun b => parseUnsigned_formatDecimal b r.1 hs
    (r.2 + ((decimalDigits r.1).length : Int))
  simp only [add_sub_cancel_right] at hparse
  cases neg with
  | true =>
    simp only [if_true, List.singleton_append, parseNumber]
    rw [hparse true, decimalToDouble_sign true _ _ _ _ hr]
  | false =>
    simp only [Bool.false_eq_true, if_false, List.nil_append]
    obtain ⟨c, rest, hcs, hc⟩ := parseUnsigned_head (hparse false)
    rw [hcs] at hparse ⊢
    have hne : c ≠ 0x2D := by
      rintro rfl
      simp [isDigit] at hc
    simp only [parseNumber, if_neg hne]
    rw [hparse false, hr]

theorem parseNumber_head {cs : List Nat} {r : JSNumber × List Nat}
    (h : parseNumber cs = some r) :
    ∃ c rest, cs = c :: rest ∧ (c = 0x2D ∨ isDigit c = true) := by
  unfold parseNumber at h
  cases cs with
  | nil => simp at h
  | cons c rest =>
    by_cases hc : c = 0x2D
    · exact ⟨c, rest, rfl, Or.inl hc⟩
    · simp only [if_neg hc] at h
      obtain ⟨c', rest', hcs, hd⟩ := parseUnsigned_head h
      simp only [List.cons.injEq] at hcs
      exact ⟨c, rest, rfl, Or.inr (by rw [hcs.1]; exact hd)⟩

theorem parseValue_of_parseNumber (fuel : Nat) {cs : List Nat} {x : JSNumber} {r : List Nat}
    (h : parseNumber cs = some (x, r)) : parseValue (fuel + 1) cs = some (.number x, r) := by
  obtain ⟨c, rest, hcs, hc⟩ := parseNumber_head h
  subst hcs
  have hfacts : isWhiteSpace c = false ∧ c ≠ 0x22 ∧ c ≠ 0x7B ∧ c ≠ 0x5B ∧ c ≠ 0x74 ∧
      c ≠ 0x66 ∧ c ≠ 0x6E := by
    rcases hc with rfl | hc
    · decide
    · simp only [isDigit, Bool.and_eq_true, decide_eq_true_eq] at hc
      simp only [isWhiteSpace, Bool.or_eq_false_iff, decide_eq_false_iff_not]
      omega
  obtain ⟨h1, h2, h3, h4, h5, h6, h7⟩ := hfacts
  rw [parseValue]
  simp only [skipWhiteSpace, h1, Bool.false_eq_true, if_false, if_neg h2, if_neg h3, if_neg h4,
    if_neg h5, if_neg h6, if_neg h7, h]

/-! ## The order of the properties of an object -/

/-- A run of digits that does not start with `0` is the decimal text of its value. -/
theorem digits_canonical (us : List Nat) : us ≠ [] → (∀ u ∈ us, isDigit u = true) →
    (∀ rest, us ≠ 0x30 :: rest) → us = digitUnits (decimalDigits (digitsValue 0 us)) := by
  induction us using List.reverseRecOn with
  | nil => intro h; exact absurd rfl h
  | append_singleton init c ih =>
    intro _ hdig hhead
    have hc := hdig c (by simp)
    simp only [isDigit, Bool.and_eq_true, decide_eq_true_eq] at hc
    rw [digitsValue_append, digitsValue_cons, digitsValue_nil]
    cases init with
    | nil =>
      rw [digitsValue_nil, decimalDigits_small _ (by omega)]
      simp only [List.nil_append, digitUnits, List.map_cons, List.map_nil, List.cons.injEq,
        and_true]
      omega
    | cons a init' =>
      have ih' := ih (by simp) (fun u hu => hdig u (by simp at hu ⊢; tauto))
        (fun rest h => hhead (rest ++ [c]) (by rw [h]; rfl))
      have hV : 0 < digitsValue 0 (a :: init') := by
        rcases Nat.eq_zero_or_pos (digitsValue 0 (a :: init')) with h0 | h0
        · rw [h0, decimalDigits_small 0 (by norm_num)] at ih'
          exact absurd (by rw [ih']; rfl) (hhead ([] ++ [c]))
        · exact h0
      rw [decimalDigits_eq, if_neg (by omega)]
      have h1 : (10 * digitsValue 0 (a :: init') + (c - 0x30)) / 10 = digitsValue 0 (a :: init') := by
        omega
      have h2 : (10 * digitsValue 0 (a :: init') + (c - 0x30)) % 10 = c - 0x30 := by omega
      rw [h1, h2, digitUnits_append, ← ih']
      simp only [digitUnits, List.map_cons, List.map_nil, List.append_cancel_left_eq,
        List.cons.injEq, and_true]
      omega


theorem arrayIndex_canonical (k : JSString) (n : Nat) (h : arrayIndex k = some n) :
    k = digitUnits (decimalDigits n) := by
  unfold arrayIndex at h
  cases k with
  | nil => simp at h
  | cons c cs =>
    simp only at h
    split_ifs at h with h0 h1 h2
    · simp only [Option.some.injEq] at h
      subst h; subst h0; subst h1
      rw [decimalDigits_small 0 (by norm_num)]
      rfl
    · simp only [Option.some.injEq] at h
      subst h
      simp only [Bool.and_eq_true, List.all_eq_true, decide_eq_true_eq] at h2
      apply digits_canonical
      · simp
      · intro u hu
        rcases List.mem_cons.1 hu with rfl | hu
        · exact h2.1.1.1
        · exact h2.1.1.2 u hu
      · intro rest hc
        simp only [List.cons.injEq] at hc
        exact h0 hc.1

theorem arrayIndex_injective (k k' : JSString) (n : Nat) (h : arrayIndex k = some n)
    (h' : arrayIndex k' = some n) : k = k' := by
  rw [arrayIndex_canonical k n h, arrayIndex_canonical k' n h']

theorem hasOwnProperty_iff (ms : List (JSString × JSValue)) (k : JSString) :
    hasOwnProperty ms k = true ↔ k ∈ ms.map Prod.fst := by
  induction ms with
  | nil => simp [hasOwnProperty]
  | cons p ms ih =>
    obtain ⟨k', v'⟩ := p
    simp only [hasOwnProperty, Bool.or_eq_true, decide_eq_true_eq, ih, List.map_cons,
      List.mem_cons]
    constructor
    · rintro (h | h)
      · exact Or.inl h.symm
      · exact Or.inr h
    · rintro (h | h)
      · exact Or.inl h.symm
      · exact Or.inr h

theorem keys_replaceProperty (k : JSString) (v : JSValue) (ms : List (JSString × JSValue)) :
    (replaceProperty k v ms).map Prod.fst = ms.map Prod.fst := by
  induction ms with
  | nil => rfl
  | cons p ms ih =>
    obtain ⟨k', v'⟩ := p
    simp only [replaceProperty]
    split_ifs <;> simp [ih]

theorem mem_replaceProperty (k : JSString) (v : JSValue) (ms : List (JSString × JSValue))
    (p : JSString × JSValue) (h : p ∈ replaceProperty k v ms) : p.2 = v ∨ p ∈ ms := by
  induction ms with
  | nil => simp [replaceProperty] at h
  | cons q ms ih =>
    obtain ⟨k', v'⟩ := q
    simp only [replaceProperty] at h
    split_ifs at h
    · rcases List.mem_cons.1 h with rfl | h
      · exact Or.inl rfl
      · rcases ih h with h | h
        · exact Or.inl h
        · exact Or.inr (List.mem_cons_of_mem _ h)
    · rcases List.mem_cons.1 h with rfl | h
      · exact Or.inr (List.mem_cons_self _ _)
      · rcases ih h with h | h
        · exact Or.inl h
        · exact Or.inr (List.mem_cons_of_mem _ h)

theorem mem_insertIndexed (i : Nat) (k : JSString) (v : JSValue)
    (ms : List (JSString × JSValue)) (p : JSString × JSValue) :
    p ∈ insertIndexed i k v ms ↔ p = (k, v) ∨ p ∈ ms := by
  induction ms with
  | nil => simp [insertIndexed]
  | cons q ms ih =>
    obtain ⟨k', v'⟩ := q
    simp only [insertIndexed]
    split
    · split_ifs
      · simp
      · simp only [List.mem_cons, ih]
        tauto
    · simp

theorem mem_createDataProperty (ms : List (JSString × JSValue)) (k : JSString) (v : JSValue)
    (p : JSString × JSValue) (h : p ∈ createDataProperty ms k v) : p.2 = v ∨ p ∈ ms := by
  unfold createDataProperty at h
  split_ifs at h
  · exact mem_replaceProperty k v ms p h
  · split at h
    · rcases (mem_insertIndexed _ _ _ _ _).1 h with rfl | h
      · exact Or.inl rfl
      · exact Or.inr h
    · rcases List.mem_append.1 h with h | h
      · exact Or.inr h
      · simp only [List.mem_singleton] at h
        subst h
        exact Or.inl rfl

theorem keyBefore_of_index {a b : JSString} {i j : Nat} (hab : a ≠ b)
    (ha : arrayIndex a = some i) (hb : arrayIndex b = some j) (hij : i < j) :
    keyBefore a b = true := by
  simp [keyBefore, ha, hb, hij, hab]

theorem keyBefore_of_none {a b : JSString} (hab : a ≠ b) (hb : arrayIndex b = none) :
    keyBefore a b = true := by
  unfold keyBefore
  rw [hb]
  cases arrayIndex a <;> simp [hab]

theorem index_of_keyBefore {a b : JSString} {j : Nat} (h : keyBefore a b = true)
    (hb : arrayIndex b = some j) : ∃ i, arrayIndex a = some i ∧ i < j := by
  unfold keyBefore at h
  rw [hb] at h
  cases ha : arrayIndex a with
  | none => simp [ha] at h
  | some i =>
    simp [ha] at h
    exact ⟨i, rfl, h.2⟩

theorem none_of_keyBefore {a b : JSString} (h : keyBefore a b = true)
    (ha : arrayIndex a = none) : arrayIndex b = none := by
  unfold keyBefore at h
  rw [ha] at h
  cases hb : arrayIndex b with
  | none => rfl
  | some j => simp [hb] at h

theorem ne_of_keyBefore {a b : JSString} (h : keyBefore a b = true) : a ≠ b := by
  unfold keyBefore at h
  simp only [Bool.and_eq_true, bne_iff_ne] at h
  exact h.1


theorem keysInOrder_cons (k : JSString) (v : JSValue) (ms : List (JSString × JSValue)) :
    KeysInOrder ((k, v) :: ms) ↔ (∀ p ∈ ms, keyBefore k p.1 = true) ∧ KeysInOrder ms := by
  simp [KeysInOrder, List.pairwise_cons]

theorem keysInOrder_insertIndexed (i : Nat) (k : JSString) (v : JSValue)
    (hk : arrayIndex k = some i) (ms : List (JSString × JSValue)) (hms : KeysInOrder ms)
    (hnew : ∀ p ∈ ms, p.1 ≠ k) : KeysInOrder (insertIndexed i k v ms) := by
  induction ms with
  | nil => simp [insertIndexed, KeysInOrder]
  | cons q ms ih =>
    obtain ⟨k', v'⟩ := q
    obtain ⟨hq, hms'⟩ := (keysInOrder_cons k' v' ms).1 hms
    have hk' : k' ≠ k := hnew (k', v') (List.mem_cons_self _ _)
    have hnew' : ∀ p ∈ ms, p.1 ≠ k := fun p hp => hnew p (List.mem_cons_of_mem _ hp)
    simp only [insertIndexed]
    split
    · rename_i j hj
      split_ifs with hij
      · rw [keysInOrder_cons]
        refine ⟨?_, hms⟩
        intro p hp
        rcases List.mem_cons.1 hp with rfl | hp
        · exact keyBefore_of_index hk'.symm hk hj hij
        · cases hb : arrayIndex p.1 with
          | none => exact keyBefore_of_none (hnew' p hp).symm hb
          | some jb =>
            obtain ⟨i', hi', hlt⟩ := index_of_keyBefore (hq p hp) hb
            rw [hj] at hi'
            simp only [Option.some.injEq] at hi'
            exact keyBefore_of_index (hnew' p hp).symm hk hb (by omega)
      · rw [keysInOrder_cons]
        refine ⟨?_, ih hms' hnew'⟩
        intro p hp
        rcases (mem_insertIndexed _ _ _ _ _).1 hp with rfl | hp
        · have hne : j ≠ i := by
            rintro rfl
            exact hk' (arrayIndex_injective _ _ _ hj hk)
          exact keyBefore_of_index hk' hj hk (by omega)
        · exact hq p hp
    · rename_i hj
      rw [keysInOrder_cons]
      refine ⟨?_, hms⟩
      intro p hp
      have hb : arrayIndex p.1 = none := by
        rcases List.mem_cons.1 hp with rfl | hp
        · exact hj
        · exact none_of_keyBefore (hq p hp) hj
      have hne : k ≠ p.1 := by
        rcases List.mem_cons.1 hp with rfl | hp
        · exact hk'.symm
        · exact (hnew' p hp).symm
      exact keyBefore_of_none hne hb

theorem keysInOrder_append (k : JSString) (v : JSValue) (hk : arrayIndex k = none)
    (ms : List (JSString × JSValue)) (hms : KeysInOrder ms) (hnew : ∀ p ∈ ms, p.1 ≠ k) :
    KeysInOrder (ms ++ [(k, v)]) := by
  unfold KeysInOrder at hms ⊢
  rw [List.map_append, List.pairwise_append]
  refine ⟨hms, by simp, ?_⟩
  intro a ha b hb
  simp only [List.map_cons, List.map_nil, List.mem_singleton] at hb
  subst hb
  obtain ⟨p, hp, rfl⟩ := List.mem_map.1 ha
  exact keyBefore_of_none (hnew p hp) hk

theorem keysInOrder_createDataProperty (ms : List (JSString × JSValue)) (k : JSString)
    (v : JSValue) (hms : KeysInOrder ms) : KeysInOrder (createDataProperty ms k v) := by
  unfold createDataProperty
  split_ifs with h
  · unfold KeysInOrder
    rw [keys_replaceProperty]
    exact hms
  · have hnew : ∀ p ∈ ms, p.1 ≠ k := by
      intro p hp hc
      apply h
      rw [hasOwnProperty_iff]
      exact List.mem_map.2 ⟨p, hp, hc⟩
    split
    · rename_i i hi
      exact keysInOrder_insertIndexed i k v hi ms hms hnew
    · rename_i hi
      exact keysInOrder_append k v hi ms hms hnew

theorem insertIndexed_last (i : Nat) (k : JSString) (v : JSValue)
    (ms : List (JSString × JSValue))
    (h : ∀ p ∈ ms, ∃ j, arrayIndex p.1 = some j ∧ j < i) :
    insertIndexed i k v ms = ms ++ [(k, v)] := by
  induction ms with
  | nil => rfl
  | cons q ms ih =>
    obtain ⟨k', v'⟩ := q
    obtain ⟨j, hj, hlt⟩ := h (k', v') (List.mem_cons_self _ _)
    simp only at hj
    simp only [insertIndexed, hj, if_neg (by omega : ¬ i < j), List.cons_append,
      ih (fun p hp => h p (List.mem_cons_of_mem _ hp))]

/-- The next member of an object whose members stand in the order of
OrdinaryOwnPropertyKeys is created after the members before it. -/
theorem createDataProperty_next (acc : List (JSString × JSValue)) (k : JSString)
    (v v' : JSValue) (rest : List (JSString × JSValue))
    (h : KeysInOrder (acc ++ (k, v) :: rest)) :
    createDataProperty acc k v' = acc ++ [(k, v')] := by
  unfold KeysInOrder at h
  rw [List.map_append, List.pairwise_append] at h
  obtain ⟨_, _, hcross⟩ := h
  have hb : ∀ p ∈ acc, keyBefore p.1 k = true := by
    intro p hp
    exact hcross p.1 (List.mem_map.2 ⟨p, hp, rfl⟩) k (by simp)
  have hno : hasOwnProperty acc k = false := by
    cases hh : hasOwnProperty acc k with
    | false => rfl
    | true =>
      rw [hasOwnProperty_iff] at hh
      obtain ⟨p, hp, hpk⟩ := List.mem_map.1 hh
      exact absurd hpk (ne_of_keyBefore (hb p hp))
  unfold createDataProperty
  simp only [hno, Bool.false_eq_true, if_false]
  split
  · rename_i i hi
    exact insertIndexed_last i k v' acc (fun p hp => index_of_keyBefore (hb p hp) hi)
  · rfl

/-! ## White space before a value -/

theorem skipWhiteSpace_idem (cs : List Nat) :
    skipWhiteSpace (skipWhiteSpace cs) = skipWhiteSpace cs := by
  induction cs with
  | nil => rfl
  | cons c cs ih =>
    by_cases hc : isWhiteSpace c = true
    · simp only [skipWhiteSpace, hc, if_true, ih]
    · simp only [skipWhiteSpace, hc, if_false]

theorem parseValue_skip (fuel : Nat) (cs : List Nat) :
    parseValue fuel (skipWhiteSpace cs) = parseValue fuel cs := by
  cases fuel with
  | zero => simp [parseValue]
  | succ f => rw [parseValue, parseValue, skipWhiteSpace_idem]

theorem parseElements_skip (fuel : Nat) (cs : List Nat) (acc : List JSValue) :
    parseElements fuel (skipWhiteSpace cs) acc = parseElements fuel cs acc := by
  cases fuel with
  | zero => simp [parseElements]
  | succ f => rw [parseElements, parseElements, parseValue_skip]

/-- A text that reads as a value starts, after white space, with a code unit
that is not a closing bracket. -/
theorem parseValue_head {fuel : Nat} {cs : List Nat} {r : JSValue × List Nat}
    (h : parseValue fuel cs = some r) :
    ∃ d rest, skipWhiteSpace cs = d :: rest ∧ d ≠ 0x5D := by
  cases fuel with
  | zero => simp [parseValue] at h
  | succ f =>
    rw [parseValue] at h
    cases hs : skipWhiteSpace cs with
    | nil => rw [hs] at h; simp at h
    | cons d rest =>
      refine ⟨d, rest, rfl, ?_⟩
      rintro rfl
      rw [hs] at h
      simp [parseNumber, parseUnsigned, isDigit] at h

theorem parseElements_head {fuel : Nat} {cs : List Nat} {acc : List JSValue}
    {r : JSValue × List Nat} (h : parseElements fuel cs acc = some r) :
    ∃ d rest, skipWhiteSpace cs = d :: rest ∧ d ≠ 0x5D := by
  cases fuel with
  | zero => simp [parseElements] at h
  | succ f =>
    rw [parseElements] at h
    cases hv : parseValue f cs with
    | none => rw [hv] at h; simp at h
    | some r' => exact parseValue_head hv

theorem parseValue_array {fuel : Nat} {cs : List Nat} {r : JSValue × List Nat}
    (h : parseElements fuel cs [] = some r) : parseValue (fuel + 1) (0x5B :: cs) = some r := by
  obtain ⟨d, rest, hs, hd⟩ := parseElements_head h
  rw [← parseElements_skip, hs] at h
  rw [parseValue]
  simp [skipWhiteSpace, isWhiteSpace, hs, hd, h]

theorem parseValue_object {fuel : Nat} {cs : List Nat} {r : JSValue × List Nat}
    (h : parseMembers fuel (0x22 :: cs) [] = some r) :
    parseValue (fuel + 1) (0x7B :: 0x22 :: cs) = some r := by
  rw [parseValue]
  simp [skipWhiteSpace, isWhiteSpace, h]

theorem joinComma_cons (t : List Nat) (ts : List (List Nat)) (h : ts ≠ []) :
    joinComma (t :: ts) = t ++ 0x2C :: joinComma ts := by
  cases ts with
  | nil => exact absurd rfl h
  | cons t' ts' => rfl

/-! ## Every value that `JSON.parse` returns reads back -/

theorem readsBack_ne_undefined {v : JSValue} (h : ReadsBack v) : v ≠ .undefined := by
  rintro rfl
  obtain ⟨T, hT, _⟩ := h
  simp [serializeJSONProperty] at hT

theorem readBackItems_cons (v : JSValue) (vs : List JSValue) (h : v ≠ .undefined) :
    readBackItems (v :: vs) = v.readBack :: readBackItems vs := by
  cases v <;> first | exact absurd rfl h | rfl

theorem readBackMembers_cons (k : JSString) (v : JSValue) (ms : List (JSString × JSValue))
    (h : v ≠ .undefined) :
    readBackMembers ((k, v) :: ms) = (k, v.readBack) :: readBackMembers ms := by
  cases v <;> first | exact absurd rfl h | rfl

theorem keys_readBackMembers (ms : List (JSString × JSValue))
    (h : ∀ p ∈ ms, p.2 ≠ .undefined) :
    (readBackMembers ms).map Prod.fst = ms.map Prod.fst := by
  induction ms with
  | nil => rfl
  | cons p ms ih =>
    obtain ⟨k, v⟩ := p
    rw [readBackMembers_cons k v ms (h (k, v) (List.mem_cons_self _ _))]
    simp [ih (fun p hp => h p (List.mem_cons_of_mem _ hp))]

theorem serializeElements_cons (v : JSValue) (vs : List JSValue) (T : List Nat)
    (h : serializeJSONProperty v = some T) :
    serializeElements (v :: vs) = T :: serializeElements vs := by
  rw [serializeElements, h]

theorem serializeMembers_cons (k : JSString) (v : JSValue) (ms : List (JSString × JSValue))
    (T : List Nat) (h : serializeJSONProperty v = some T) :
    serializeMembers ((k, v) :: ms) = (quoteJSONString k ++ 0x3A :: T) :: serializeMembers ms := by
  rw [serializeMembers, h]

theorem serializeElements_ne_nil (vs : List JSValue) (h : vs ≠ []) :
    serializeElements vs ≠ [] := by
  cases vs with
  | nil => exact absurd rfl h
  | cons v vs => rw [serializeElements]; simp

theorem serializeMembers_ne_nil (ms : List (JSString × JSValue)) (h : ms ≠ [])
    (hms : ∀ p ∈ ms, ReadsBack p.2) : serializeMembers ms ≠ [] := by
  cases ms with
  | nil => exact absurd rfl h
  | cons p ms =>
    obtain ⟨k, v⟩ := p
    obtain ⟨T, hT, _⟩ := hms (k, v) (List.mem_cons_self _ _)
    rw [serializeMembers_cons k v ms T hT]
    simp

/-- The texts of the elements of an array, up to the closing bracket, read as
the elements that `readBack` says. -/
theorem parseElements_written (vs : List JSValue) (hne : vs ≠ [])
    (hvs : ∀ a ∈ vs, ReadsBack a) : ∀ acc rest, ∃ f,
      parseElements f (joinComma (serializeElements vs) ++ 0x5D :: rest) acc
        = some (.array (acc ++ readBackItems vs), rest) := by
  induction vs with
  | nil => exact absurd rfl hne
  | cons v vs ih =>
    intro acc rest
    have hv := hvs v (List.mem_cons_self _ _)
    have hvne := readsBack_ne_undefined hv
    obtain ⟨T, hT, hparse⟩ := hv
    have hplace := readsInPlace_of_parse T _ hparse
    rw [serializeElements_cons v vs T hT, readBackItems_cons v vs hvne]
    by_cases hvs' : vs = []
    · subst hvs'
      obtain ⟨r, hr, hws⟩ := hplace 0 0x5D rest (by decide)
      rw [Nat.zero_add] at hr
      refine ⟨(2 * T.length + 2) + 1, ?_⟩
      rw [parseElements]
      simp [serializeElements, joinComma, readBackItems, hr, hws]
    · obtain ⟨f2, hf2⟩ := ih hvs' (fun a ha => hvs a (List.mem_cons_of_mem _ ha))
        (acc ++ [v.readBack]) rest
      obtain ⟨r, hr, hws⟩ := hplace f2 0x2C
        (joinComma (serializeElements vs) ++ 0x5D :: rest) (by decide)
      refine ⟨f2 + (2 * T.length + 2) + 1, ?_⟩
      rw [parseElements, joinComma_cons T _ (serializeElements_ne_nil vs hvs'),
        List.append_assoc, List.cons_append, hr]
      simp only [hws, if_true]
      rw [parseElements_fuel_le (Nat.le_add_right _ _) hf2, List.append_assoc,
        List.singleton_append]

/-- The texts of the members of an object, up to the closing brace, read as the
members that `readBack` says, when the members stand in the order of
OrdinaryOwnPropertyKeys. -/
theorem parseMembers_written (ms : List (JSString × JSValue)) (hne : ms ≠ [])
    (hms : ∀ p ∈ ms, ReadsBack p.2) : ∀ acc rest, KeysInOrder (acc ++ ms) → ∃ f,
      parseMembers f (joinComma (serializeMembers ms) ++ 0x7D :: rest) acc
        = some (.object (acc ++ readBackMembers ms), rest) := by
  induction ms with
  | nil => exact absurd rfl hne
  | cons p ms ih =>
    intro acc rest hord
    obtain ⟨k, v⟩ := p
    have hv := hms (k, v) (List.mem_cons_self _ _)
    have hvne : v ≠ .undefined := readsBack_ne_undefined hv
    obtain ⟨T, hT, hparse⟩ := hv
    have hplace := readsInPlace_of_parse T _ hparse
    have hcreate := createDataProperty_next acc k v v.readBack ms hord
    rw [serializeMembers_cons k v ms T hT, readBackMembers_cons k v ms hvne]
    by_cases hms' : ms = []
    · subst hms'
      refine ⟨0 + (2 * T.length + 2) + 1, ?_⟩
      simp only [serializeMembers, joinComma, readBackMembers, List.append_assoc,
        List.cons_append]
      rw [parseMembers_close hplace, hcreate]
    · have hord' : KeysInOrder ((acc ++ [(k, v.readBack)]) ++ ms) := by
        unfold KeysInOrder at hord ⊢
        simpa using hord
      obtain ⟨f2, hf2⟩ := ih hms' (fun p hp => hms p (List.mem_cons_of_mem _ hp))
        (acc ++ [(k, v.readBack)]) rest hord'
      refine ⟨f2 + (2 * T.length + 2) + 1, ?_⟩
      rw [joinComma_cons _ _ (serializeMembers_ne_nil ms hms'
          (fun p hp => hms p (List.mem_cons_of_mem _ hp))),
        List.append_assoc, List.append_assoc, List.cons_append, List.cons_append,
        parseMembers_comma hplace, hcreate,
        parseMembers_fuel_le (Nat.le_add_right _ _) hf2, List.append_assoc,
        List.singleton_append]


theorem readsBack_array (items : List JSValue) (h : ∀ a ∈ items, ReadsBack a) :
    ReadsBack (.array items) := by
  refine ⟨_, by rw [serializeJSONProperty], ?_⟩
  by_cases hne : items = []
  · subst hne
    exact parse_of_parseValue _ 1 _ (by
      simp [serializeElements, joinComma, parseValue, skipWhiteSpace, isWhiteSpace,
        JSValue.readBack, readBackItems])
  · obtain ⟨f, hf⟩ := parseElements_written items hne h [] []
    rw [List.nil_append] at hf
    exact parse_of_parseValue _ (f + 1) _ (by rw [JSValue.readBack]; exact parseValue_array hf)

theorem readsBack_object (ms : List (JSString × JSValue)) (h : ∀ p ∈ ms, ReadsBack p.2)
    (hord : KeysInOrder ms) : ReadsBack (.object ms) := by
  refine ⟨_, by rw [serializeJSONProperty], ?_⟩
  cases ms with
  | nil =>
    exact parse_of_parseValue _ 1 _ (by
      simp [serializeMembers, joinComma, parseValue, skipWhiteSpace, isWhiteSpace,
        JSValue.readBack, readBackMembers])
  | cons p ms' =>
    obtain ⟨f, hf⟩ := parseMembers_written (p :: ms') (by simp) h [] [] (by simpa using hord)
    rw [List.nil_append] at hf
    obtain ⟨k, v⟩ := p
    obtain ⟨T, hT, _⟩ := h (k, v) (List.mem_cons_self _ _)
    have hshape : ∃ X, joinComma (serializeMembers ((k, v) :: ms')) ++ [0x7D] = 0x22 :: X := by
      rw [serializeMembers_cons k v ms' T hT]
      cases hs : serializeMembers ms' with
      | nil => exact ⟨_, by simp [joinComma, quoteJSONString]; rfl⟩
      | cons t ts => exact ⟨_, by simp [joinComma, quoteJSONString]; rfl⟩
    obtain ⟨X, hX⟩ := hshape
    rw [hX] at hf ⊢
    exact parse_of_parseValue _ (f + 1) _ (by rw [JSValue.readBack]; exact parseValue_object hf)

theorem readsBack_string (s : JSString) : ReadsBack (.string s) :=
  ⟨_, by rw [serializeJSONProperty], parse_quoteJSONString s⟩

theorem readsBack_null : ReadsBack .null := ⟨_, by rw [serializeJSONProperty], by rfl⟩

theorem readsBack_bool (b : Bool) : ReadsBack (.bool b) := by
  cases b
  · exact ⟨_, by rw [serializeJSONProperty], by rfl⟩
  · exact ⟨_, by rw [serializeJSONProperty], by rfl⟩

theorem readsBack_number (x : JSNumber) (hx : x.isDouble = true) : ReadsBack (.number x) := by
  cases x with
  | nan => exact ⟨utf16 "null", rfl, by rfl⟩
  | infinity neg => exact ⟨utf16 "null", rfl, by rfl⟩
  | finite neg m p =>
    refine ⟨(JSNumber.finite neg m p).toJSString, rfl, ?_⟩
    by_cases hm : m = 0
    · subst hm
      have hp : p = -1074 := by
        simp [JSNumber.isDouble] at hx
        exact hx
      subst hp
      have : (JSNumber.finite neg 0 (-1074)).toJSString = [0x30] := by
        simp [JSNumber.toJSString]
      simp only [this, JSValue.readBack, if_true]
      rfl
    · simp only [JSValue.readBack, if_neg hm]
      exact parse_of_parseValue _ 1 _
        (parseValue_of_parseNumber 0 (parseNumber_toJSString neg m p hm hx))


theorem parseUnsigned_isDouble {neg : Bool} {cs : List Nat} {r : JSNumber × List Nat}
    (h : parseUnsigned neg cs = some r) : r.1.isDouble = true := by
  unfold parseUnsigned at h
  cases cs with
  | nil => simp at h
  | cons c cs1 =>
    simp only at h
    by_cases hc : isDigit c = true
    · rw [if_pos hc] at h
      generalize (if c = 0x30 then [c] else c :: (takeDigits cs1).1) = ints at h
      generalize (if c = 0x30 then cs1 else (takeDigits cs1).2) = rest1 at h
      cases hf : parseFraction rest1 with
      | none => simp [hf] at h
      | some fr =>
        obtain ⟨fs, rest2⟩ := fr
        cases he : parseExponent rest2 with
        | none => simp [hf, he] at h
        | some er =>
          obtain ⟨e, rest3⟩ := er
          simp only [hf, he, Option.some.injEq] at h
          subst h
          exact decimalToDouble_isDouble _ _ _
    · rw [if_neg hc] at h
      simp at h

theorem parseNumber_isDouble {cs : List Nat} {r : JSNumber × List Nat}
    (h : parseNumber cs = some r) : r.1.isDouble = true := by
  unfold parseNumber at h
  split at h
  · simp at h
  · split_ifs at h <;> exact parseUnsigned_isDouble h

theorem readsBackDeep_of_plain {v : JSValue} (h : ReadsBack v) (hv : ∀ ms, v ≠ .object ms) :
    ReadsBackDeep v :=
  ⟨h, fun ms hms => absurd hms (hv ms)⟩

theorem readsBackDeep_object (ms : List (JSString × JSValue)) (h : ∀ p ∈ ms, ReadsBack p.2)
    (hord : KeysInOrder ms) : ReadsBackDeep (.object ms) :=
  ⟨readsBack_object ms h hord, fun ms' hms' => by cases hms'; exact h⟩

theorem parse_readsBack_aux (fuel : Nat) :
    (∀ cs v r, parseValue fuel cs = some (v, r) → ReadsBackDeep v) ∧
    (∀ cs acc v r, (∀ a ∈ acc, ReadsBack a) →
      parseElements fuel cs acc = some (v, r) → ReadsBackDeep v) ∧
    (∀ cs acc v r, (∀ p ∈ acc, ReadsBack p.2) → KeysInOrder acc →
      parseMembers fuel cs acc = some (v, r) → ReadsBackDeep v) := by
  induction fuel with
  | zero => simp [parseValue, parseElements, parseMembers]
  | succ n ih =>
    obtain ⟨ihv, ihe, ihm⟩ := ih
    refine ⟨?_, ?_, ?_⟩
    · intro cs v r h
      rw [parseValue] at h
      split at h
      · simp at h
      · split_ifs at h
        · split at h
          · simp only [Option.some.injEq, Prod.mk.injEq] at h
            obtain ⟨rfl, _⟩ := h
            exact readsBackDeep_of_plain (readsBack_string _) (by simp)
          · simp at h
        · split at h
          · simp at h
          · split_ifs at h
            · simp only [Option.some.injEq, Prod.mk.injEq] at h
              obtain ⟨rfl, _⟩ := h
              exact readsBackDeep_object [] (by simp) (by simp [KeysInOrder])
            · exact ihm _ _ _ _ (by simp) (by simp [KeysInOrder]) h
        · split at h
          · simp at h
          · split_ifs at h
            · simp only [Option.some.injEq, Prod.mk.injEq] at h
              obtain ⟨rfl, _⟩ := h
              exact readsBackDeep_of_plain (readsBack_array [] (by simp)) (by simp)
            · exact ihe _ _ _ _ (by simp) h
        · split at h
          · simp only [Option.some.injEq, Prod.mk.injEq] at h
            obtain ⟨rfl, _⟩ := h
            exact readsBackDeep_of_plain (readsBack_bool _) (by simp)
          · simp at h
        · split at h
          · simp only [Option.some.injEq, Prod.mk.injEq] at h
            obtain ⟨rfl, _⟩ := h
            exact readsBackDeep_of_plain (readsBack_bool _) (by simp)
          · simp at h
        · split at h
          · simp only [Option.some.injEq, Prod.mk.injEq] at h
            obtain ⟨rfl, _⟩ := h
            exact readsBackDeep_of_plain readsBack_null (by simp)
          · simp at h
        · split at h
          · rename_i r' hr'
            simp only [Option.some.injEq, Prod.mk.injEq] at h
            obtain ⟨rfl, _⟩ := h
            exact readsBackDeep_of_plain (readsBack_number _ (parseNumber_isDouble hr'))
              (by simp)
          · simp at h
    · intro cs acc v r hacc h
      rw [parseElements] at h
      split at h
      · simp at h
      · rename_i v' rest hv'
        have hgood := (ihv _ _ _ hv').1
        have hacc' : ∀ a ∈ acc ++ [v'], ReadsBack a := by
          intro a ha
          rcases List.mem_append.1 ha with ha | ha
          · exact hacc a ha
          · simp only [List.mem_singleton] at ha
            subst ha
            exact hgood
        split at h
        · simp at h
        · split_ifs at h
          · exact ihe _ _ _ _ hacc' h
          · simp only [Option.some.injEq, Prod.mk.injEq] at h
            obtain ⟨rfl, _⟩ := h
            exact readsBackDeep_of_plain (readsBack_array _ hacc') (by simp)
    · intro cs acc v r hacc hord h
      rw [parseMembers] at h
      split at h
      · simp at h
      · split_ifs at h
        split at h
        · simp at h
        · split at h
          · simp at h
          · split_ifs at h
            split at h
            · simp at h
            · rename_i v' rest3 hv'
              have hgood := (ihv _ _ _ hv').1
              have hacc' : ∀ k, ∀ p ∈ createDataProperty acc k v', ReadsBack p.2 := by
                intro k p hp
                rcases mem_createDataProperty _ _ _ _ hp with hp | hp
                · rw [hp]; exact hgood
                · exact hacc p hp
              have hord' := fun k => keysInOrder_createDataProperty acc k v' hord
              split at h
              · simp at h
              · split_ifs at h
                · exact ihm _ _ _ _ (hacc' _) (hord' _) h
                · simp only [Option.some.injEq, Prod.mk.injEq] at h
                  obtain ⟨rfl, _⟩ := h
                  exact readsBackDeep_object _ (hacc' _) (hord' _)

theorem readBackMembers_length (ms : List (JSString × JSValue)) :
    (readBackMembers ms).length ≤ ms.length := by
  induction ms with
  | nil => simp [readBackMembers]
  | cons p ms ih =>
    obtain ⟨k, v⟩ := p
    cases v <;> simp [readBackMembers] <;> omega

theorem isExactItems_cons (v : JSValue) (vs : List JSValue) (h : v ≠ .undefined) :
    isExactItems (v :: vs) = (v.isExact && isExactItems vs) := by
  cases v <;> first | exact absurd rfl h | rfl

theorem isExactMembers_cons (k : JSString) (v : JSValue) (ms : List (JSString × JSValue))
    (h : v ≠ .undefined) :
    isExactMembers ((k, v) :: ms) = (v.isExact && isExactMembers ms) := by
  cases v <;> first | exact absurd rfl h | rfl

mutual
/-- A value is read back as itself exactly when `JSON.stringify` writes it
without loss. -/
theorem readBack_eq_iff : (v : JSValue) → (v.readBack = v ↔ v.isExact = true)
  | .undefined => by simp [JSValue.readBack, JSValue.isExact]
  | .null => by simp [JSValue.readBack, JSValue.isExact]
  | .bool _ => by simp [JSValue.readBack, JSValue.isExact]
  | .string _ => by simp [JSValue.readBack, JSValue.isExact]
  | .number x => by
    cases x with
    | finite neg m e =>
      simp only [JSValue.readBack, JSValue.isExact, JSValue.number.injEq, JSNumber.finite.injEq,
        and_true]
      cases neg <;> by_cases hm : m = 0 <;> simp [hm]
    | infinity neg => simp [JSValue.readBack, JSValue.isExact]
    | nan => simp [JSValue.readBack, JSValue.isExact]
  | .array items => by
    simp only [JSValue.readBack, JSValue.isExact, JSValue.array.injEq]
    exact readBackItems_eq_iff items
  | .object ms => by
    simp only [JSValue.readBack, JSValue.isExact, JSValue.object.injEq]
    exact readBackMembers_eq_iff ms
theorem readBackItems_eq_iff : (vs : List JSValue) →
    (readBackItems vs = vs ↔ isExactItems vs = true)
  | [] => by simp [readBackItems, isExactItems]
  | v :: vs => by
    by_cases hv : v = .undefined
    · subst hv
      simp [readBackItems, isExactItems]
    · rw [readBackItems_cons v vs hv, isExactItems_cons v vs hv, List.cons.injEq,
        Bool.and_eq_true, readBack_eq_iff v, readBackItems_eq_iff vs]
theorem readBackMembers_eq_iff : (ms : List (JSString × JSValue)) →
    (readBackMembers ms = ms ↔ isExactMembers ms = true)
  | [] => by simp [readBackMembers, isExactMembers]
  | (k, v) :: ms => by
    by_cases hv : v = .undefined
    · subst hv
      simp only [readBackMembers, isExactMembers, Bool.false_and, Bool.false_eq_true, iff_false]
      intro hc
      have := congrArg List.length hc
      have hl := readBackMembers_length ms
      simp at this
      omega
    · rw [readBackMembers_cons k v ms hv, isExactMembers_cons k v ms hv, List.cons.injEq,
        Bool.and_eq_true, Prod.mk.injEq, readBack_eq_iff v, readBackMembers_eq_iff ms]
      simp
end

theorem parse_readsBack (text : JSString) (v : JSValue) (h : JSON.parse text = .ok v) :
    ReadsBackDeep v := by
  unfold JSON.parse at h
  split at h
  · rename_i v' r hv
    split_ifs at h
    simp only [Except.ok.injEq] at h
    subst h
    exact (parse_readsBack_aux _).1 _ _ _ hv
  · simp at h

theorem ownProperty_mem (ms : List (JSString × JSValue)) (k : JSString) :
    ownProperty ms k = .undefined ∨ ∃ p ∈ ms, p.2 = ownProperty ms k := by
  induction ms with
  | nil => exact Or.inl rfl
  | cons p ms ih =>
    obtain ⟨k', v'⟩ := p
    simp only [ownProperty]
    split_ifs
    · exact Or.inr ⟨(k', v'), List.mem_cons_self _ _, rfl⟩
    · rcases ih with h | ⟨p, hp, hpv⟩
      · exact Or.inl h
      · exact Or.inr ⟨p, List.mem_cons_of_mem _ hp, hpv⟩

/-- The task of a parsed body is absent, or a value that reads back from its
own JSON text. -/
theorem task_readsBack (text : JSString) (body task : JSValue)
    (hparse : JSON.parse text = .ok body) (htask : body.task = .ok task) :
    task = .undefined ∨ ReadsBack task := by
  obtain ⟨_, hdeep⟩ := parse_readsBack text body hparse
  cases body with
  | object ms =>
    simp only [JSValue.task, Except.ok.injEq] at htask
    subst htask
    rcases ownProperty_mem ms (utf16 "task") with h | ⟨p, hp, hpv⟩
    · exact Or.inl h
    · rw [← hpv]
      exact Or.inr (hdeep ms rfl p hp)
  | undefined => simp [JSValue.task] at htask
  | null => simp [JSValue.task] at htask
  | bool b => simp only [JSValue.task, Except.ok.injEq] at htask; exact Or.inl htask.symm
  | number x => simp only [JSValue.task, Except.ok.injEq] at htask; exact Or.inl htask.symm
  | string s => simp only [JSValue.task, Except.ok.injEq] at htask; exact Or.inl htask.symm
  | array items => simp only [JSValue.task, Except.ok.injEq] at htask; exact Or.inl htask.symm

/-! ## The claims -/

theorem depth_nestedArray (n : Nat) : (nestedArray n).depth = n + 1 := by
  induction n with
  | zero => simp [nestedArray, JSValue.depth, depthOfItems]
  | succ n ih => simp [nestedArray, JSValue.depth, depthOfItems, ih]

theorem nestedArrayText_succ (n : Nat) (rest : List Nat) :
    nestedArrayText (n + 1) ++ rest = 0x5B :: (nestedArrayText n ++ 0x5D :: rest) := by
  simp only [nestedArrayText]
  rw [List.replicate_succ (n := n + 1), List.replicate_succ' (n := n + 1)]
  simp

theorem readsAs_nestedArray (n : Nat) :
    ReadsAs (2 * n + 1) (nestedArrayText n) (nestedArray n) := by
  induction n with
  | zero =>
    intro fuel rest
    simp [nestedArrayText, nestedArray, parseValue, skipWhiteSpace, isWhiteSpace]
  | succ n ih =>
    intro fuel rest
    have hhead : ∃ tl, nestedArrayText n ++ 0x5D :: rest = 0x5B :: tl := by
      refine ⟨List.replicate n 0x5B ++ List.replicate (n + 1) 0x5D ++ 0x5D :: rest, ?_⟩
      simp [nestedArrayText, List.replicate_succ]
    obtain ⟨tl, htl⟩ := hhead
    have hv : parseValue (fuel + (2 * n + 1)) (0x5B :: tl) = some (nestedArray n, 0x5D :: rest) := by
      rw [← htl]
      exact ih fuel (0x5D :: rest)
    rw [nestedArrayText_succ, htl,
      show fuel + (2 * (n + 1) + 1) = fuel + (2 * n + 1) + 1 + 1 by omega]
    have hstep : parseElements (fuel + (2 * n + 1) + 1) (0x5B :: tl) []
        = some (nestedArray (n + 1), rest) := by
      rw [parseElements, hv]
      simp [skipWhiteSpace, isWhiteSpace, nestedArray]
    rw [parseValue]
    simp [skipWhiteSpace, isWhiteSpace, hstep]

theorem deepBody_eq (n : Nat) :
    deepBody n = 0x7B :: (quoteJSONString (utf16 "task") ++ 0x3A ::
      (nestedArrayText n ++ 0x7D :: [])) := by
  simp only [deepBody, quoteJSONString, List.append_assoc, List.cons_append, List.nil_append]
  rfl

theorem parse_deepBody (n : Nat) :
    JSON.parse (deepBody n) = .ok (.object [(utf16 "task", nestedArray n)]) := by
  apply parse_of_parseValue _ (0 + (2 * n + 1) + 1 + 1)
  rw [deepBody_eq, parseValue_object_open,
    parseMembers_close (readsAs_nestedArray n).inPlace 0,
    createDataProperty_fresh [] _ _ rfl (by decide)]
  rfl

/-- C1, as the specification states it, fails: the body whose task is an array
nested 5000 levels deep parses, the store accepts the put, and in a runtime
whose call stack has room for 4000 levels `JSON.stringify` throws a RangeError
inside the `try`; the handler logs it and returns 500, not 201. -/
theorem created_fails_on_deep_task :
    JSON.parse (deepBody 4999) = .ok (.object [(utf16 "task", nestedArray 4999)]) ∧
    acceptingRuntime.send (params acceptingRuntime (nestedArray 4999)) = .ok () ∧
    handler acceptingRuntime ⟨deepBody 4999⟩ =
      { result := .ok { statusCode := 500, body := .string failureText }
        effects := [.send (params acceptingRuntime (nestedArray 4999)),
          .consoleError rangeError] } ∧
    ¬ (handler acceptingRuntime ⟨deepBody 4999⟩).result = .ok
      { statusCode := 201
        body := JSON.stringify (.object
          [(utf16 "message", .string (utf16 "To-do item created successfully")),
           (utf16 "item", (params acceptingRuntime (nestedArray 4999)).Item)]) } := by
  have hh := handler_of_overflow acceptingRuntime ⟨deepBody 4999⟩ _ _ (parse_deepBody 4999)
    (task_of_object _) rfl (by
      have htask : ownProperty [(utf16 "task", nestedArray 4999)] (utf16 "task")
          = nestedArray 4999 := rfl
      rw [htask, depth_nestedArray]
      decide)
  have htask : ownProperty [(utf16 "task", nestedArray 4999)] (utf16 "task")
      = nestedArray 4999 := rfl
  rw [htask] at hh
  refine ⟨parse_deepBody 4999, rfl, hh, ?_⟩
  rw [hh]
  simp

/-- C1 (amended): for every event whose body parses to a JSON object, every
generated id and every timestamp, if the store write succeeds and the task
nests no deeper than `JSON.stringify` can follow on the call stack (the response
object is two levels deeper than the task), then the handler returns status 201
and a body that is the JSON serialisation of exactly the object with the
success message and the item `id`, `task`, `completed`, `createdAt`, where `id`
and `createdAt` are the values generated in this invocation; that serialisation
is a string, the text `createdText`. If the write succeeds and the task nests
deeper, the handler returns the 500 response. -/
theorem handler_created (rt : Runtime) (event : Event) (members : List (JSString × JSValue))
    (hparse : JSON.parse event.body = .ok (.object members))
    (hsend : rt.send (params rt (ownProperty members (utf16 "task"))) = .ok ()) :
    ((ownProperty members (utf16 "task")).depth + 2 ≤ rt.stack →
      (handler rt event).result = .ok
        { statusCode := 201
          body := JSON.stringify (.object
            [(utf16 "message", .string (utf16 "To-do item created successfully")),
             (utf16 "item", .object
               [(utf16 "id", .string rt.randomUUID),
                (utf16 "task", ownProperty members (utf16 "task")),
                (utf16 "completed", .bool false),
                (utf16 "createdAt", .string rt.now)])]) }) ∧
    (rt.stack < (ownProperty members (utf16 "task")).depth + 2 →
      (handler rt event).result = .ok { statusCode := 500, body := .string failureText }) ∧
    JSON.stringify (.object
      [(utf16 "message", .string (utf16 "To-do item created successfully")),
       (utf16 "item", .object
         [(utf16 "id", .string rt.randomUUID),
          (utf16 "task", ownProperty members (utf16 "task")),
          (utf16 "completed", .bool false),
          (utf16 "createdAt", .string rt.now)])])
      = .string (createdText rt.randomUUID
          (serializeJSONProperty (ownProperty members (utf16 "task"))) rt.now) := by
  refine ⟨?_, ?_, stringify_created rt (ownProperty members (utf16 "task"))⟩
  · intro hfit
    rw [handler_of_send_ok rt event _ _ hparse (task_of_object members) hsend hfit]
    rfl
  · intro hdeep
    rw [handler_of_overflow rt event _ _ hparse (task_of_object members) hsend hdeep]

set_option maxRecDepth 8000 in
/-- The handler of C1 at the body `{"task":"buy milk"}`, with a store that
accepts the put. -/
theorem handler_created_witness :
    JSON.parse (utf16 "\x7b\"task\":\"buy milk\"\x7d")
        = .ok (.object [(utf16 "task", .string (utf16 "buy milk"))]) ∧
    (handler acceptingRuntime ⟨utf16 "\x7b\"task\":\"buy milk\"\x7d"⟩).result = .ok
      { statusCode := 201
        body := .string (utf16 ("\x7b\"message\":\"To-do item created successfully\"," ++
          "\"item\":\x7b\"id\":\"123e4567-e89b-42d3-a456-426614174000\"," ++
          "\"task\":\"buy milk\",\"completed\":false," ++
          "\"createdAt\":\"2024-01-01T00:00:00.000Z\"\x7d\x7d")) } :=
  ⟨rfl, (handler_created acceptingRuntime ⟨utf16 "\x7b\"task\":\"buy milk\"\x7d"⟩
    [(utf16 "task", .string (utf16 "buy milk"))] rfl rfl).1 (by decide)⟩

/-- C2: for every event whose body parses to a JSON object and every error the
store write throws, the handler returns status 500 with the body
`{"message":"Could not create to-do item"}`; the response is the same whatever
the error, the task, the id and the timestamp of the invocation. -/
theorem handler_store_failure (rt : Runtime) (event : Event)
    (members : List (JSString × JSValue)) (err : JSError)
    (hparse : JSON.parse event.body = .ok (.object members))
    (hsend : rt.send (params rt (ownProperty members (utf16 "task"))) = .error err) :
    (handler rt event).result = .ok
      { statusCode := 500
        body := .string (utf16 "\x7b\"message\":\"Could not create to-do item\"\x7d") } ∧
    ∀ (rt' : Runtime) (event' : Event) (members' : List (JSString × JSValue)) (err' : JSError),
      JSON.parse event'.body = .ok (.object members') →
      rt'.send (params rt' (ownProperty members' (utf16 "task"))) = .error err' →
      (handler rt' event').result = (handler rt event).result := by
  have h := handler_of_send_error rt event _ _ err hparse (task_of_object members) hsend
  refine ⟨by rw [h]; rfl, ?_⟩
  intro rt' event' members' err' hparse' hsend'
  rw [h, handler_of_send_error rt' event' _ _ err' hparse' (task_of_object members') hsend']

/-- The handler of C2 at the body `{"task":"buy milk"}`, with a store that
rejects the put. -/
theorem handler_store_failure_witness :
    JSON.parse (utf16 "\x7b\"task\":\"buy milk\"\x7d")
        = .ok (.object [(utf16 "task", .string (utf16 "buy milk"))]) ∧
    (handler rejectingRuntime ⟨utf16 "\x7b\"task\":\"buy milk\"\x7d"⟩).result = .ok
      { statusCode := 500
        body := .string (utf16 "\x7b\"message\":\"Could not create to-do item\"\x7d") } :=
  ⟨rfl, (handler_store_failure rejectingRuntime ⟨utf16 "\x7b\"task\":\"buy milk\"\x7d"⟩
    [(utf16 "task", .string (utf16 "buy milk"))] _ rfl rfl).1⟩

theorem not_roundTrips_negative_zero :
    ¬ RoundTrips acceptingRuntime ⟨utf16 "\x7b\"task\":-0\x7d"⟩ := by
  intro h
  have hparse : JSON.parse (Event.mk (utf16 "\x7b\"task\":-0\x7d")).body
      = .ok (.object [(utf16 "task", .number (.finite true 0 (-1074)))]) := by rfl
  have hh := handler_of_send_ok acceptingRuntime ⟨utf16 "\x7b\"task\":-0\x7d"⟩ _ _ hparse
    (task_of_object _) rfl (by decide)
  have htask : ownProperty [(utf16 "task", JSValue.number (.finite true 0 (-1074)))]
      (utf16 "task") = .number (.finite true 0 (-1074)) := rfl
  rw [htask] at hh
  obtain ⟨text, decoded, input, hbody, hdec, heff, hsame⟩ := h _ (by rw [hh]) rfl
  rw [stringify_created] at hbody
  have htext : serializeJSONProperty (.number (.finite true 0 (-1074)))
      = some (utf16 "0") := rfl
  rw [htext] at hbody
  injection hbody with hbody
  subst hbody
  have hzero : JSON.parse (utf16 "0") = .ok (.number (.finite false 0 (-1074))) := by rfl
  rw [parse_createdText _ _ (.number (.finite false 0 (-1074))) _
    (fun T hT => by cases hT; exact readsInPlace_of_parse _ _ hzero)] at hdec
  injection hdec with hdec
  subst hdec
  rw [hh] at heff
  simp only [List.cons.injEq, Effect.send.injEq, and_true] at heff
  subst heff
  have h2 := hsame.2.1
  rw [get_item_decodedBody, get_task_decodedItem_some, get_task_params] at h2
  simp at h2

set_option maxRecDepth 20000 in
/-- C3, as the specification states it, fails: the body `{"task":-0}` parses
to a task that is the Number `-0`; the store accepts the put, whose record
carries `-0`, the handler returns 201, and the body says `"task":0`, so the item
read back from the body has the task `+0`, not the `-0` of the record. -/
theorem round_trip_fails_on_negative_zero :
    JSON.parse (utf16 "\x7b\"task\":-0\x7d")
      = .ok (.object [(utf16 "task", .number (.finite true 0 (-1074)))]) ∧
    handler acceptingRuntime ⟨utf16 "\x7b\"task\":-0\x7d"⟩ =
      { result := .ok
          { statusCode := 201
            body := .string (utf16 ("\x7b\"message\":\"To-do item created successfully\"," ++
              "\"item\":\x7b\"id\":\"123e4567-e89b-42d3-a456-426614174000\"," ++
              "\"task\":0,\"completed\":false," ++
              "\"createdAt\":\"2024-01-01T00:00:00.000Z\"\x7d\x7d")) }
        effects := [.send (params acceptingRuntime (.number (.finite true 0 (-1074))))] } ∧
    (∃ decoded,
      JSON.parse (utf16 ("\x7b\"message\":\"To-do item created successfully\"," ++
        "\"item\":\x7b\"id\":\"123e4567-e89b-42d3-a456-426614174000\"," ++
        "\"task\":0,\"completed\":false," ++
        "\"createdAt\":\"2024-01-01T00:00:00.000Z\"\x7d\x7d")) = .ok decoded ∧
      (decoded.get (utf16 "item")).get (utf16 "task") = .number (.finite false 0 (-1074))) ∧
    (params acceptingRuntime (.number (.finite true 0 (-1074)))).Item.get (utf16 "task")
      = .number (.finite true 0 (-1074)) ∧
    ¬ RoundTrips acceptingRuntime ⟨utf16 "\x7b\"task\":-0\x7d"⟩ :=
  ⟨by rfl, by rfl, ⟨_, by rfl, by rfl⟩, rfl, not_roundTrips_negative_zero⟩

theorem sameItem_refl (a : JSValue) : SameItem a a := ⟨rfl, rfl, rfl, rfl⟩

/-- C3 (amended): for every invocation that returns 201, the handler sent one
put, the body is the JSON text of the success message together with exactly the
record of that put, and `JSON.parse` reads the body.  The item read from it is
that record with the task read back (`JSValue.readBack`: `0` for a negative
zero, `null` for a number that is not finite, every other part of the task as it
was); when the body had no task the item has no `task` member and agrees with
the record on `id`, `task`, `completed` and `createdAt`.  So the item read back
has the four fields of the record exactly when the task holds no negative zero
and no number that is not finite (`JSValue.isExact`): that is every string,
every boolean, `null`, every other number, and every array and object of such
values. -/
theorem handler_round_trip (rt : Runtime) (event : Event) (r : Response)
    (hres : (handler rt event).result = .ok r) (h201 : r.statusCode = 201) :
    ∃ task text decoded,
      (handler rt event).effects = [.send (params rt task)] ∧
      r.body = .string text ∧
      JSON.stringify (.object
        [(utf16 "message", .string (utf16 "To-do item created successfully")),
         (utf16 "item", (params rt task).Item)]) = .string text ∧
      JSON.parse text = .ok decoded ∧
      SameItem (decoded.get (utf16 "item")) (params rt task.readBack).Item ∧
      (task ≠ .undefined → decoded.get (utf16 "item") = (params rt task.readBack).Item) ∧
      (SameItem (decoded.get (utf16 "item")) (params rt task).Item ↔ task.isExact = true) := by
  obtain ⟨body, task, hparse, htask, hsend, hfit⟩ := handler_201_inv rt event r hres h201
  have hh := handler_of_send_ok rt event body task hparse htask hsend hfit
  rw [hh] at hres
  simp only [Except.ok.injEq] at hres
  subst hres
  have hkey : ∀ decoded : JSValue,
      SameItem (decoded.get (utf16 "item")) (params rt task.readBack).Item →
      (SameItem (decoded.get (utf16 "item")) (params rt task).Item ↔ task.isExact = true) := by
    intro decoded hsame
    rw [← readBack_eq_iff]
    constructor
    · intro h
      have h1 := hsame.2.1
      have h2 := h.2.1
      rw [get_task_params] at h1 h2
      rw [← h1, h2]
    · intro h
      rw [h] at hsame
      exact hsame
  rcases task_readsBack event.body body task hparse htask with hundef | ⟨T, hT, hback⟩
  · subst hundef
    have hdec := parse_createdText rt.randomUUID (serializeJSONProperty .undefined)
      .undefined rt.now (fun T' hT' => by simp [serializeJSONProperty] at hT')
    have hsame : SameItem
        ((decodedBody rt.randomUUID (serializeJSONProperty .undefined) .undefined rt.now).get
          (utf16 "item")) (params rt JSValue.undefined.readBack).Item := by
      rw [get_item_decodedBody]
      exact sameItem_decodedItem_none rt
    exact ⟨.undefined, _, _, by rw [hh], stringify_created rt .undefined,
      stringify_created rt .undefined, hdec, hsame, fun h => absurd rfl h, hkey _ hsame⟩
  · have hdec := parse_createdText rt.randomUUID (serializeJSONProperty task)
      task.readBack rt.now (fun T' hT' => by
        rw [hT] at hT'
        injection hT' with hT'
        subst hT'
        exact readsInPlace_of_parse T _ hback)
    have heq : (decodedBody rt.randomUUID (serializeJSONProperty task) task.readBack rt.now).get
        (utf16 "item") = (params rt task.readBack).Item := by
      rw [get_item_decodedBody, hT, decodedItem_some]
    have hsame : SameItem
        ((decodedBody rt.randomUUID (serializeJSONProperty task) task.readBack rt.now).get
          (utf16 "item")) (params rt task.readBack).Item := by
      rw [heq]
      exact sameItem_refl _
    exact ⟨task, _, _, by rw [hh], stringify_created rt task, stringify_created rt task,
      hdec, hsame, fun _ => heq, hkey _ hsame⟩

set_option maxRecDepth 20000 in
/-- The round trip of C3 at the body `{"task":[42.5,{"a":null}]}`, with a store
that accepts the put. -/
theorem handler_round_trip_witness :
    (handler acceptingRuntime ⟨utf16 "\x7b\"task\":[42.5,\x7b\"a\":null\x7d]\x7d"⟩).result = .ok
      { statusCode := 201
        body := .string (utf16 ("\x7b\"message\":\"To-do item created successfully\"," ++
          "\"item\":\x7b\"id\":\"123e4567-e89b-42d3-a456-426614174000\"," ++
          "\"task\":[42.5,\x7b\"a\":null\x7d],\"completed\":false," ++
          "\"createdAt\":\"2024-01-01T00:00:00.000Z\"\x7d\x7d")) } ∧
    ∃ task text decoded,
      (handler acceptingRuntime ⟨utf16 "\x7b\"task\":[42.5,\x7b\"a\":null\x7d]\x7d"⟩).effects
        = [.send (params acceptingRuntime task)] ∧
      JSValue.string (utf16 ("\x7b\"message\":\"To-do item created successfully\"," ++
          "\"item\":\x7b\"id\":\"123e4567-e89b-42d3-a456-426614174000\"," ++
          "\"task\":[42.5,\x7b\"a\":null\x7d],\"completed\":false," ++
          "\"createdAt\":\"2024-01-01T00:00:00.000Z\"\x7d\x7d")) = .string text ∧
      JSON.stringify (.object
        [(utf16 "message", .string (utf16 "To-do item created successfully")),
         (utf16 "item", (params acceptingRuntime task).Item)]) = .string text ∧
      JSON.parse text = .ok decoded ∧
      SameItem (decoded.get (utf16 "item")) (params acceptingRuntime task.readBack).Item ∧
      (task ≠ .undefined →
        decoded.get (utf16 "item") = (params acceptingRuntime task.readBack).Item) ∧
      (SameItem (decoded.get (utf16 "item")) (params acceptingRuntime task).Item
        ↔ task.isExact = true) :=
  ⟨by rfl, handler_round_trip acceptingRuntime ⟨utf16 "\x7b\"task\":[42.5,\x7b\"a\":null\x7d]\x7d"⟩ _ (by rfl) rfl⟩

theorem taskBody_eq (s : JSString) :
    taskBody s = 0x7B :: (quoteJSONString (utf16 "task") ++ 0x3A ::
      (quoteJSONString s ++ 0x7D :: [])) := by
  simp only [taskBody, quoteJSONString, List.append_assoc, List.cons_append, List.nil_append]
  rfl

theorem parse_taskBody (s : JSString) :
    JSON.parse (taskBody s) = .ok (.object [(utf16 "task", .string s)]) := by
  have hlen : 1 ≤ (taskBody s).length := by
    rw [taskBody_eq]
    simp
  obtain ⟨f, hf⟩ : ∃ f, 2 * (taskBody s).length + 2 = f + 3 :=
    ⟨2 * (taskBody s).length + 2 - 3, by omega⟩
  have h : parseValue (f + 3) (taskBody s) = some (.object [(utf16 "task", .string s)], []) := by
    rw [taskBody_eq, parseValue_object_open (f + 2),
      parseMembers_close (readsAs_string s).inPlace f,
      createDataProperty_fresh [] _ _ rfl (by decide)]
    rfl
  simp [JSON.parse, hf, h, skipWhiteSpace]

theorem stringify_taskBody (s : JSString) :
    JSON.stringify (.object [(utf16 "task", .string s)]) = .string (taskBody s) := by
  simp only [JSON.stringify, serializeJSONProperty, serializeMembers, joinComma, taskBody,
    quoteJSONString, List.append_assoc, List.cons_append, List.nil_append]
  rfl

/-- C4: for every string `s`, the empty string included, invoking the handler
with the body `{"task":s}` and a successful write yields 201 with a body whose
`item.task` is `s`, code unit for code unit, and whose `item.completed` is
`false`; the one put sent to the store carries a record with the same task. -/
theorem handler_task_verbatim (rt : Runtime) (s : JSString)
    (hsend : rt.send (params rt (.string s)) = .ok ()) :
    JSON.stringify (.object [(utf16 "task", .string s)]) = .string (taskBody s) ∧
    ∃ text decoded,
      (handler rt ⟨taskBody s⟩).result = .ok { statusCode := 201, body := .string text } ∧
      JSON.parse text = .ok decoded ∧
      (decoded.get (utf16 "item")).get (utf16 "task") = .string s ∧
      (decoded.get (utf16 "item")).get (utf16 "completed") = .bool false ∧
      (handler rt ⟨taskBody s⟩).effects = [.send (params rt (.string s))] ∧
      (params rt (.string s)).Item.get (utf16 "task") = .string s := by
  have hh := handler_of_send_ok rt ⟨taskBody s⟩ _ _ (parse_taskBody s) (task_of_object _) hsend
    (by have := rt.stack_room; simpa [ownProperty, JSValue.depth] using this)
  have htask : ownProperty [(utf16 "task", JSValue.string s)] (utf16 "task") = .string s := rfl
  rw [htask, stringify_created] at hh
  refine ⟨stringify_taskBody s, _, _, by rw [hh], parse_createdText _ _ (.string s) _
    (fun T hT => ?_), ?_, ?_, by rw [hh], rfl⟩
  · simp only [serializeJSONProperty, Option.some.injEq] at hT
    subst hT
    exact (readsAs_string s).inPlace_text
  · rfl
  · rfl

/-- The handler of C4 at the empty task, with a store that accepts the put. -/
theorem handler_task_verbatim_witness :
    acceptingRuntime.send (params acceptingRuntime (.string [])) = .ok () ∧
    taskBody [] = utf16 "\x7b\"task\":\"\"\x7d" ∧
    ∃ text decoded,
      (handler acceptingRuntime ⟨taskBody []⟩).result
        = .ok { statusCode := 201, body := .string text } ∧
      JSON.parse text = .ok decoded ∧
      (decoded.get (utf16 "item")).get (utf16 "task") = .string [] ∧
      (decoded.get (utf16 "item")).get (utf16 "completed") = .bool false ∧
      (handler acceptingRuntime ⟨taskBody []⟩).effects
        = [.send (params acceptingRuntime (.string []))] ∧
      (params acceptingRuntime (.string [])).Item.get (utf16 "task") = .string [] :=
  ⟨rfl, rfl, (handler_task_verbatim acceptingRuntime [] rfl).2⟩

/-- C5: every put that an invocation sends carries a record the handler built
from the task of the parsed body alone: its `completed` is `false`, its `id` is
the identifier generated in this invocation and its `createdAt` the timestamp
generated in this invocation, whatever fields the body holds; the put goes to
the configured table. -/
theorem handler_item_invariant (rt : Runtime) (event : Event) (input : PutCommandInput)
    (hput : Effect.send input ∈ (handler rt event).effects) :
    (∃ body task, JSON.parse event.body = .ok body ∧ body.task = .ok task ∧
      input = params rt task) ∧
    input.Item.get (utf16 "completed") = .bool false ∧
    input.Item.get (utf16 "id") = .string rt.randomUUID ∧
    input.Item.get (utf16 "createdAt") = .string rt.now ∧
    input.TableName = rt.tableName := by
  have key : ∃ body task, JSON.parse event.body = .ok body ∧ body.task = .ok task ∧
      input = params rt task := by
    cases hparse : JSON.parse event.body with
    | error e => rw [handler_of_parse_error rt event e hparse] at hput; simp at hput
    | ok body =>
      cases htask : body.task with
      | error e => rw [handler_of_task_error rt event body e hparse htask] at hput; simp at hput
      | ok task =>
        refine ⟨body, task, rfl, htask, ?_⟩
        cases hsend : rt.send (params rt task) with
        | error err =>
          rw [handler_of_send_error rt event body task err hparse htask hsend] at hput
          simpa using hput
        | ok u =>
          by_cases hfit : task.depth + 2 ≤ rt.stack
          · rw [handler_of_send_ok rt event body task hparse htask hsend hfit] at hput
            simpa using hput
          · rw [handler_of_overflow rt event body task hparse htask hsend (by omega)] at hput
            simpa using hput
  obtain ⟨body, task, hparse, htask, rfl⟩ := key
  exact ⟨⟨body, task, hparse, htask, rfl⟩, rfl, rfl, rfl, rfl⟩

set_option maxRecDepth 8000 in
/-- The put of C5 at a body that itself supplies `completed`, `id` and
`createdAt`: the record sent has the generated `id` and `createdAt` and
`completed` false. -/
theorem handler_item_invariant_witness :
    Effect.send (params acceptingRuntime (.string (utf16 "x"))) ∈
      (handler acceptingRuntime ⟨utf16
        "\x7b\"task\":\"x\",\"completed\":true,\"id\":\"mine\",\"createdAt\":\"then\"\x7d"⟩).effects ∧
    (params acceptingRuntime (.string (utf16 "x"))).Item.get (utf16 "completed") = .bool false ∧
    (params acceptingRuntime (.string (utf16 "x"))).Item.get (utf16 "id")
      = .string (utf16 "123e4567-e89b-42d3-a456-426614174000") ∧
    (params acceptingRuntime (.string (utf16 "x"))).Item.get (utf16 "createdAt")
      = .string (utf16 "2024-01-01T00:00:00.000Z") ∧
    (params acceptingRuntime (.string (utf16 "x"))).TableName = some (utf16 "todos") :=
  ⟨List.Mem.head _, (handler_item_invariant acceptingRuntime ⟨utf16
    "\x7b\"task\":\"x\",\"completed\":true,\"id\":\"mine\",\"createdAt\":\"then\"\x7d"⟩
    (params acceptingRuntime (.string (utf16 "x"))) (List.Mem.head _)).2⟩

/-- C6, as the specification states it, fails: at the body whose task is an
array nested 6000 levels deep the store accepts the put, `JSON.stringify` then
throws a RangeError inside the `try`, and the log receives that error although
the write succeeded. -/
theorem effects_fail_on_deep_task :
    JSON.parse (deepBody 5999) = .ok (.object [(utf16 "task", nestedArray 5999)]) ∧
    acceptingRuntime.send (params acceptingRuntime (nestedArray 5999)) = .ok () ∧
    logs (handler acceptingRuntime ⟨deepBody 5999⟩).effects = [rangeError] ∧
    ¬ logs (handler acceptingRuntime ⟨deepBody 5999⟩).effects = [] := by
  have htask : ownProperty [(utf16 "task", nestedArray 5999)] (utf16 "task")
      = nestedArray 5999 := rfl
  have hh := handler_of_overflow acceptingRuntime ⟨deepBody 5999⟩ _ _ (parse_deepBody 5999)
    (task_of_object _) rfl (by rw [htask, depth_nestedArray]; decide)
  rw [htask] at hh
  refine ⟨parse_deepBody 5999, rfl, ?_, ?_⟩
  · rw [hh]; rfl
  · rw [hh]; simp [logs]

/-- C6 (amended): for every invocation whose body parses to a JSON object,
exactly one put is sent to the store, to the configured table and carrying the
record built from the task of the body, whether the store accepts it or not;
the log gets exactly one entry when the handler answers 500: the error of the
store when the write fails, the RangeError of `JSON.stringify` when the write
succeeds and the task nests deeper than the call stack allows; it gets no entry
when the write succeeds and the response is serialised. -/
theorem handler_effects (rt : Runtime) (event : Event) (members : List (JSString × JSValue))
    (hparse : JSON.parse event.body = .ok (.object members)) :
    puts (handler rt event).effects = [params rt (ownProperty members (utf16 "task"))] ∧
    (params rt (ownProperty members (utf16 "task"))).TableName = rt.tableName ∧
    (∀ err, rt.send (params rt (ownProperty members (utf16 "task"))) = .error err →
      (handler rt event).effects
        = [.send (params rt (ownProperty members (utf16 "task"))), .consoleError err] ∧
      logs (handler rt event).effects = [err]) ∧
    (rt.send (params rt (ownProperty members (utf16 "task"))) = .ok () →
      (ownProperty members (utf16 "task")).depth + 2 ≤ rt.stack →
      (handler rt event).effects = [.send (params rt (ownProperty members (utf16 "task")))] ∧
      logs (handler rt event).effects = []) ∧
    (rt.send (params rt (ownProperty members (utf16 "task"))) = .ok () →
      rt.stack < (ownProperty members (utf16 "task")).depth + 2 →
      (handler rt event).effects
        = [.send (params rt (ownProperty members (utf16 "task"))), .consoleError rangeError] ∧
      logs (handler rt event).effects = [rangeError]) := by
  refine ⟨?_, rfl, ?_, ?_, ?_⟩
  · cases hsend : rt.send (params rt (ownProperty members (utf16 "task"))) with
    | error err =>
      rw [handler_of_send_error rt event _ _ err hparse (task_of_object members) hsend]
      rfl
    | ok u =>
      by_cases hfit : (ownProperty members (utf16 "task")).depth + 2 ≤ rt.stack
      · rw [handler_of_send_ok rt event _ _ hparse (task_of_object members) hsend hfit]
        rfl
      · rw [handler_of_overflow rt event _ _ hparse (task_of_object members) hsend
          (by omega)]
        rfl
  · intro err hsend
    rw [handler_of_send_error rt event _ _ err hparse (task_of_object members) hsend]
    exact ⟨rfl, rfl⟩
  · intro hsend hfit
    rw [handler_of_send_ok rt event _ _ hparse (task_of_object members) hsend hfit]
    exact ⟨rfl, rfl⟩
  · intro hsend hdeep
    rw [handler_of_overflow rt event _ _ hparse (task_of_object members) hsend hdeep]
    exact ⟨rfl, rfl⟩

set_option maxRecDepth 8000 in
/-- The effects of C6 at the body `{"task":"buy milk"}`, with a store that
rejects the put: one put, one log entry. -/
theorem handler_effects_witness :
    JSON.parse (utf16 "\x7b\"task\":\"buy milk\"\x7d")
        = .ok (.object [(utf16 "task", .string (utf16 "buy milk"))]) ∧
    puts (handler rejectingRuntime ⟨utf16 "\x7b\"task\":\"buy milk\"\x7d"⟩).effects
      = [params rejectingRuntime (.string (utf16 "buy milk"))] ∧
    logs (handler rejectingRuntime ⟨utf16 "\x7b\"task\":\"buy milk\"\x7d"⟩).effects
      = [{ name := utf16 "ResourceNotFoundException",
           message := utf16 "Requested resource not found" }] :=
  ⟨rfl, (handler_effects rejectingRuntime ⟨utf16 "\x7b\"task\":\"buy milk\"\x7d"⟩
      [(utf16 "task", .string (utf16 "buy milk"))] rfl).1,
    ((handler_effects rejectingRuntime ⟨utf16 "\x7b\"task\":\"buy milk\"\x7d"⟩
      [(utf16 "task", .string (utf16 "buy milk"))] rfl).2.2.1 _ rfl).2⟩

theorem task_of_parsed (text : JSString) (body : JSValue)
    (hparse : JSON.parse text = .ok body) (hnull : body ≠ .null) :
    ∃ task, body.task = .ok task := by
  have hu := parse_ne_undefined text body hparse
  cases body with
  | undefined => exact absurd rfl hu
  | null => exact absurd rfl hnull
  | bool b => exact ⟨_, rfl⟩
  | number x => exact ⟨_, rfl⟩
  | string s => exact ⟨_, rfl⟩
  | array items => exact ⟨_, rfl⟩
  | object members => exact ⟨_, rfl⟩

theorem result_ok_inv (rt : Runtime) (event : Event) (r : Response)
    (hres : (handler rt event).result = .ok r) :
    ∃ body, JSON.parse event.body = .ok body ∧ body ≠ .null := by
  cases hparse : JSON.parse event.body with
  | error e => rw [handler_of_parse_error rt event e hparse] at hres; simp at hres
  | ok body =>
    refine ⟨body, rfl, ?_⟩
    intro hnull
    subst hnull
    rw [handler_of_task_error rt event .null nullPropertyError hparse rfl] at hres
    simp at hres

/-- C7, as the specification states it, fails: at the body `{"task":"buy milk"`,
which lacks its closing brace, the handler returns neither response; the
SyntaxError of `JSON.parse` leaves the handler. -/
theorem two_responses_fails_on_malformed_body :
    ¬ TwoResponses acceptingRuntime ⟨utf16 "\x7b\"task\":\"buy milk\""⟩ := by
  have h := handler_of_parse_error acceptingRuntime ⟨utf16 "\x7b\"task\":\"buy milk\""⟩
    jsonParseError rfl
  intro hc
  rcases hc with ⟨task, hc⟩ | hc <;> rw [h] at hc <;> simp at hc

/-- C7 (amended): the handler ends with one of the two responses, 201 with the
created item or 500 with the generic message, exactly when the body of the
event parses to a JSON value other than `null`; for every other event there is
no response. -/
theorem handler_two_responses (rt : Runtime) (event : Event) :
    TwoResponses rt event ↔ ∃ body, JSON.parse event.body = .ok body ∧ body ≠ .null := by
  constructor
  · intro h
    rcases h with ⟨task, h⟩ | h
    · exact result_ok_inv rt event _ h
    · exact result_ok_inv rt event _ h
  · rintro ⟨body, hparse, hnull⟩
    obtain ⟨task, htask⟩ := task_of_parsed event.body body hparse hnull
    cases hsend : rt.send (params rt task) with
    | error err =>
      right
      rw [handler_of_send_error rt event body task err hparse htask hsend]
    | ok u =>
      by_cases hfit : task.depth + 2 ≤ rt.stack
      · left
        exact ⟨task, by rw [handler_of_send_ok rt event body task hparse htask hsend hfit]⟩
      · right
        rw [handler_of_overflow rt event body task hparse htask hsend (by omega)]

theorem createdText_id_inj (id1 id2 : JSString) (tt1 tt2 : Option (List Nat))
    (now1 now2 : JSString) (h : createdText id1 tt1 now1 = createdText id2 tt2 now2) :
    id1 = id2 := by
  simp only [createdText, quoteJSONString, List.cons_append, List.append_assoc] at h
  have h1 := List.append_cancel_left h
  simp only [List.cons.injEq, true_and] at h1
  have h2 := congrArg parseStringBody h1
  simp only [List.nil_append, parseStringBody_quoteBody, Option.some.injEq, Prod.mk.injEq] at h2
  exact h2.1

/-- C8: two different invocations of one deployment whose bodies carry the same
task and which both succeed (the store accepts both puts and both responses are
serialised) send one put each, for two records with that same task and
different `id`s, and return two different 201 bodies: nothing is deduplicated
on the task. The identifiers are those of the deployment's source, which hands
every invocation its own. -/
theorem handler_not_idempotent (d : Deployment) (i j : Nat) (hij : i ≠ j)
    (event1 event2 : Event) (members1 members2 : List (JSString × JSValue))
    (hparse1 : JSON.parse event1.body = .ok (.object members1))
    (hparse2 : JSON.parse event2.body = .ok (.object members2))
    (hsame : ownProperty members1 (utf16 "task") = ownProperty members2 (utf16 "task"))
    (hsend1 : d.send i (params (d.invocation i) (ownProperty members1 (utf16 "task"))) = .ok ())
    (hsend2 : d.send j (params (d.invocation j) (ownProperty members2 (utf16 "task"))) = .ok ())
    (hfit : (ownProperty members1 (utf16 "task")).depth + 2 ≤ d.stack) :
    ∃ task text1 text2,
      (handler (d.invocation i) event1).result
        = .ok { statusCode := 201, body := .string text1 } ∧
      (handler (d.invocation j) event2).result
        = .ok { statusCode := 201, body := .string text2 } ∧
      (handler (d.invocation i) event1).effects = [.send (params (d.invocation i) task)] ∧
      (handler (d.invocation j) event2).effects = [.send (params (d.invocation j) task)] ∧
      (params (d.invocation i) task).Item.get (utf16 "task")
        = (params (d.invocation j) task).Item.get (utf16 "task") ∧
      (params (d.invocation i) task).Item.get (utf16 "id")
        ≠ (params (d.invocation j) task).Item.get (utf16 "id") ∧
      (params (d.invocation i) task).Item ≠ (params (d.invocation j) task).Item ∧
      text1 ≠ text2 := by
  have hid : (d.invocation i).randomUUID ≠ (d.invocation j).randomUUID :=
    fun h => hij (d.ids.fresh h)
  have h1 := handler_of_send_ok (d.invocation i) event1 _ _ hparse1 (task_of_object members1)
    hsend1 hfit
  have h2 := handler_of_send_ok (d.invocation j) event2 _ _ hparse2 (task_of_object members2)
    hsend2 (by rw [← hsame]; exact hfit)
  rw [← hsame] at h2
  rw [stringify_created] at h1 h2
  have hne : (params (d.invocation i) (ownProperty members1 (utf16 "task"))).Item.get
      (utf16 "id")
      ≠ (params (d.invocation j) (ownProperty members1 (utf16 "task"))).Item.get
        (utf16 "id") := by
    intro h
    have h' : JSValue.string (d.invocation i).randomUUID
        = JSValue.string (d.invocation j).randomUUID := h
    injection h' with h'
    exact hid h'
  refine ⟨ownProperty members1 (utf16 "task"), _, _, by rw [h1], by rw [h2], by rw [h1],
    by rw [h2], rfl, hne, ?_, ?_⟩
  · intro h
    exact hne (by rw [h])
  · intro h
    exact hid (createdText_id_inj _ _ _ _ _ _ h)

set_option maxRecDepth 8000 in
/-- The first two invocations of a deployment, both at the body
`{"task":"buy milk"}`. -/
theorem handler_not_idempotent_witness :
    (0 : Nat) ≠ 1 ∧
    ∃ task text1 text2,
      (handler (sampleDeployment.invocation 0) ⟨utf16 "\x7b\"task\":\"buy milk\"\x7d"⟩).result
        = .ok { statusCode := 201, body := .string text1 } ∧
      (handler (sampleDeployment.invocation 1) ⟨utf16 "\x7b\"task\":\"buy milk\"\x7d"⟩).result
        = .ok { statusCode := 201, body := .string text2 } ∧
      (handler (sampleDeployment.invocation 0) ⟨utf16 "\x7b\"task\":\"buy milk\"\x7d"⟩).effects
        = [.send (params (sampleDeployment.invocation 0) task)] ∧
      (handler (sampleDeployment.invocation 1) ⟨utf16 "\x7b\"task\":\"buy milk\"\x7d"⟩).effects
        = [.send (params (sampleDeployment.invocation 1) task)] ∧
      (params (sampleDeployment.invocation 0) task).Item.get (utf16 "task")
        = (params (sampleDeployment.invocation 1) task).Item.get (utf16 "task") ∧
      (params (sampleDeployment.invocation 0) task).Item.get (utf16 "id")
        ≠ (params (sampleDeployment.invocation 1) task).Item.get (utf16 "id") ∧
      (params (sampleDeployment.invocation 0) task).Item
        ≠ (params (sampleDeployment.invocation 1) task).Item ∧
      text1 ≠ text2 :=
  ⟨by decide, handler_not_idempotent sampleDeployment 0 1 (by decide)
    ⟨utf16 "\x7b\"task\":\"buy milk\"\x7d"⟩ ⟨utf16 "\x7b\"task\":\"buy milk\"\x7d"⟩
    [(utf16 "task", .string (utf16 "buy milk"))] [(utf16 "task", .string (utf16 "buy milk"))]
    rfl rfl rfl rfl rfl (by decide)⟩

/-- C9: for every event whose body is not valid JSON, the handler returns no
response: the SyntaxError that `JSON.parse` throws leaves the handler as it is,
no put is sent to the store and nothing is logged. -/
theorem handler_malformed_body (rt : Runtime) (event : Event) (e : JSError)
    (hparse : JSON.parse event.body = .error e) :
    (handler rt event).result = .error e ∧
    e.name = utf16 "SyntaxError" ∧
    (handler rt event).effects = [] := by
  rw [handler_of_parse_error rt event e hparse]
  refine ⟨rfl, ?_, rfl⟩
  unfold JSON.parse at hparse
  split at hparse
  · split_ifs at hparse
    injection hparse with hparse
    subst hparse
    rfl
  · injection hparse with hparse
    subst hparse
    rfl

/-- The invocation of C9 at the body `buy milk`, which is not JSON. -/
theorem handler_malformed_body_witness :
    JSON.parse (utf16 "buy milk") = .error jsonParseError ∧
    (handler acceptingRuntime ⟨utf16 "buy milk"⟩).result = .error jsonParseError ∧
    jsonParseError.name = utf16 "SyntaxError" ∧
    (handler acceptingRuntime ⟨utf16 "buy milk"⟩).effects = [] :=
  ⟨rfl, handler_malformed_body acceptingRuntime ⟨utf16 "buy milk"⟩ jsonParseError rfl⟩

theorem ownProperty_of_not_has (members : List (JSString × JSValue)) (k : JSString)
    (h : hasOwnProperty members k = false) : ownProperty members k = .undefined := by
  induction members with
  | nil => rfl
  | cons m ms ih =>
    obtain ⟨k', v⟩ := m
    simp only [hasOwnProperty, Bool.or_eq_false_iff, decide_eq_false_iff_not] at h
    simp only [ownProperty, h.1, if_false]
    exact ih h.2

/-- C10: for every event whose body parses to a JSON object with no `task`
field, the handler validates nothing: it sends the put, with a record whose
task is `undefined`, and when the write succeeds it returns 201 with the created
item, whose JSON text has no `task` member. -/
theorem handler_missing_task (rt : Runtime) (event : Event)
    (members : List (JSString × JSValue))
    (hparse : JSON.parse event.body = .ok (.object members))
    (hno : hasOwnProperty members (utf16 "task") = false) :
    puts (handler rt event).effects =
      [{ TableName := rt.tableName
         Item := .object
           [(utf16 "id", .string rt.randomUUID),
            (utf16 "task", .undefined),
            (utf16 "completed", .bool false),
            (utf16 "createdAt", .string rt.now)] }] ∧
    (rt.send (params rt .undefined) = .ok () →
      (handler rt event).result = .ok
        { statusCode := 201
          body := .string
            (utf16 "\x7b\"message\":\"To-do item created successfully\",\"item\":\x7b\"id\":"
              ++ (quoteJSONString rt.randomUUID
              ++ (utf16 ",\"completed\":false,\"createdAt\":"
              ++ (quoteJSONString rt.now ++ utf16 "\x7d\x7d")))) }) := by
  have hu := ownProperty_of_not_has members _ hno
  have htask : (JSValue.object members).task = .ok .undefined := by
    rw [task_of_object, hu]
  have hfit : JSValue.undefined.depth + 2 ≤ rt.stack := by
    have := rt.stack_room
    simpa [JSValue.depth] using this
  constructor
  · cases hsend : rt.send (params rt .undefined) with
    | error err =>
      rw [handler_of_send_error rt event _ _ err hparse htask hsend]
      rfl
    | ok u =>
      rw [handler_of_send_ok rt event _ _ hparse htask hsend hfit]
      rfl
  · intro hsend
    rw [handler_of_send_ok rt event _ _ hparse htask hsend hfit, stringify_created]
    rfl

set_option maxRecDepth 8000 in
/-- The invocation of C10 at the body `{"title":"buy milk"}`, which has no
`task`, with a store that accepts the put. -/
theorem handler_missing_task_witness :
    JSON.parse (utf16 "\x7b\"title\":\"buy milk\"\x7d")
      = .ok (.object [(utf16 "title", .string (utf16 "buy milk"))]) ∧
    hasOwnProperty [(utf16 "title", JSValue.string (utf16 "buy milk"))] (utf16 "task") = false ∧
    acceptingRuntime.send (params acceptingRuntime .undefined) = .ok () ∧
    (handler acceptingRuntime ⟨utf16 "\x7b\"title\":\"buy milk\"\x7d"⟩).result = .ok
      { statusCode := 201
        body := .string (utf16 ("\x7b\"message\":\"To-do item created successfully\"," ++
          "\"item\":\x7b\"id\":\"123e4567-e89b-42d3-a456-426614174000\"," ++
          "\"completed\":false,\"createdAt\":\"2024-01-01T00:00:00.000Z\"\x7d\x7d")) } :=
  ⟨rfl, rfl, rfl, (handler_missing_task acceptingRuntime
    ⟨utf16 "\x7b\"title\":\"buy milk\"\x7d"⟩ [(utf16 "title", .string (utf16 "buy milk"))]
    rfl rfl).2 rfl⟩

end TodoLambda
